import Mathlib

/-!
# Live window capture (`livecapture/capture/capture.c`)

A shallow embedding of the capture registry and of the frame merge engine of
`capture.c`, followed by theorems about them.

Conventions of the embedding.

* The global linked list `all_captures` is a `List LiveCapture`, head first.  A
  pointer `struct LiveCapture *` into that list is the position of the node in
  the list; `NULL` is `none`.
* A byte buffer is a `List Nat`; a `NULL` buffer is `none`.  Reading a byte
  outside a buffer (undefined in C) yields `0`, writing outside a buffer is
  dropped.
* `int` fields are `Int`.  Signed arithmetic is taken not to overflow, except
  for the signature, which the source calls a "cyclic int" and which is
  reduced to the signed 32 bit range after every addition.
* The `float` field `blackFault` holds the rational value of the float.  The
  test `BlackPixels <= c->blackFault * c->width * c->height` is evaluated as C
  does in single precision: each `int` is converted to `float`, each product is
  rounded to `float` (`toFloat`: 24 significant bits, to nearest, ties to even),
  and the two floats are compared.  The exponent range of `float` is not
  modelled (no overflow to infinity, no NaN).
* `malloc` is taken to succeed.  The GDI resources `bmp` and `rawbits` are
  outside the embedding; the raw frame they deliver is an input.
-/

namespace Capture

/-- A window handle. -/
abbrev HWND := Nat

def ERRBUF_SIZE : Nat := 256
def SIGNATURE_SKIP : Nat := 20

def CAPTURE_WINDOW : Int := 0
def CAPTURE_CLIENT : Int := 1
def CAPTURE_RECT : Int := 2
def CAPTURE_REVERSE : Int := 4

/-- The context of one live capture (`struct LiveCapture`), without the link to
the next node, which is the list structure, and without `rawbits` and `bmp`. -/
structure LiveCapture where
  win : HWND
  getStyle : Int
  leftOffset : Int
  topOffset : Int
  rightOffset : Int
  bottomOffset : Int
  blackFault : ℚ
  err : String
  pic : Option (List Nat)
  width : Int
  height : Int
  nbBlackPixels : Int
  successiveBlacks : Int
  signature : Int
  forceBlack : Int
  deriving DecidableEq

/-- The C test `getStyle & flag` used as a truth value. -/
def hasFlag (getStyle flag : Int) : Bool := decide (Int.land getStyle flag ≠ 0)

/-- Reduction of an integer to the signed 32 bit range as a machine integer in two-complement form. -/
def wrapInt32 (x : Int) : Int := (x + 2147483648) % 4294967296 - 2147483648

/-- Model of `ZeroMemory(buf, n)`: the first `n` bytes of the buffer become zero. -/
def ZeroMemory (buf : List Nat) (n : Int) : List Nat :=
  List.replicate (min n.toNat buf.length) 0 ++ buf.drop n.toNat

/-- In place modification of the node a pointer designates. -/
def update (all_captures : List LiveCapture) (p : Nat) (f : LiveCapture → LiveCapture) :
    List LiveCapture :=
  match all_captures[p]? with
  | some c => all_captures.set p (f c)
  | none => all_captures

/-- Model of `__capture_find`: the first node whose window is `hWnd`, `none` for `NULL`. -/
def __capture_find : List LiveCapture → HWND → Option Nat
  | [], _ => none
  | c :: rest, hWnd =>
    if c.win = hWnd then some 0 else (__capture_find rest hWnd).map (· + 1)

/-- Model of `CaptureNew`: create a capturing context or update an existing one.
`IsWindow` is the platform predicate of the same name. -/
def CaptureNew (all_captures : List LiveCapture) (IsWindow : HWND → Bool) (hWnd : HWND)
    (getStyle : Int) (blackFault : ℚ) (forceBlack : Int) : List LiveCapture × Bool :=
  match __capture_find all_captures hWnd with
  | some p =>
    (update all_captures p (fun c =>
      { c with getStyle := getStyle, blackFault := blackFault, forceBlack := forceBlack }), true)
  | none =>
    if ¬ IsWindow hWnd then (all_captures, false)
    else
      let bf0 : ℚ := blackFault
      let bf1 : ℚ := if bf0 < 0 then 0 else bf0
      let bf2 : ℚ := if bf1 > 1 then 1 else bf1
      let c : LiveCapture :=
        { win := hWnd, getStyle := getStyle, leftOffset := 0, topOffset := 0,
          rightOffset := 0, bottomOffset := 0, pic := none, height := 0, width := 0,
          nbBlackPixels := -1, signature := -1, blackFault := bf2, successiveBlacks := 0,
          forceBlack := forceBlack, err := "" }
      (c :: all_captures, true)

/-- Model of `__capture_init`: (re)initialise a capture for a window size; the Boolean
is the returned value. -/
def __capture_init (c : LiveCapture) (Width Height : Int) (force : Bool) :
    LiveCapture × Bool :=
  if c.height ≠ Height ∨ c.width ≠ Width ∨ (c.width = 0 ∧ c.height = 0) ∨ force = true then
    ({ c with height := Height, width := Width,
              pic := some (List.replicate (Width * Height * 3).toNat 0),
              successiveBlacks := 0 }, true)
  else
    ({ c with err := "" }, false)

/-- The test of `__capture_copy` and `__capture_count_black` for a black pixel
at byte offset `i` of the source. -/
def blackAt (src : List Nat) (i : Nat) : Bool :=
  src.getD (i + 2) 0 == 0 && src.getD (i + 1) 0 == 0 && src.getD (i + 0) 0 == 0

/-- The body of the loops of `__capture_copy`: the three assignments, guarded
by the test for a black source pixel. -/
def copyPixel (src : List Nat) (reverse skipBlack : Bool) (i j : Nat) (dst : List Nat) :
    List Nat :=
  if ! (skipBlack && blackAt src i) then
    if reverse then
      ((dst.set (j + 2) (src.getD (i + 0) 0)).set (j + 1) (src.getD (i + 1) 0)).set
        (j + 0) (src.getD (i + 2) 0)
    else
      ((dst.set (j + 2) (src.getD (i + 2) 0)).set (j + 1) (src.getD (i + 1) 0)).set
        (j + 0) (src.getD (i + 0) 0)
  else dst

/-- One of the two loops of `__capture_copy`; `fuel` bounds the iterations. -/
def copyLoop (src : List Nat) (size : Int) (bpp : Nat) (reverse skipBlack : Bool) :
    Nat → Nat → Nat → List Nat → List Nat
  | 0, _, _, dst => dst
  | fuel + 1, i, j, dst =>
    if (i : Int) < size then
      copyLoop src size bpp reverse skipBlack fuel (i + bpp) (j + 3)
        (copyPixel src reverse skipBlack i j dst)
    else dst

/-- Model of `__capture_copy`: copy pixel data from the source to the destination,
permuting BGR to RGB and skipping the alpha channel when asked to. -/
def __capture_copy (dst src : List Nat) (width height : Int)
    (skipAlpha reverse skipBlack : Bool) : List Nat :=
  let bpp : Nat := if skipAlpha then 4 else 3
  let size : Int := width * height * bpp
  if reverse then copyLoop src size bpp true skipBlack size.toNat 0 0 dst
  else copyLoop src size bpp false skipBlack size.toNat 0 0 dst

/-- The loops of `__capture_count_black`; `sig` says whether the signature is
accumulated. -/
def countLoop (src : List Nat) (size : Int) (bpp : Nat) (sig : Bool) :
    Nat → Nat → Int → Int → Int × Int
  | 0, _, BlackPixels, signature => (BlackPixels, signature)
  | fuel + 1, i, BlackPixels, signature =>
    if (i : Int) < size then
      let BlackPixels1 := if blackAt src i then BlackPixels + 1 else BlackPixels
      let signature1 :=
        if sig && i % SIGNATURE_SKIP == 0 then
          wrapInt32 (signature + ((src.getD i 0 + src.getD (i + 1) 0 + src.getD (i + 2) 0 : Nat) : Int))
        else signature
      countLoop src size bpp sig fuel (i + bpp) BlackPixels1 signature1
    else (BlackPixels, signature)

/-- Model of `__capture_count_black`: the number of black pixels of a buffer, and its
signature when a place for it is given (`some`). -/
def __capture_count_black (src : List Nat) (size : Int) (bpp : Nat) (signature : Option Int) :
    Int × Option Int :=
  match signature with
  | some _ =>
    let r := countLoop src size bpp true size.toNat 0 0 0
    (r.1, some r.2)
  | none =>
    let r := countLoop src size bpp false size.toNat 0 0 0
    (r.1, none)

/-- The integer nearest to `q`, the even one of the two nearest when `q` is half way. -/
def roundHalfEven (q : ℚ) : Int :=
  if q - (⌊q⌋ : ℚ) < 1 / 2 then ⌊q⌋
  else if 1 / 2 < q - (⌊q⌋ : ℚ) then ⌊q⌋ + 1
  else if ⌊q⌋ % 2 = 0 then ⌊q⌋ else ⌊q⌋ + 1

/-- The value of type `float` nearest to `x`, as the conversion of an `int` and
the rounding of a product give it: 24 significant bits, ties to even. -/
def toFloat (x : ℚ) : ℚ :=
  if x = 0 then 0
  else (roundHalfEven (x / (2 : ℚ) ^ (Int.log 2 |x| - 23)) : ℚ) * (2 : ℚ) ^ (Int.log 2 |x| - 23)

/-- The test `BlackPixels <= c->blackFault * c->width * c->height` of
`__capture_store`: the product is `(blackFault * width) * height` in `float`,
and `BlackPixels` is converted to `float` for the comparison. -/
def withinFault (BlackPixels : Int) (blackFault : ℚ) (width height : Int) : Bool :=
  decide (toFloat (BlackPixels : ℚ)
    ≤ toFloat (toFloat (blackFault * toFloat (width : ℚ)) * toFloat (height : ℚ)))

/-- The effect of `CaptureClear` on the node it found. -/
def clearContext (c : LiveCapture) : LiveCapture :=
  match c.pic with
  | some pic =>
    { c with nbBlackPixels := -1, signature := -1, successiveBlacks := 0,
             pic := some (ZeroMemory pic (c.width * c.height * 3)) }
  | none => c

/-- Model of `CaptureClear`: clear the content of a capture context (make it black). -/
def CaptureClear (all_captures : List LiveCapture) (hWnd : HWND) : List LiveCapture × Bool :=
  match __capture_find all_captures hWnd with
  | none => (all_captures, false)
  | some p => (update all_captures p clearContext, true)

/-- Model of `__capture_store`: store the raw capture `src` into the picture buffer of
the node `p`; the integer is the returned number of black pixels. -/
def __capture_store (all_captures : List LiveCapture) (p : Nat) (src : List Nat)
    (skipAlpha : Bool) : List LiveCapture × Int :=
  match all_captures[p]? with
  | none => (all_captures, 0)
  | some c =>
    let bpp : Nat := if skipAlpha then 4 else 3
    let size : Int := c.width * c.height * bpp
    let r := __capture_count_black src size bpp (some 0)
    let BlackPixels : Int := r.1
    let signature : Int := r.2.getD 0
    if signature ≠ c.signature then
      if withinFault BlackPixels c.blackFault c.width c.height then
        let s1 := (CaptureClear all_captures c.win).1
        let s2 := update s1 p (fun d =>
          { d with pic := d.pic.map (fun dst => __capture_copy dst src d.width d.height
                      skipAlpha (hasFlag d.getStyle CAPTURE_REVERSE) false),
                   successiveBlacks := 0 })
        (update s2 p (fun d => { d with nbBlackPixels := BlackPixels, signature := signature }),
          BlackPixels)
      else
        let c1 : LiveCapture := { c with successiveBlacks := c.successiveBlacks + 1 }
        let s1 := all_captures.set p c1
        let s2 :=
          if c1.forceBlack > 0 then
            if c1.successiveBlacks.tmod c1.forceBlack = 0 then (CaptureClear s1 c1.win).1
            else s1
          else s1
        let s3 := update s2 p (fun d =>
          { d with pic := d.pic.map (fun dst => __capture_copy dst src d.width d.height
                      skipAlpha (hasFlag d.getStyle CAPTURE_REVERSE) true) })
        (update s3 p (fun d => { d with nbBlackPixels := BlackPixels, signature := signature }),
          BlackPixels)
    else (all_captures, BlackPixels)

/-- Model of `CaptureDelete`: delete a capture, its context and all its data. -/
def CaptureDelete (all_captures : List LiveCapture) (hWnd : HWND) : List LiveCapture × Bool :=
  match __capture_find all_captures hWnd with
  | none => (all_captures, false)
  | some p => (all_captures.eraseIdx p, true)

/-- Model of `CaptureExists`: decide if a capture exists or not. -/
def CaptureExists (all_captures : List LiveCapture) (hWnd : HWND) : Bool :=
  (__capture_find all_captures hWnd).isSome

/-- Model of `CaptureSetRect`: set the offsets used when the get style has `CAPTURE_RECT`. -/
def CaptureSetRect (all_captures : List LiveCapture) (hWnd : HWND)
    (leftOffset topOffset rightOffset bottomOffset : Int) : List LiveCapture × Bool :=
  match __capture_find all_captures hWnd with
  | none => (all_captures, false)
  | some p =>
    (update all_captures p (fun c =>
      { c with leftOffset := leftOffset, topOffset := topOffset,
               rightOffset := rightOffset, bottomOffset := bottomOffset }), true)


/-! ### Vocabulary of the statements -/

/-- Bytes per pixel of a raw frame: 4 with an alpha channel, 3 without. -/
def bytesPerPixel (skipAlpha : Bool) : Nat := if skipAlpha then 4 else 3

/-- The three colour bytes of pixel `k` of a buffer with `bpp` bytes per pixel. -/
def pixel (buf : List Nat) (bpp k : Nat) : Nat × Nat × Nat :=
  (buf.getD (k * bpp) 0, buf.getD (k * bpp + 1) 0, buf.getD (k * bpp + 2) 0)

/-- The colour bytes of a source pixel in the order the cache holds them. -/
def permute (reverse : Bool) (x : Nat × Nat × Nat) : Nat × Nat × Nat :=
  if reverse then (x.2.2, x.2.1, x.1) else x

/-- The number of black pixels among the first `n` pixels of a raw frame. -/
def blackCount (src : List Nat) (bpp n : Nat) : Nat :=
  ((List.range n).filter (fun k => decide (pixel src bpp k = (0, 0, 0)))).length

/-- The signature `__capture_store` computes for a frame of the given size. -/
def frameSignature (width height : Int) (src : List Nat) (skipAlpha : Bool) : Int :=
  (__capture_count_black src (width * height * (bytesPerPixel skipAlpha : Nat))
    (bytesPerPixel skipAlpha) (some 0)).2.getD 0

/-- The node `__capture_store` leaves behind in place of `c`, where `clr` is
what the call of `CaptureClear` does to that node: `clearContext` when the
lookup by `c.win` finds the node itself. -/
def storeContext (clr : LiveCapture → LiveCapture) (c : LiveCapture) (src : List Nat)
    (skipAlpha : Bool) : LiveCapture :=
  let bpp : Nat := bytesPerPixel skipAlpha
  let BlackPixels : Int := (__capture_count_black src (c.width * c.height * bpp) bpp (some 0)).1
  let signature : Int := frameSignature c.width c.height src skipAlpha
  if signature ≠ c.signature then
    if withinFault BlackPixels c.blackFault c.width c.height then
      let d := clr c
      { d with pic := d.pic.map (fun dst => __capture_copy dst src d.width d.height
                  skipAlpha (hasFlag d.getStyle CAPTURE_REVERSE) false),
               successiveBlacks := 0, nbBlackPixels := BlackPixels, signature := signature }
    else
      let c1 : LiveCapture := { c with successiveBlacks := c.successiveBlacks + 1 }
      let d :=
        if c1.forceBlack > 0 ∧ c1.successiveBlacks.tmod c1.forceBlack = 0 then clr c1 else c1
      { d with pic := d.pic.map (fun dst => __capture_copy dst src d.width d.height
                  skipAlpha (hasFlag d.getStyle CAPTURE_REVERSE) true),
               nbBlackPixels := BlackPixels, signature := signature }
  else c

/-- One capture cycle on the window `hWnd`, as `CaptureSnap` and
`__capture_desktop` run it: lookup of the node, `__capture_init` for the size
`Width` x `Height` of the capture, then `__capture_store` of the raw bits when
the window could be captured (`.ok`), or the record of the error message
(`.error`).  The size and the raw bits come from the platform. -/
def captureCycle (all_captures : List LiveCapture) (hWnd : HWND) (Width Height : Int)
    (frame : Except String (List Nat)) (skipAlpha : Bool) : List LiveCapture × Bool :=
  match __capture_find all_captures hWnd with
  | none => (all_captures, false)
  | some p =>
    let s1 := update all_captures p (fun c => (__capture_init c Width Height false).1)
    match frame with
    | .error msg => (update s1 p (fun c => { c with err := msg }), false)
    | .ok src => ((__capture_store s1 p src skipAlpha).1, true)

/-- The calls a client can make, with what the platform answers to each. -/
inductive Op where
  | new (valid : Bool) (hWnd : HWND) (getStyle : Int) (blackFault : ℚ) (forceBlack : Int)
  | setRect (hWnd : HWND) (leftOffset topOffset rightOffset bottomOffset : Int)
  | clear (hWnd : HWND)
  | delete (hWnd : HWND)
  | snap (hWnd : HWND) (Width Height : Int) (frame : Except String (List Nat))
      (skipAlpha : Bool)

/-- The list of captures after one call. -/
def applyOp (all_captures : List LiveCapture) : Op → List LiveCapture
  | .new valid hWnd getStyle blackFault forceBlack =>
    (CaptureNew all_captures (fun _ => valid) hWnd getStyle blackFault forceBlack).1
  | .setRect hWnd l t r b => (CaptureSetRect all_captures hWnd l t r b).1
  | .clear hWnd => (CaptureClear all_captures hWnd).1
  | .delete hWnd => (CaptureDelete all_captures hWnd).1
  | .snap hWnd Width Height frame skipAlpha =>
    (captureCycle all_captures hWnd Width Height frame skipAlpha).1

/-- The list of captures after a sequence of calls, from the empty list. -/
def run (ops : List Op) : List LiveCapture := ops.foldl applyOp []

/-- A list of captures that some sequence of calls produces. -/
def Reachable (all_captures : List LiveCapture) : Prop := ∃ ops, run ops = all_captures

/-- The windows of the nodes of the list, in order. -/
def wins (all_captures : List LiveCapture) : List HWND := all_captures.map (fun c => c.win)

/-- The context the lookup by `hWnd` returns. -/
def contextOf (all_captures : List LiveCapture) (hWnd : HWND) : Option LiveCapture :=
  match __capture_find all_captures hWnd with
  | some p => all_captures[p]?
  | none => none

/-- The picture buffer of the node `p`, empty when there is none. -/
def cacheAt (all_captures : List LiveCapture) (p : Nat) : List Nat :=
  match all_captures[p]? with
  | some c => c.pic.getD []
  | none => []

/-- The picture buffer of the context of `hWnd`, empty when there is none. -/
def cacheOf (all_captures : List LiveCapture) (hWnd : HWND) : List Nat :=
  match contextOf all_captures hWnd with
  | some c => c.pic.getD []
  | none => []

/-- The list of captures after storing the frames one after the other in the node `p`. -/
def storeFrames (all_captures : List LiveCapture) (p : Nat) (frames : List (List Nat))
    (skipAlpha : Bool) : List LiveCapture :=
  frames.foldl (fun s src => (__capture_store s p src skipAlpha).1) all_captures

/-- A context with a buffer of 2 x 1 pixels, for the examples. -/
def sampleContext (blackFault : ℚ) (forceBlack : Int) : LiveCapture :=
  { win := 7, getStyle := CAPTURE_REVERSE, leftOffset := 0, topOffset := 0, rightOffset := 0,
    bottomOffset := 0, blackFault := blackFault, err := "", pic := some [9, 9, 9, 9, 9, 9],
    width := 2, height := 1, nbBlackPixels := -1, successiveBlacks := 0, signature := -1,
    forceBlack := forceBlack }

/-- Two frames of 2 x 1 pixels with one black pixel each, for the examples. -/
def sampleFrames : List (List Nat) := [[1, 2, 3, 0, 0, 0], [4, 5, 6, 0, 0, 0]]

/-- The list of captures after one successful capture cycle per frame, all
of the size `Width` x `Height`, on the window `hWnd`. -/
def captureCycles (all_captures : List LiveCapture) (hWnd : HWND) (Width Height : Int)
    (frames : List (List Nat)) (skipAlpha : Bool) : List LiveCapture :=
  frames.foldl (fun s src => (captureCycle s hWnd Width Height (.ok src) skipAlpha).1)
    all_captures

/-- A frame of 20 pixels at 3 bytes per pixel for the examples: a first pixel
of colour `(v, v, v)`, then `nblack` black pixels, then pixels `(1, 1, 1)`. -/
def sampleFrame (v nblack : Nat) : List Nat :=
  [v, v, v] ++ List.replicate (3 * nblack) 0 ++ List.replicate (3 * (19 - nblack)) 1

/-- The node `CaptureNew` links in front of the list for a new window, with
the ratio it has clamped. -/
def newContext (hWnd : HWND) (getStyle : Int) (blackFault : ℚ) (forceBlack : Int) :
    LiveCapture :=
  { win := hWnd, getStyle := getStyle, leftOffset := 0, topOffset := 0, rightOffset := 0,
    bottomOffset := 0, pic := none, height := 0, width := 0, nbBlackPixels := -1,
    signature := -1, blackFault := blackFault, successiveBlacks := 0,
    forceBlack := forceBlack, err := "" }

/-! ### Snapshot accessor and region calculator -/

/-- Model of `CaptureGetInfo`: return information about an existing capture.
The four integers of `out` are what `w`, `h`, `nbBlack` and `signature` point to
before the call; the result holds the list of captures (never written), the
returned value and what the four pointers designate after the call. -/
def CaptureGetInfo (all_captures : List LiveCapture) (hWnd : HWND)
    (out : Int × Int × Int × Int) : List LiveCapture × Bool × (Int × Int × Int × Int) :=
  match contextOf all_captures hWnd with
  | none => (all_captures, false, out)
  | some c => (all_captures, true, (c.width, c.height, c.nbBlackPixels, c.signature))

/-- A rectangle of the platform (`RECT`). -/
structure RECT where
  left : Int
  top : Int
  right : Int
  bottom : Int

/-- The part of `WINDOWINFO` that `CaptureSnap` reads; the border sizes are
unsigned there. -/
structure WINDOWINFO where
  rcWindow : RECT
  rcClient : RECT
  cxWindowBorders : Nat
  cyWindowBorders : Nat

/-- The locals of `CaptureSnap` that describe the capture. -/
structure SnapGeometry where
  captureWidth : Int
  captureHeight : Int
  storeWidth : Int
  storeHeight : Int
  storeX : Int
  storeY : Int

/-- The rounding of a width in `CaptureSnap`, `((w+3)/4)*4` with the division
of C, which truncates. -/
def roundWidth (w : Int) : Int := ((w + 3).tdiv 4) * 4

/-- Lines 675 to 707 of `CaptureSnap`: the size of the window and the
rectangle for the whole window or for the client area. -/
def snapBase (getStyle : Int) (wi : WINDOWINFO) (title_height menu_height : Int) :
    SnapGeometry :=
  let captureWidth := wi.rcWindow.right - wi.rcWindow.left
  let captureHeight := wi.rcWindow.bottom - wi.rcWindow.top
  if hasFlag getStyle CAPTURE_CLIENT then
    if wi.rcWindow.top + title_height + menu_height + (wi.cyWindowBorders : Int)
        = wi.rcClient.top then
      let storeX : Int := wi.cxWindowBorders
      let storeY : Int := (wi.cyWindowBorders : Int) + title_height
      { captureWidth := captureWidth, captureHeight := captureHeight,
        storeX := storeX, storeY := storeY,
        storeWidth := wi.rcWindow.right - wi.rcWindow.left - 2 * (wi.cxWindowBorders : Int),
        storeHeight := wi.rcWindow.bottom - wi.rcWindow.top - (wi.cyWindowBorders : Int)
          - storeY }
    else
      { captureWidth := captureWidth, captureHeight := captureHeight,
        storeX := wi.rcClient.left - wi.rcWindow.left,
        storeY := wi.rcClient.top - wi.rcWindow.top,
        storeWidth := wi.rcClient.right - wi.rcClient.left,
        storeHeight := wi.rcClient.bottom - wi.rcClient.top }
  else
    { captureWidth := captureWidth, captureHeight := captureHeight,
      storeWidth := captureWidth, storeHeight := captureHeight, storeX := 0, storeY := 0 }

/-- Lines 709 to 723 of `CaptureSnap`: the offsets of the context applied to
the rectangle when the get style has `CAPTURE_RECT`. -/
def snapManual (c : LiveCapture) (g : SnapGeometry) : SnapGeometry :=
  if hasFlag c.getStyle CAPTURE_RECT then
    let storeX0 := g.storeX + c.leftOffset
    let storeX := if storeX0 < 0 then 0 else storeX0
    let storeY0 := g.storeY + c.topOffset
    let storeY := if storeY0 < 0 then 0 else storeY0
    let storeWidth0 := g.storeWidth - (c.leftOffset + c.rightOffset)
    let storeWidth := if storeWidth0 > g.captureWidth then g.captureWidth else storeWidth0
    let storeHeight0 := g.storeHeight - (c.topOffset + c.bottomOffset)
    let storeHeight := if storeHeight0 > g.captureHeight then g.captureHeight else storeHeight0
    { g with storeX := storeX, storeY := storeY, storeWidth := storeWidth,
             storeHeight := storeHeight }
  else g

/-- Lines 725 and 726 of `CaptureSnap`: the two widths rounded. -/
def snapRound (g : SnapGeometry) : SnapGeometry :=
  { g with storeWidth := roundWidth g.storeWidth, captureWidth := roundWidth g.captureWidth }

/-- The locals of `CaptureSnap` when it calls `__capture_init`. -/
def snapGeometry (c : LiveCapture) (wi : WINDOWINFO) (title_height menu_height : Int) :
    SnapGeometry :=
  snapRound (snapManual c (snapBase c.getStyle wi title_height menu_height))

/-- What the platform answers during one call of `CaptureSnap`: the rectangle
of the desktop, the bits per pixel of the screen and the bits of the desktop
(for the window 0), the information and metrics of the window, and the raw bits
of the window or the message of the call that failed. -/
structure SnapInputs where
  desktopRect : RECT
  Bpp : Int
  desktopBits : List Nat
  wi : WINDOWINFO
  title_height : Int
  menu_height : Int
  rawbits : Except String (List Nat)

/-- Model of `__capture_desktop`: capture the desktop into the context of the window 0. -/
def __capture_desktop (all_captures : List LiveCapture) (rc : RECT) (Bpp : Int)
    (bits : List Nat) : List LiveCapture × Bool :=
  captureCycle all_captures 0 (rc.right - rc.left) (rc.bottom - rc.top) (.ok bits)
    (decide (Bpp = 32))

/-- Model of `CaptureSnap`: capture one window for which a context exists and store
the result in the context. -/
def CaptureSnap (all_captures : List LiveCapture) (hWndSrc : HWND) (env : SnapInputs) :
    List LiveCapture × Bool :=
  if hWndSrc = 0 then __capture_desktop all_captures env.desktopRect env.Bpp env.desktopBits
  else
    match contextOf all_captures hWndSrc with
    | none => (all_captures, false)
    | some c =>
      let g := snapGeometry c env.wi env.title_height env.menu_height
      captureCycle all_captures hWndSrc g.storeWidth g.storeHeight env.rawbits false

/-! ### Vocabulary of the invariants -/

/-- A call whose capture cycle, if it is one, has a size that is not negative
and a frame of that size. -/
def Op.wellFormed : Op → Prop
  | .snap _ Width Height frame skipAlpha =>
    0 ≤ Width ∧ 0 ≤ Height ∧
      ∀ src, frame = .ok src → (src.length : Int) = Width * Height * (bytesPerPixel skipAlpha : Nat)
  | _ => True

/-- A list of captures that a sequence of well formed calls produces. -/
def ReachableWF (all_captures : List LiveCapture) : Prop :=
  ∃ ops : List Op, (∀ op, op ∈ ops → op.wellFormed) ∧ run ops = all_captures

/-- A node that has no buffer is as `CaptureNew` made it, and a buffer has the
size `__capture_init` gave it. -/
def NodeInv (c : LiveCapture) : Prop :=
  (c.pic = none → c.nbBlackPixels = -1 ∧ c.signature = -1 ∧ c.successiveBlacks = 0 ∧
    c.width = 0 ∧ c.height = 0) ∧
  (∀ b, c.pic = some b → b.length = (c.width * c.height * 3).toNat)

/-- The sum of the three colour bytes of the pixels among the first `n` whose
index is a multiple of `stride`. -/
def signatureSum (src : List Nat) (bpp stride n : Nat) : Int :=
  (((List.range n).filter (fun k => decide (k % stride = 0))).map
    (fun k => ((src.getD (k * bpp) 0 + src.getD (k * bpp + 1) 0 + src.getD (k * bpp + 2) 0 : Nat)
      : Int))).sum

/-- A context with a manual rectangle, for the examples: the left and right
offsets are negative, the top and bottom ones positive. -/
def sampleRectContext : LiveCapture :=
  { win := 7, getStyle := 3, leftOffset := -40, topOffset := 5, rightOffset := -30,
    bottomOffset := 7, blackFault := 0, err := "", pic := none,
    width := 0, height := 0, nbBlackPixels := -1, successiveBlacks := 0, signature := -1,
    forceBlack := 0 }

/-- A window of 100 x 80 pixels with a client area of 92 x 46, for the examples. -/
def sampleWindowInfo : WINDOWINFO :=
  { rcWindow := { left := 10, top := 20, right := 110, bottom := 100 },
    rcClient := { left := 14, top := 50, right := 106, bottom := 96 },
    cxWindowBorders := 4, cyWindowBorders := 4 }

/-- The rectangle `CaptureSnap` has computed: `storeX`, `storeY`, `storeWidth`
and `storeHeight`. -/
def storeRect (g : SnapGeometry) : Int × Int × Int × Int :=
  (g.storeX, g.storeY, g.storeWidth, g.storeHeight)

/-- The call is a `CaptureNew` on the window `hWnd`. -/
def Op.registers : Op → HWND → Prop
  | .new _ T _ _ _, hWnd => T = hWnd
  | _, _ => False

/-- The window a call is made on. -/
def Op.target : Op → HWND
  | .new _ hWnd _ _ _ => hWnd
  | .setRect hWnd _ _ _ _ => hWnd
  | .clear hWnd => hWnd
  | .delete hWnd => hWnd
  | .snap hWnd _ _ _ _ => hWnd

/-- The bounds of the fault counter of a context made with `forceBlack = k`. -/
def CounterInv (k : Int) (c : LiveCapture) : Prop :=
  c.forceBlack = k ∧ 0 ≤ c.successiveBlacks ∧ c.successiveBlacks < k

/-- What the platform answers for the window of `sampleWindowInfo`, for the
examples: a caption of 20 and a menu of 6 pixels, a screen of 32 bits per pixel,
and a capture that succeeds. -/
def sampleSnapInputs (rawbits : List Nat) : SnapInputs :=
  { desktopRect := { left := 0, top := 0, right := 640, bottom := 480 },
    Bpp := 32, desktopBits := [], wi := sampleWindowInfo,
    title_height := 20, menu_height := 6, rawbits := .ok rawbits }

/-- A context with a buffer of `width * height` pixels of colour `(9, 9, 9)`,
a period of 5 and no frame stored yet, for the examples on the threshold. -/
def thresholdContext (blackFault : ℚ) (width height : Nat) : LiveCapture :=
  { win := 7, getStyle := CAPTURE_WINDOW, leftOffset := 0, topOffset := 0, rightOffset := 0,
    bottomOffset := 0, blackFault := blackFault, err := "",
    pic := some (List.replicate (width * height * 3) 9),
    width := width, height := height, nbBlackPixels := -1, successiveBlacks := 0,
    signature := -1, forceBlack := 5 }

/-- A frame at 3 bytes per pixel for the examples on the threshold: `light`
pixels of colour `(1, 1, 1)`, then `black` black pixels. -/
def thresholdFrame (light black : Nat) : List Nat :=
  List.replicate (3 * light) 1 ++ List.replicate (3 * black) 0

/-- Five frames of 4 x 5 pixels for the examples on the threshold, each with
14 black pixels and with a first pixel that alternates between `(1, 1, 1)` and
`(2, 2, 2)`, so that the signatures of two frames in a row differ. -/
def thresholdFrames : List (List Nat) :=
  [thresholdFrame 6 14, [2, 2, 2] ++ thresholdFrame 5 14, thresholdFrame 6 14,
    [2, 2, 2] ++ thresholdFrame 5 14, thresholdFrame 6 14]

/-! ## Lemmas and theorems -/

theorem roundHalfEven_near (q : ℚ) : |((roundHalfEven q : Int) : ℚ) - q| ≤ 1 / 2 := by
  have h1 : ((⌊q⌋ : Int) : ℚ) ≤ q := Int.floor_le q
  have h2 : q < ((⌊q⌋ : Int) : ℚ) + 1 := Int.lt_floor_add_one q
  unfold roundHalfEven
  rw [abs_le]
  split_ifs <;> push_cast <;> constructor <;> linarith

theorem roundHalfEven_intCast (z : Int) : roundHalfEven (z : ℚ) = z := by
  unfold roundHalfEven
  rw [Int.floor_intCast, sub_self, if_pos (by norm_num)]

theorem roundHalfEven_mono (p q : ℚ) (h : p ≤ q) : roundHalfEven p ≤ roundHalfEven q := by
  by_contra hlt
  have hlt1 : roundHalfEven q + 1 ≤ roundHalfEven p := by omega
  have hc : ((roundHalfEven q : Int) : ℚ) + 1 ≤ ((roundHalfEven p : Int) : ℚ) := by
    exact_mod_cast hlt1
  have hp := abs_le.mp (roundHalfEven_near p)
  have hq := abs_le.mp (roundHalfEven_near q)
  have hpq : p = q := by linarith [hp.1, hp.2, hq.1, hq.2]
  rw [hpq] at hlt1
  omega

theorem roundHalfEven_of_near (q : ℚ) (m : Int) (h : |q - (m : ℚ)| < 1 / 2) :
    roundHalfEven q = m := by
  have hq := abs_le.mp (roundHalfEven_near q)
  have hm := abs_lt.mp h
  have h1 : ((roundHalfEven q : Int) : ℚ) < (m : ℚ) + 1 := by linarith [hq.1, hq.2, hm.1, hm.2]
  have h2 : (m : ℚ) - 1 < ((roundHalfEven q : Int) : ℚ) := by linarith [hq.1, hq.2, hm.1, hm.2]
  have h3 : roundHalfEven q < m + 1 := by exact_mod_cast h1
  have h4 : m - 1 < roundHalfEven q := by exact_mod_cast h2
  omega

theorem toFloat_zero : toFloat 0 = 0 := by
  unfold toFloat
  rw [if_pos rfl]

theorem two_zpow_pos (n : Int) : (0 : ℚ) < (2 : ℚ) ^ n := zpow_pos (by norm_num) n

theorem log_bounds (x : ℚ) (hx : x ≠ 0) :
    (2 : ℚ) ^ (Int.log 2 |x|) ≤ |x| ∧ |x| < (2 : ℚ) ^ (Int.log 2 |x| + 1) := by
  have h0 : 0 < |x| := abs_pos.mpr hx
  have h1 := Int.zpow_log_le_self (b := 2) (by norm_num) h0
  have h2 := Int.lt_zpow_succ_log_self (b := 2) (by norm_num) |x|
  simp only [Nat.cast_ofNat] at h1 h2
  exact ⟨h1, h2⟩

theorem log_eq_of_bounds (x : ℚ) (n : Int) (h1 : (2 : ℚ) ^ n ≤ x) (h2 : x < (2 : ℚ) ^ (n + 1)) :
    Int.log 2 |x| = n := by
  have h0 : 0 < x := lt_of_lt_of_le (two_zpow_pos n) h1
  rw [abs_of_pos h0]
  have a1 : n ≤ Int.log 2 x := by
    have := (Int.zpow_le_iff_le_log (b := 2) (by norm_num) (x := n) h0).mp
      (by simpa using h1)
    exact this
  have a2 : Int.log 2 x < n + 1 := by
    have := (Int.lt_zpow_iff_log_lt (b := 2) (by norm_num) (x := n + 1) h0).mp
      (by simpa using h2)
    exact this
  omega

theorem scaled_bounds (x : ℚ) (hx : x ≠ 0) :
    (2 : ℚ) ^ (23 : Nat) ≤ |x| / (2 : ℚ) ^ (Int.log 2 |x| - 23) ∧
      |x| / (2 : ℚ) ^ (Int.log 2 |x| - 23) < (2 : ℚ) ^ (24 : Nat) := by
  obtain ⟨h1, h2⟩ := log_bounds x hx
  have he := two_zpow_pos (Int.log 2 |x| - 23)
  have e1 : (2 : ℚ) ^ (Int.log 2 |x|) = (2 : ℚ) ^ (23 : Nat) * (2 : ℚ) ^ (Int.log 2 |x| - 23) := by
    rw [← zpow_natCast, ← zpow_add₀ (by norm_num : (2 : ℚ) ≠ 0)]
    congr 1
    push_cast
    ring
  have e2 : (2 : ℚ) ^ (Int.log 2 |x| + 1)
      = (2 : ℚ) ^ (24 : Nat) * (2 : ℚ) ^ (Int.log 2 |x| - 23) := by
    rw [← zpow_natCast, ← zpow_add₀ (by norm_num : (2 : ℚ) ≠ 0)]
    congr 1
    push_cast
    ring
  constructor
  · rw [le_div_iff₀ he, ← e1]
    exact h1
  · rw [div_lt_iff₀ he, ← e2]
    exact h2

theorem toFloat_err (x : ℚ) : |toFloat x - x| ≤ |x| / 2 ^ (24 : Nat) := by
  by_cases hx : x = 0
  · rw [hx, toFloat_zero]
    simp
  · obtain ⟨h1, -⟩ := scaled_bounds x hx
    have he := two_zpow_pos (Int.log 2 |x| - 23)
    have hr := roundHalfEven_near (x / (2 : ℚ) ^ (Int.log 2 |x| - 23))
    unfold toFloat
    rw [if_neg hx]
    have hxe : x = x / (2 : ℚ) ^ (Int.log 2 |x| - 23) * (2 : ℚ) ^ (Int.log 2 |x| - 23) := by
      field_simp
    have hd : ((roundHalfEven (x / (2 : ℚ) ^ (Int.log 2 |x| - 23)) : Int) : ℚ)
        * (2 : ℚ) ^ (Int.log 2 |x| - 23) - x =
        (((roundHalfEven (x / (2 : ℚ) ^ (Int.log 2 |x| - 23)) : Int) : ℚ)
          - x / (2 : ℚ) ^ (Int.log 2 |x| - 23)) * (2 : ℚ) ^ (Int.log 2 |x| - 23) := by
      field_simp
    rw [hd, abs_mul, abs_of_pos he]
    have h3 : (2 : ℚ) ^ (Int.log 2 |x| - 23) ≤ |x| / 2 ^ (23 : Nat) := by
      rw [le_div_iff₀ (by norm_num)]
      rw [le_div_iff₀ he] at h1
      linarith
    calc |((roundHalfEven (x / (2 : ℚ) ^ (Int.log 2 |x| - 23)) : Int) : ℚ)
          - x / (2 : ℚ) ^ (Int.log 2 |x| - 23)| * (2 : ℚ) ^ (Int.log 2 |x| - 23)
        ≤ 1 / 2 * (|x| / 2 ^ (23 : Nat)) :=
          mul_le_mul hr h3 (le_of_lt he) (by norm_num)
      _ = |x| / 2 ^ (24 : Nat) := by ring

theorem toFloat_of_near (x : ℚ) (n m : Int) (h1 : (2 : ℚ) ^ n ≤ x) (h2 : x < (2 : ℚ) ^ (n + 1))
    (hm : |x / (2 : ℚ) ^ (n - 23) - (m : ℚ)| < 1 / 2) :
    toFloat x = (m : ℚ) * (2 : ℚ) ^ (n - 23) := by
  have h0 : 0 < x := lt_of_lt_of_le (two_zpow_pos n) h1
  unfold toFloat
  rw [if_neg (ne_of_gt h0), log_eq_of_bounds x n h1 h2, roundHalfEven_of_near _ m hm]
theorem toFloat_lower (x : ℚ) (hx : 0 < x) : (2 : ℚ) ^ (Int.log 2 |x|) ≤ toFloat x := by
  obtain ⟨h1, -⟩ := scaled_bounds x (ne_of_gt hx)
  have he := two_zpow_pos (Int.log 2 |x| - 23)
  rw [abs_of_pos hx] at h1
  have hr : ((2 ^ 23 : Int)) ≤ roundHalfEven (x / (2 : ℚ) ^ (Int.log 2 x - 23)) := by
    have := roundHalfEven_mono ((2 ^ 23 : Int) : ℚ) _ (by push_cast; exact h1)
    rwa [roundHalfEven_intCast] at this
  have hrq : (2 : ℚ) ^ (23 : Nat)
      ≤ ((roundHalfEven (x / (2 : ℚ) ^ (Int.log 2 x - 23)) : Int) : ℚ) := by
    exact_mod_cast hr
  unfold toFloat
  rw [if_neg (ne_of_gt hx), abs_of_pos hx]
  have e1 : (2 : ℚ) ^ (Int.log 2 x) = (2 : ℚ) ^ (23 : Nat) * (2 : ℚ) ^ (Int.log 2 x - 23) := by
    rw [← zpow_natCast, ← zpow_add₀ (by norm_num : (2 : ℚ) ≠ 0)]
    congr 1
    push_cast
    ring
  rw [e1]
  rw [abs_of_pos hx] at he
  exact mul_le_mul_of_nonneg_right hrq (le_of_lt he)

theorem toFloat_upper (x : ℚ) (hx : 0 < x) : toFloat x ≤ (2 : ℚ) ^ (Int.log 2 |x| + 1) := by
  obtain ⟨-, h2⟩ := scaled_bounds x (ne_of_gt hx)
  have he := two_zpow_pos (Int.log 2 |x| - 23)
  rw [abs_of_pos hx] at h2
  have hr : roundHalfEven (x / (2 : ℚ) ^ (Int.log 2 x - 23)) ≤ ((2 ^ 24 : Int)) := by
    have := roundHalfEven_mono _ ((2 ^ 24 : Int) : ℚ) (by push_cast; exact le_of_lt h2)
    rwa [roundHalfEven_intCast] at this
  have hrq : ((roundHalfEven (x / (2 : ℚ) ^ (Int.log 2 x - 23)) : Int) : ℚ)
      ≤ (2 : ℚ) ^ (24 : Nat) := by
    exact_mod_cast hr
  unfold toFloat
  rw [if_neg (ne_of_gt hx), abs_of_pos hx]
  have e2 : (2 : ℚ) ^ (Int.log 2 x + 1) = (2 : ℚ) ^ (24 : Nat) * (2 : ℚ) ^ (Int.log 2 x - 23) := by
    rw [← zpow_natCast, ← zpow_add₀ (by norm_num : (2 : ℚ) ≠ 0)]
    congr 1
    push_cast
    ring
  rw [e2]
  rw [abs_of_pos hx] at he
  exact mul_le_mul_of_nonneg_right hrq (le_of_lt he)

theorem toFloat_nonneg (x : ℚ) (hx : 0 ≤ x) : 0 ≤ toFloat x := by
  rcases eq_or_lt_of_le hx with h | h
  · rw [← h, toFloat_zero]
  · exact le_trans (le_of_lt (two_zpow_pos _)) (toFloat_lower x h)

theorem toFloat_mono (x y : ℚ) (hx : 0 ≤ x) (hxy : x ≤ y) : toFloat x ≤ toFloat y := by
  rcases eq_or_lt_of_le hx with h | h
  · rw [← h, toFloat_zero]
    exact toFloat_nonneg y (le_trans hx hxy)
  · have hy : 0 < y := lt_of_lt_of_le h hxy
    have hlog : Int.log 2 |x| ≤ Int.log 2 |y| := by
      rw [abs_of_pos h, abs_of_pos hy]
      exact Int.log_mono_right h hxy
    rcases eq_or_lt_of_le hlog with he | hl
    · unfold toFloat
      rw [if_neg (ne_of_gt h), if_neg (ne_of_gt hy), he]
      have hp := two_zpow_pos (Int.log 2 |y| - 23)
      apply mul_le_mul_of_nonneg_right _ (le_of_lt hp)
      have := roundHalfEven_mono (x / (2 : ℚ) ^ (Int.log 2 |y| - 23))
        (y / (2 : ℚ) ^ (Int.log 2 |y| - 23)) (div_le_div_of_nonneg_right hxy (le_of_lt hp))
      exact_mod_cast this
    · have h1 := toFloat_upper x h
      have h2 := toFloat_lower y hy
      have h3 : (2 : ℚ) ^ (Int.log 2 |x| + 1) ≤ (2 : ℚ) ^ (Int.log 2 |y|) :=
        zpow_le_zpow_right₀ (by norm_num) (by omega)
      exact le_trans h1 (le_trans h3 h2)

theorem toFloat_exact (m k : Int) (hm : |m| < 2 ^ 24) :
    toFloat ((m : ℚ) * (2 : ℚ) ^ k) = (m : ℚ) * (2 : ℚ) ^ k := by
  by_cases h0 : m = 0
  · rw [h0]
    simp [toFloat_zero]
  · have hk := two_zpow_pos k
    have hx : (m : ℚ) * (2 : ℚ) ^ k ≠ 0 :=
      mul_ne_zero (by exact_mod_cast h0) (ne_of_gt hk)
    obtain ⟨h1, -⟩ := log_bounds _ hx
    have hmq : |(m : ℚ)| < (2 : ℚ) ^ (24 : Int) := by
      have : ((|m| : Int) : ℚ) < ((2 ^ 24 : Int) : ℚ) := by exact_mod_cast hm
      rw [Int.cast_abs] at this
      rw [zpow_ofNat]
      exact_mod_cast this
    have hlt : (2 : ℚ) ^ (Int.log 2 |(m : ℚ) * (2 : ℚ) ^ k|) < (2 : ℚ) ^ (24 + k) := by
      have h1' : |(m : ℚ) * (2 : ℚ) ^ k| = |(m : ℚ)| * (2 : ℚ) ^ k := by
        rw [abs_mul, abs_of_pos hk]
      rw [zpow_add₀ (by norm_num : (2 : ℚ) ≠ 0)]
      exact lt_of_le_of_lt (h1.trans (le_of_eq h1')) (mul_lt_mul_of_pos_right hmq hk)
    have hL : Int.log 2 |(m : ℚ) * (2 : ℚ) ^ k| < 24 + k :=
      (zpow_lt_zpow_iff_right₀ (by norm_num : (1 : ℚ) < 2)).mp hlt
    obtain ⟨j, hj⟩ : ∃ j : Nat, (j : Int) = k - (Int.log 2 |(m : ℚ) * (2 : ℚ) ^ k| - 23) :=
      ⟨(k - (Int.log 2 |(m : ℚ) * (2 : ℚ) ^ k| - 23)).toNat, Int.toNat_of_nonneg (by omega)⟩
    have hq : (m : ℚ) * (2 : ℚ) ^ k / (2 : ℚ) ^ (Int.log 2 |(m : ℚ) * (2 : ℚ) ^ k| - 23)
        = ((m * 2 ^ j : Int) : ℚ) := by
      rw [mul_div_assoc, ← zpow_sub₀ (by norm_num : (2 : ℚ) ≠ 0), ← hj]
      push_cast
      rw [zpow_natCast]
    unfold toFloat
    rw [if_neg hx, hq, roundHalfEven_intCast]
    push_cast
    rw [mul_assoc, ← zpow_natCast, ← zpow_add₀ (by norm_num : (2 : ℚ) ≠ 0), hj]
    congr 2
    ring

theorem toFloat_intCast (n : Int) (hn : |n| < 2 ^ 24) : toFloat (n : ℚ) = (n : ℚ) := by
  have := toFloat_exact n 0 hn
  simpa using this

theorem toFloat_int (n : Int) (hn : n.natAbs < 2 ^ 24) : toFloat (n : ℚ) = (n : ℚ) := by
  apply toFloat_intCast
  rw [Int.abs_eq_natAbs]
  exact_mod_cast hn

/-- The test of `__capture_store` when the two products are integers that a
`float` holds exactly. -/
theorem withinFault_exact (n : Int) (bf : ℚ) (w h a b : Int)
    (hn : n.natAbs < 2 ^ 24) (hw : w.natAbs < 2 ^ 24) (hh : h.natAbs < 2 ^ 24)
    (ha : bf * (w : ℚ) = (a : ℚ)) (hb : (a : ℚ) * (h : ℚ) = (b : ℚ))
    (ha' : a.natAbs < 2 ^ 24) (hb' : b.natAbs < 2 ^ 24) :
    withinFault n bf w h = decide (n ≤ b) := by
  unfold withinFault
  rw [toFloat_int n hn, toFloat_int w hw, toFloat_int h hh, ha, toFloat_int a ha', hb,
    toFloat_int b hb']
  congr 1
  exact propext Int.cast_le

theorem roundHalfEven_tie_even (m : Int) (hm : m % 2 = 0) :
    roundHalfEven ((m : ℚ) + 1 / 2) = m := by
  have hf : ⌊(m : ℚ) + 1 / 2⌋ = m := by
    rw [Int.floor_eq_iff]
    constructor <;> linarith
  unfold roundHalfEven
  rw [hf]
  rw [if_neg (by norm_num), if_neg (by norm_num), if_pos hm]

theorem toFloat_of_tie_even (x : ℚ) (n m : Int) (h1 : (2 : ℚ) ^ n ≤ x)
    (h2 : x < (2 : ℚ) ^ (n + 1)) (hx : x / (2 : ℚ) ^ (n - 23) = (m : ℚ) + 1 / 2)
    (hm : m % 2 = 0) : toFloat x = (m : ℚ) * (2 : ℚ) ^ (n - 23) := by
  have h0 : 0 < x := lt_of_lt_of_le (two_zpow_pos n) h1
  unfold toFloat
  rw [if_neg (ne_of_gt h0), log_eq_of_bounds x n h1 h2, hx, roundHalfEven_tie_even m hm]

theorem toFloat_le_scale (x : ℚ) (hx : 0 ≤ x) : toFloat x ≤ x * (101 / 100) := by
  have h := (abs_le.mp (toFloat_err x)).2
  rw [abs_of_nonneg hx] at h
  have h2 : x / 2 ^ (24 : Nat) ≤ x * (1 / 100) := by
    rw [div_eq_mul_one_div]
    exact mul_le_mul_of_nonneg_left (by norm_num) hx
  linarith

theorem toFloat_ge_scale (x : ℚ) (hx : 0 ≤ x) : x * (99 / 100) ≤ toFloat x := by
  have h := (abs_le.mp (toFloat_err x)).1
  rw [abs_of_nonneg hx] at h
  have h2 : x / 2 ^ (24 : Nat) ≤ x * (1 / 100) := by
    rw [div_eq_mul_one_div]
    exact mul_le_mul_of_nonneg_left (by norm_num) hx
  linarith

/-- The product of the test of `__capture_store`, computed in `float`, is
within 5 percent of the exact product. -/
theorem floatProduct_bounds (r : ℚ) (W H : Nat) (hr : 0 ≤ r) :
    r * (W : ℚ) * (H : ℚ) * (95 / 100)
      ≤ toFloat (toFloat (r * toFloat ((W : Int) : ℚ)) * toFloat ((H : Int) : ℚ)) ∧
    toFloat (toFloat (r * toFloat ((W : Int) : ℚ)) * toFloat ((H : Int) : ℚ))
      ≤ r * (W : ℚ) * (H : ℚ) * (105 / 100) := by
  have hW : (0 : ℚ) ≤ (W : ℚ) := Nat.cast_nonneg W
  have hH : (0 : ℚ) ≤ (H : ℚ) := Nat.cast_nonneg H
  simp only [Int.cast_natCast]
  have w1 := toFloat_le_scale (W : ℚ) hW
  have w2 := toFloat_ge_scale (W : ℚ) hW
  have w0 := toFloat_nonneg (W : ℚ) hW
  have h1 := toFloat_le_scale (H : ℚ) hH
  have h2 := toFloat_ge_scale (H : ℚ) hH
  have h0 := toFloat_nonneg (H : ℚ) hH
  have x0 : 0 ≤ r * toFloat (W : ℚ) := mul_nonneg hr w0
  have a1 := toFloat_le_scale _ x0
  have a2 := toFloat_ge_scale _ x0
  have a0 := toFloat_nonneg _ x0
  have y0 : 0 ≤ toFloat (r * toFloat (W : ℚ)) * toFloat (H : ℚ) := mul_nonneg a0 h0
  have b1 := toFloat_le_scale _ y0
  have b2 := toFloat_ge_scale _ y0
  have rW : 0 ≤ r * (W : ℚ) := mul_nonneg hr hW
  -- upper
  have u1 : r * toFloat (W : ℚ) ≤ r * (W : ℚ) * (101 / 100) := by
    have := mul_le_mul_of_nonneg_left w1 hr
    linarith
  have u2 : toFloat (r * toFloat (W : ℚ)) ≤ r * (W : ℚ) * (101 / 100) * (101 / 100) := by
    have : r * toFloat (W : ℚ) * (101 / 100) ≤ r * (W : ℚ) * (101 / 100) * (101 / 100) :=
      mul_le_mul_of_nonneg_right u1 (by norm_num)
    linarith
  have u3 : toFloat (r * toFloat (W : ℚ)) * toFloat (H : ℚ)
      ≤ r * (W : ℚ) * (101 / 100) * (101 / 100) * ((H : ℚ) * (101 / 100)) :=
    mul_le_mul u2 h1 h0 (by positivity)
  -- lower
  have l1 : r * (W : ℚ) * (99 / 100) ≤ r * toFloat (W : ℚ) := by
    have := mul_le_mul_of_nonneg_left w2 hr
    linarith
  have l2 : r * (W : ℚ) * (99 / 100) * (99 / 100) ≤ toFloat (r * toFloat (W : ℚ)) := by
    have : r * (W : ℚ) * (99 / 100) * (99 / 100) ≤ r * toFloat (W : ℚ) * (99 / 100) :=
      mul_le_mul_of_nonneg_right l1 (by norm_num)
    linarith
  have l3 : r * (W : ℚ) * (99 / 100) * (99 / 100) * ((H : ℚ) * (99 / 100))
      ≤ toFloat (r * toFloat (W : ℚ)) * toFloat (H : ℚ) :=
    mul_le_mul l2 h2 (by positivity) a0
  have rWH : 0 ≤ r * (W : ℚ) * (H : ℚ) := mul_nonneg rW hH
  constructor
  · have e : r * (W : ℚ) * (99 / 100) * (99 / 100) * ((H : ℚ) * (99 / 100)) * (99 / 100)
        = r * (W : ℚ) * (H : ℚ) * (96059601 / 100000000) := by ring
    have l4 := mul_le_mul_of_nonneg_right l3 (by norm_num : (0 : ℚ) ≤ 99 / 100)
    rw [e] at l4
    have : r * (W : ℚ) * (H : ℚ) * (95 / 100)
        ≤ r * (W : ℚ) * (H : ℚ) * (96059601 / 100000000) :=
      mul_le_mul_of_nonneg_left (by norm_num) rWH
    linarith
  · have e : r * (W : ℚ) * (101 / 100) * (101 / 100) * ((H : ℚ) * (101 / 100)) * (101 / 100)
        = r * (W : ℚ) * (H : ℚ) * (104060401 / 100000000) := by ring
    have u4 := mul_le_mul_of_nonneg_right u3 (by norm_num : (0 : ℚ) ≤ 101 / 100)
    rw [e] at u4
    have : r * (W : ℚ) * (H : ℚ) * (104060401 / 100000000)
        ≤ r * (W : ℚ) * (H : ℚ) * (105 / 100) :=
      mul_le_mul_of_nonneg_left (by norm_num) rWH
    linarith

theorem getD_set (l : List Nat) (i j a : Nat) :
    (l.set i a).getD j 0 = if i = j ∧ i < l.length then a else l.getD j 0 := by
  simp only [List.getD_eq_getElem?_getD, List.getElem?_set]
  by_cases h : i = j
  · subst h
    by_cases h2 : i < l.length
    · simp [h2]
    · simp [h2, List.getElem?_eq_none (Nat.le_of_not_lt h2)]
  · simp [h]

theorem copyPixel_length (src : List Nat) (reverse skipBlack : Bool) (i j : Nat)
    (dst : List Nat) : (copyPixel src reverse skipBlack i j dst).length = dst.length := by
  unfold copyPixel
  split
  · split <;> simp
  · rfl

theorem copyPixel_getD (src : List Nat) (reverse skipBlack : Bool) (i k : Nat)
    (dst : List Nat) (hlen : k * 3 + 3 ≤ dst.length) (q t : Nat) (ht : t < 3) :
    (copyPixel src reverse skipBlack i (k * 3) dst).getD (q * 3 + t) 0 =
      if q = k ∧ ¬ (skipBlack = true ∧ blackAt src i = true) then
        src.getD (i + (if reverse = true then 2 - t else t)) 0
      else dst.getD (q * 3 + t) 0 := by
  unfold copyPixel
  by_cases hs : (skipBlack = true ∧ blackAt src i = true)
  · simp [hs]
  · have hs' : (!(skipBlack && blackAt src i)) = true := by
      cases skipBlack <;> cases hb : blackAt src i <;> simp_all
    rw [if_pos hs']
    by_cases hq : q = k
    · subst hq
      simp only [hs, not_false_eq_true, and_self, if_true]
      have b0 : q * 3 + 0 < dst.length := by omega
      have b1 : q * 3 + 1 < dst.length := by omega
      have b2 : q * 3 + 2 < dst.length := by omega
      interval_cases t <;> cases reverse <;>
        (simp only [Bool.false_eq_true, if_true, if_false]
         rw [getD_set, getD_set, getD_set]
         simp only [List.length_set]
         first
           | (simp [b0, b1, b2]; done)
           | (simp [b1, b2]; intro h; omega))
    · have h0 : k * 3 + 0 ≠ q * 3 + t := by omega
      have h1 : k * 3 + 1 ≠ q * 3 + t := by omega
      have h2 : k * 3 + 2 ≠ q * 3 + t := by omega
      simp only [hq, false_and, if_false]
      cases reverse <;>
        (simp only [Bool.false_eq_true, if_true, if_false]
         rw [getD_set, getD_set, getD_set]
         simp only [List.length_set]
         split_ifs <;> first | rfl | omega)

theorem copyLoop_spec (src : List Nat) (bpp : Nat) (hb : 0 < bpp) (reverse skipBlack : Bool)
    (n : Nat) : ∀ (m fuel k : Nat) (dst : List Nat), k + m = n → m ≤ fuel →
      dst.length = n * 3 →
      (copyLoop src ((n * bpp : Nat) : Int) bpp reverse skipBlack fuel (k * bpp) (k * 3)
          dst).length = n * 3 ∧
      ∀ q, q < n → ∀ t, t < 3 →
        (copyLoop src ((n * bpp : Nat) : Int) bpp reverse skipBlack fuel (k * bpp) (k * 3)
            dst).getD (q * 3 + t) 0 =
          if k ≤ q ∧ ¬ (skipBlack = true ∧ blackAt src (q * bpp) = true) then
            src.getD (q * bpp + (if reverse = true then 2 - t else t)) 0
          else dst.getD (q * 3 + t) 0 := by
  intro m
  induction m with
  | zero =>
    intro fuel k dst hk _ hlen
    have hkn : k = n := by omega
    subst hkn
    have hstop : copyLoop src ((k * bpp : Nat) : Int) bpp reverse skipBlack fuel (k * bpp)
        (k * 3) dst = dst := by
      cases fuel <;> simp [copyLoop]
    rw [hstop]
    refine ⟨hlen, ?_⟩
    intro q hq t _
    have : ¬ k ≤ q := by omega
    simp [this]
  | succ m ih =>
    intro fuel k dst hk hf hlen
    cases fuel with
    | zero => omega
    | succ f =>
      have hi : ((k * bpp : Nat) : Int) < ((n * bpp : Nat) : Int) := by
        have : k * bpp < n * bpp := Nat.mul_lt_mul_of_pos_right (by omega) hb
        exact_mod_cast this
      have e1 : k * bpp + bpp = (k + 1) * bpp := by ring
      have e2 : k * 3 + 3 = (k + 1) * 3 := by ring
      rw [copyLoop, if_pos hi, e1, e2]
      obtain ⟨hl, hq⟩ := ih f (k + 1) (copyPixel src reverse skipBlack (k * bpp) (k * 3) dst)
        (by omega) (by omega) (by rw [copyPixel_length]; exact hlen)
      refine ⟨hl, ?_⟩
      intro q hqn t ht
      rw [hq q hqn t ht, copyPixel_getD src reverse skipBlack (k * bpp) k dst (by omega) q t ht]
      by_cases hqk : q = k
      · subst hqk
        have : ¬ (q + 1 ≤ q) := by omega
        simp [this]
      · by_cases h1 : k + 1 ≤ q
        · have : k ≤ q := by omega
          simp [h1, this, hqk]
        · have : ¬ k ≤ q := by omega
          simp [h1, this, hqk]

theorem blackAt_iff (src : List Nat) (bpp k : Nat) :
    blackAt src (k * bpp) = decide (pixel src bpp k = (0, 0, 0)) := by
  unfold blackAt pixel
  simp only [Nat.add_zero]
  generalize src.getD (k * bpp) 0 = a
  generalize src.getD (k * bpp + 1) 0 = b
  generalize src.getD (k * bpp + 2) 0 = c
  by_cases h0 : a = 0 <;> by_cases h1 : b = 0 <;> by_cases h2 : c = 0 <;> simp [h0, h1, h2]

theorem capture_copy_spec (dst src : List Nat) (W H : Nat) (skipAlpha reverse skipBlack : Bool)
    (hlen : dst.length = W * H * 3) :
    (__capture_copy dst src W H skipAlpha reverse skipBlack).length = W * H * 3 ∧
    ∀ k, k < W * H →
      pixel (__capture_copy dst src W H skipAlpha reverse skipBlack) 3 k =
        if skipBlack = true ∧ pixel src (bytesPerPixel skipAlpha) k = (0, 0, 0) then pixel dst 3 k
        else permute reverse (pixel src (bytesPerPixel skipAlpha) k) := by
  have hb : 0 < bytesPerPixel skipAlpha := by unfold bytesPerPixel; split <;> decide
  have hsize : (W : Int) * (H : Int) * ((bytesPerPixel skipAlpha : Nat) : Int)
      = ((W * H * bytesPerPixel skipAlpha : Nat) : Int) := by push_cast; rfl
  have hfuel : W * H ≤ W * H * bytesPerPixel skipAlpha := Nat.le_mul_of_pos_right _ hb
  have key := copyLoop_spec src (bytesPerPixel skipAlpha) hb reverse skipBlack (W * H)
    (W * H) (W * H * bytesPerPixel skipAlpha) 0 dst (by omega) hfuel hlen
  have hcopy : __capture_copy dst src W H skipAlpha reverse skipBlack =
      copyLoop src ((W * H * bytesPerPixel skipAlpha : Nat) : Int) (bytesPerPixel skipAlpha)
        reverse skipBlack (W * H * bytesPerPixel skipAlpha) (0 * bytesPerPixel skipAlpha)
        (0 * 3) dst := by
    have hbpp : (if skipAlpha = true then (4 : Nat) else 3) = bytesPerPixel skipAlpha := rfl
    unfold __capture_copy
    simp only [hbpp]
    rw [hsize, Int.toNat_ofNat]
    cases reverse <;> simp
  rw [hcopy]
  refine ⟨key.1, ?_⟩
  intro k hk
  have h0 := key.2 k hk 0 (by omega)
  have h1 := key.2 k hk 1 (by omega)
  have h2 := key.2 k hk 2 (by omega)
  simp only [Nat.zero_le, true_and, blackAt_iff, decide_eq_true_eq, Nat.add_zero] at h0 h1 h2
  by_cases hs : skipBlack = true ∧ pixel src (bytesPerPixel skipAlpha) k = (0, 0, 0)
  · rw [if_neg (not_not.mpr hs)] at h0 h1 h2
    rw [if_pos hs]
    simp only [pixel]
    rw [h0, h1, h2]
  · rw [if_pos hs] at h0 h1 h2
    rw [if_neg hs]
    simp only [pixel, permute]
    rw [h0, h1, h2]
    cases reverse <;> simp

theorem countLoop_fst (src : List Nat) (bpp : Nat) (hb : 0 < bpp) (sig : Bool) (n : Nat) :
    ∀ (m fuel k : Nat) (bp sg : Int), k + m = n → m ≤ fuel →
      (countLoop src ((n * bpp : Nat) : Int) bpp sig fuel (k * bpp) bp sg).1 =
        bp + (((List.range' k m).filter
          (fun q => decide (pixel src bpp q = (0, 0, 0)))).length : Nat) := by
  intro m
  induction m with
  | zero =>
    intro fuel k bp sg hk _
    have hkn : k = n := by omega
    subst hkn
    cases fuel <;> simp [countLoop]
  | succ m ih =>
    intro fuel k bp sg hk hf
    cases fuel with
    | zero => omega
    | succ f =>
      have hi : ((k * bpp : Nat) : Int) < ((n * bpp : Nat) : Int) := by
        have : k * bpp < n * bpp := Nat.mul_lt_mul_of_pos_right (by omega) hb
        exact_mod_cast this
      have e1 : k * bpp + bpp = (k + 1) * bpp := by ring
      rw [countLoop, if_pos hi]
      simp only [e1]
      rw [ih f (k + 1) _ _ (by omega) (by omega), List.range'_succ, List.filter_cons,
        blackAt_iff]
      by_cases hbl : pixel src bpp k = (0, 0, 0)
      · simp only [hbl, decide_True, if_true, List.length_cons]
        push_cast
        ring
      · simp only [hbl, decide_False, Bool.false_eq_true, if_false]

theorem capture_count_black_fst (src : List Nat) (W H : Nat) (skipAlpha : Bool)
    (signature : Option Int) :
    (__capture_count_black src ((W : Int) * (H : Int) * ((bytesPerPixel skipAlpha : Nat) : Int))
      (bytesPerPixel skipAlpha) signature).1 = (blackCount src (bytesPerPixel skipAlpha) (W * H) : Nat) := by
  have hb : 0 < bytesPerPixel skipAlpha := by unfold bytesPerPixel; split <;> decide
  have hsize : (W : Int) * (H : Int) * ((bytesPerPixel skipAlpha : Nat) : Int)
      = ((W * H * bytesPerPixel skipAlpha : Nat) : Int) := by push_cast; rfl
  have hfuel : W * H ≤ W * H * bytesPerPixel skipAlpha := Nat.le_mul_of_pos_right _ hb
  have key := fun sig => countLoop_fst src (bytesPerPixel skipAlpha) hb sig (W * H) (W * H)
    (W * H * bytesPerPixel skipAlpha) 0 0 0 (by omega) hfuel
  simp only [Nat.zero_mul, Int.zero_add] at key
  unfold __capture_count_black blackCount
  rw [hsize, Int.toNat_ofNat, List.range_eq_range']
  cases signature with
  | none => exact key false
  | some s => exact key true

theorem update_length (reg : List LiveCapture) (p : Nat) (f : LiveCapture → LiveCapture) :
    (update reg p f).length = reg.length := by
  unfold update
  split <;> simp

theorem update_getElem?_self (reg : List LiveCapture) (p : Nat) (f : LiveCapture → LiveCapture)
    (c : LiveCapture) (hc : reg[p]? = some c) : (update reg p f)[p]? = some (f c) := by
  have hp : p < reg.length := by
    by_contra h
    rw [List.getElem?_eq_none (Nat.le_of_not_lt h)] at hc
    exact Option.noConfusion hc
  unfold update
  rw [hc]
  simp [List.getElem?_set, hp]

theorem update_getElem?_ne (reg : List LiveCapture) (p q : Nat) (f : LiveCapture → LiveCapture)
    (h : p ≠ q) : (update reg p f)[q]? = reg[q]? := by
  unfold update
  split
  · exact List.getElem?_set_ne h
  · rfl

theorem update_eq_set (reg : List LiveCapture) (p : Nat) (f : LiveCapture → LiveCapture)
    (c : LiveCapture) (hc : reg[p]? = some c) : update reg p f = reg.set p (f c) := by
  unfold update
  rw [hc]

theorem find_set (reg : List LiveCapture) (p : Nat) (c d : LiveCapture)
    (hc : reg[p]? = some c) (hw : d.win = c.win) (h : HWND) :
    __capture_find (reg.set p d) h = __capture_find reg h := by
  induction reg generalizing p with
  | nil => rfl
  | cons a rest ih =>
    cases p with
    | zero =>
      simp only [List.getElem?_cons_zero, Option.some.injEq] at hc
      subst hc
      simp [__capture_find, hw]
    | succ p =>
      simp only [List.getElem?_cons_succ] at hc
      simp [__capture_find, ih p hc]

theorem find_update (reg : List LiveCapture) (p : Nat) (f : LiveCapture → LiveCapture)
    (hf : ∀ c, (f c).win = c.win) (h : HWND) :
    __capture_find (update reg p f) h = __capture_find reg h := by
  unfold update
  split
  · next c hc => exact find_set reg p c (f c) hc (hf c) h
  · rfl

theorem find_some (reg : List LiveCapture) (h : HWND) (p : Nat)
    (hp : __capture_find reg h = some p) :
    ∃ c, reg[p]? = some c ∧ c.win = h ∧ ∀ q d, q < p → reg[q]? = some d → d.win ≠ h := by
  induction reg generalizing p with
  | nil => simp [__capture_find] at hp
  | cons a rest ih =>
    unfold __capture_find at hp
    by_cases ha : a.win = h
    · rw [if_pos ha] at hp
      have : p = 0 := by simpa using hp.symm
      subst this
      exact ⟨a, by simp, ha, fun q d hq => absurd hq (Nat.not_lt_zero q)⟩
    · rw [if_neg ha] at hp
      cases hr : __capture_find rest h with
      | none => rw [hr] at hp; simp at hp
      | some r =>
        rw [hr] at hp
        have hpr : p = r + 1 := by simpa using hp.symm
        subst hpr
        obtain ⟨c, hc, hcw, hmin⟩ := ih r hr
        refine ⟨c, by simpa using hc, hcw, ?_⟩
        intro q d hq hd
        cases q with
        | zero =>
          simp only [List.getElem?_cons_zero, Option.some.injEq] at hd
          subst hd
          exact ha
        | succ q =>
          simp only [List.getElem?_cons_succ] at hd
          exact hmin q d (by omega) hd

theorem find_none (reg : List LiveCapture) (h : HWND) (hp : __capture_find reg h = none) :
    ∀ c, c ∈ reg → c.win ≠ h := by
  induction reg with
  | nil => intro c hc; simp at hc
  | cons a rest ih =>
    unfold __capture_find at hp
    by_cases ha : a.win = h
    · rw [if_pos ha] at hp; simp at hp
    · rw [if_neg ha] at hp
      have hr : __capture_find rest h = none := by
        cases hr : __capture_find rest h with
        | none => rfl
        | some r => rw [hr] at hp; simp at hp
      intro c hc
      rcases List.mem_cons.mp hc with rfl | hc
      · exact ha
      · exact ih hr c hc

theorem clearContext_win (c : LiveCapture) : (clearContext c).win = c.win := by
  unfold clearContext; split <;> rfl

theorem CaptureClear_at (reg : List LiveCapture) (h : HWND) (p : Nat) (c : LiveCapture)
    (hc : reg[p]? = some c) :
    ∃ clr : LiveCapture → LiveCapture, (clr = clearContext ∨ clr = id) ∧
      (__capture_find reg h = some p → clr = clearContext) ∧
      (CaptureClear reg h).1[p]? = some (clr c) := by
  unfold CaptureClear
  cases hf : __capture_find reg h with
  | none => exact ⟨id, Or.inr rfl, fun h => by simp at h, hc⟩
  | some q =>
    by_cases hq : q = p
    · subst hq
      exact ⟨clearContext, Or.inl rfl, fun _ => rfl, update_getElem?_self reg q _ c hc⟩
    · refine ⟨id, Or.inr rfl, fun h => ?_, ?_⟩
      · simp at h; exact absurd h hq
      · simp only [id]
        rw [update_getElem?_ne reg q p _ hq]
        exact hc

theorem capture_store_at (reg : List LiveCapture) (p : Nat) (c : LiveCapture) (src : List Nat)
    (skipAlpha : Bool) (hc : reg[p]? = some c) :
    ∃ clr : LiveCapture → LiveCapture, (clr = clearContext ∨ clr = id) ∧
      (__capture_find reg c.win = some p → clr = clearContext) ∧
      (__capture_store reg p src skipAlpha).1[p]? = some (storeContext clr c src skipAlpha) := by
  have hbpp : (if skipAlpha = true then (4 : Nat) else 3) = bytesPerPixel skipAlpha := rfl
  have hp : p < reg.length := by
    by_contra h
    rw [List.getElem?_eq_none (Nat.le_of_not_lt h)] at hc
    exact Option.noConfusion hc
  unfold __capture_store storeContext frameSignature
  simp only [hc, hbpp]
  by_cases hsig : ((__capture_count_black src (c.width * c.height * (bytesPerPixel skipAlpha : Nat))
      (bytesPerPixel skipAlpha) (some 0)).2.getD 0) ≠ c.signature
  · simp only [if_pos hsig]
    by_cases hblk : withinFault (__capture_count_black src
        (c.width * c.height * (bytesPerPixel skipAlpha : Nat))
        (bytesPerPixel skipAlpha) (some 0)).1 c.blackFault c.width c.height = true
    · simp only [if_pos hblk]
      obtain ⟨clr, h1, h2, h3⟩ := CaptureClear_at reg c.win p c hc
      refine ⟨clr, h1, h2, ?_⟩
      rw [update_getElem?_self _ p _ _ (update_getElem?_self _ p _ _ h3)]
    · simp only [if_neg hblk]
      have hs1 : (reg.set p { c with successiveBlacks := c.successiveBlacks + 1 })[p]? =
          some { c with successiveBlacks := c.successiveBlacks + 1 } := by
        simp [List.getElem?_set, hp]
      by_cases hcl : c.forceBlack > 0 ∧ (c.successiveBlacks + 1).tmod c.forceBlack = 0
      · obtain ⟨clr, h1, h2, h3⟩ := CaptureClear_at _ c.win p _ hs1
        refine ⟨clr, h1, ?_, ?_⟩
        · intro hf
          apply h2
          exact (find_set reg p c { c with successiveBlacks := c.successiveBlacks + 1 } hc rfl
            c.win).trans hf
        · simp only [hcl.1, hcl.2, if_true, and_self]
          rw [update_getElem?_self _ p _ _ (update_getElem?_self _ p _ _ h3)]
      · refine ⟨clearContext, Or.inl rfl, fun _ => rfl, ?_⟩
        have hs2 : (if c.forceBlack > 0 then
            if (c.successiveBlacks + 1).tmod c.forceBlack = 0 then
              (CaptureClear (reg.set p { c with successiveBlacks := c.successiveBlacks + 1 })
                c.win).1
            else reg.set p { c with successiveBlacks := c.successiveBlacks + 1 }
          else reg.set p { c with successiveBlacks := c.successiveBlacks + 1 }) =
            reg.set p { c with successiveBlacks := c.successiveBlacks + 1 } := by
          by_cases h0 : c.forceBlack > 0
          · rw [if_pos h0, if_neg (fun h => hcl ⟨h0, h⟩)]
          · rw [if_neg h0]
        simp only [hs2, hcl, if_false]
        rw [update_getElem?_self _ p _ _ (update_getElem?_self _ p _ _ hs1)]
  · simp only [if_neg hsig]
    exact ⟨clearContext, Or.inl rfl, fun _ => rfl, hc⟩

theorem ZeroMemory_length (buf : List Nat) (n : Int) : (ZeroMemory buf n).length = buf.length := by
  unfold ZeroMemory
  simp only [List.length_append, List.length_replicate, List.length_drop]
  omega

theorem ZeroMemory_getD (buf : List Nat) (n : Int) (hn : buf.length ≤ n.toNat) (i : Nat) :
    (ZeroMemory buf n).getD i 0 = 0 := by
  unfold ZeroMemory
  rw [Nat.min_eq_right hn, List.drop_of_length_le hn, List.append_nil,
    List.getD_eq_getElem?_getD]
  by_cases h : i < buf.length
  · simp [List.getElem?_replicate, h]
  · simp [List.getElem?_replicate, h]

/-- What either outcome of the inner `CaptureClear` keeps of a node. -/
theorem clr_keeps (clr : LiveCapture → LiveCapture) (hclr : clr = clearContext ∨ clr = id)
    (c : LiveCapture) :
    (clr c).win = c.win ∧ (clr c).width = c.width ∧ (clr c).height = c.height ∧
      (clr c).getStyle = c.getStyle ∧ (clr c).forceBlack = c.forceBlack ∧
      (clr c).blackFault = c.blackFault ∧
      (∀ buf, c.pic = some buf → ∃ b, (clr c).pic = some b ∧ b.length = buf.length) := by
  rcases hclr with rfl | rfl
  · unfold clearContext
    cases hp : c.pic with
    | none => simp [hp]
    | some pic =>
      simp only [true_and]
      intro buf hb
      cases hb
      exact ⟨_, rfl, ZeroMemory_length _ _⟩
  · exact ⟨rfl, rfl, rfl, rfl, rfl, rfl, fun buf hb => ⟨buf, hb, rfl⟩⟩

theorem storeContext_same (clr : LiveCapture → LiveCapture) (c : LiveCapture) (src : List Nat)
    (skipAlpha : Bool) (hsig : frameSignature c.width c.height src skipAlpha = c.signature) :
    storeContext clr c src skipAlpha = c := by
  simp only [storeContext, hsig, ne_eq, not_true_eq_false, if_false]

theorem storeContext_full (clr : LiveCapture → LiveCapture) (c : LiveCapture) (src : List Nat)
    (skipAlpha : Bool) (hsig : frameSignature c.width c.height src skipAlpha ≠ c.signature)
    (hblk : withinFault (__capture_count_black src
      (c.width * c.height * (bytesPerPixel skipAlpha : Nat))
      (bytesPerPixel skipAlpha) (some 0)).1 c.blackFault c.width c.height = true) :
    storeContext clr c src skipAlpha =
      { clr c with
        pic := (clr c).pic.map (fun dst => __capture_copy dst src (clr c).width (clr c).height
          skipAlpha (hasFlag (clr c).getStyle CAPTURE_REVERSE) false),
        successiveBlacks := 0,
        nbBlackPixels := (__capture_count_black src
          (c.width * c.height * (bytesPerPixel skipAlpha : Nat)) (bytesPerPixel skipAlpha) (some 0)).1,
        signature := frameSignature c.width c.height src skipAlpha } := by
  simp only [storeContext, if_pos hsig, if_pos hblk]

theorem storeContext_merge (clr : LiveCapture → LiveCapture) (c : LiveCapture) (src : List Nat)
    (skipAlpha : Bool) (hsig : frameSignature c.width c.height src skipAlpha ≠ c.signature)
    (hblk : withinFault (__capture_count_black src
      (c.width * c.height * (bytesPerPixel skipAlpha : Nat))
      (bytesPerPixel skipAlpha) (some 0)).1 c.blackFault c.width c.height = false)
    (hcl : ¬ (c.forceBlack > 0 ∧ (c.successiveBlacks + 1).tmod c.forceBlack = 0)) :
    storeContext clr c src skipAlpha =
      { c with
        pic := c.pic.map (fun dst => __capture_copy dst src c.width c.height
          skipAlpha (hasFlag c.getStyle CAPTURE_REVERSE) true),
        successiveBlacks := c.successiveBlacks + 1,
        nbBlackPixels := (__capture_count_black src
          (c.width * c.height * (bytesPerPixel skipAlpha : Nat)) (bytesPerPixel skipAlpha) (some 0)).1,
        signature := frameSignature c.width c.height src skipAlpha } := by
  simp only [storeContext, if_pos hsig, hblk, Bool.false_eq_true, if_false, if_neg hcl]

theorem storeContext_forced (c : LiveCapture) (src : List Nat)
    (skipAlpha : Bool) (hsig : frameSignature c.width c.height src skipAlpha ≠ c.signature)
    (hblk : withinFault (__capture_count_black src
      (c.width * c.height * (bytesPerPixel skipAlpha : Nat))
      (bytesPerPixel skipAlpha) (some 0)).1 c.blackFault c.width c.height = false)
    (hcl : c.forceBlack > 0 ∧ (c.successiveBlacks + 1).tmod c.forceBlack = 0) :
    storeContext clearContext c src skipAlpha =
      { clearContext { c with successiveBlacks := c.successiveBlacks + 1 } with
        pic := (clearContext { c with successiveBlacks := c.successiveBlacks + 1 }).pic.map
          (fun dst => __capture_copy dst src c.width c.height
            skipAlpha (hasFlag c.getStyle CAPTURE_REVERSE) true),
        nbBlackPixels := (__capture_count_black src
          (c.width * c.height * (bytesPerPixel skipAlpha : Nat)) (bytesPerPixel skipAlpha) (some 0)).1,
        signature := frameSignature c.width c.height src skipAlpha } := by
  obtain ⟨-, kw, kh, ks, -, -, -⟩ := clr_keeps clearContext (Or.inl rfl)
    { c with successiveBlacks := c.successiveBlacks + 1 }
  simp only [storeContext, if_pos hsig, hblk, Bool.false_eq_true, if_false, if_pos hcl, kw, kh, ks]

theorem wins_set (reg : List LiveCapture) (p : Nat) (c d : LiveCapture)
    (hc : reg[p]? = some c) (hw : d.win = c.win) : wins (reg.set p d) = wins reg := by
  unfold wins
  induction reg generalizing p with
  | nil => rfl
  | cons a rest ih =>
    cases p with
    | zero =>
      simp only [List.getElem?_cons_zero, Option.some.injEq] at hc
      subst hc
      simp [hw]
    | succ p =>
      simp only [List.getElem?_cons_succ] at hc
      simp [ih p hc]

theorem wins_update (reg : List LiveCapture) (p : Nat) (f : LiveCapture → LiveCapture)
    (hf : ∀ c, (f c).win = c.win) : wins (update reg p f) = wins reg := by
  unfold update
  split
  · next c hc => exact wins_set reg p c (f c) hc (hf c)
  · rfl

theorem wins_CaptureClear (reg : List LiveCapture) (h : HWND) :
    wins (CaptureClear reg h).1 = wins reg := by
  unfold CaptureClear
  split
  · rfl
  · exact wins_update reg _ clearContext clearContext_win

theorem find_eq_of_wins (reg reg' : List LiveCapture) (hw : wins reg = wins reg') (h : HWND) :
    __capture_find reg h = __capture_find reg' h := by
  induction reg generalizing reg' with
  | nil =>
    cases reg' with
    | nil => rfl
    | cons b rest' => simp [wins] at hw
  | cons a rest ih =>
    cases reg' with
    | nil => simp [wins] at hw
    | cons b rest' =>
      simp only [wins, List.map_cons, List.cons.injEq] at hw
      simp only [__capture_find, hw.1, ih rest' hw.2]

theorem wins_capture_store (reg : List LiveCapture) (p : Nat) (src : List Nat)
    (skipAlpha : Bool) : wins (__capture_store reg p src skipAlpha).1 = wins reg := by
  cases hc : reg[p]? with
  | none =>
    unfold __capture_store
    simp only [hc]
  | some c =>
    have hset := wins_set reg p c { c with successiveBlacks := c.successiveBlacks + 1 } hc rfl
    unfold __capture_store
    simp only [hc]
    split_ifs <;> simp [wins_update, wins_CaptureClear, hset]

theorem length_eq_of_wins (reg reg' : List LiveCapture) (hw : wins reg = wins reg') :
    reg.length = reg'.length := by
  have := congrArg List.length hw
  simpa [wins] using this

theorem capture_store_same (reg : List LiveCapture) (p : Nat) (c : LiveCapture)
    (src : List Nat) (skipAlpha : Bool) (hc : reg[p]? = some c)
    (hsig : frameSignature c.width c.height src skipAlpha = c.signature) :
    (__capture_store reg p src skipAlpha).1 = reg := by
  have hbpp : (if skipAlpha = true then (4 : Nat) else 3) = bytesPerPixel skipAlpha := rfl
  unfold frameSignature at hsig
  unfold __capture_store
  simp only [hc, hbpp, hsig, ne_eq, not_true_eq_false, if_false]

theorem storeContext_keeps (clr : LiveCapture → LiveCapture)
    (hclr : clr = clearContext ∨ clr = id) (c : LiveCapture) (src : List Nat)
    (skipAlpha : Bool) :
    (storeContext clr c src skipAlpha).win = c.win ∧
    (storeContext clr c src skipAlpha).width = c.width ∧
    (storeContext clr c src skipAlpha).height = c.height ∧
    (storeContext clr c src skipAlpha).getStyle = c.getStyle ∧
    (storeContext clr c src skipAlpha).forceBlack = c.forceBlack ∧
    (storeContext clr c src skipAlpha).blackFault = c.blackFault ∧
    (storeContext clr c src skipAlpha).signature = frameSignature c.width c.height src skipAlpha := by
  obtain ⟨k1, k2, k3, k4, k5, k6, -⟩ := clr_keeps clr hclr c
  obtain ⟨j1, j2, j3, j4, j5, j6, -⟩ := clr_keeps clr hclr
    { c with successiveBlacks := c.successiveBlacks + 1 }
  unfold storeContext
  simp only
  split
  · split
    · exact ⟨k1, k2, k3, k4, k5, k6, rfl⟩
    · split
      · exact ⟨j1, j2, j3, j4, j5, j6, rfl⟩
      · exact ⟨rfl, rfl, rfl, rfl, rfl, rfl, rfl⟩
  · next h =>
    refine ⟨rfl, rfl, rfl, rfl, rfl, rfl, ?_⟩
    exact (not_not.mp h).symm

theorem pixel_ZeroMemory (buf : List Nat) (n : Int) (hn : buf.length ≤ n.toNat) (q : Nat) :
    pixel (ZeroMemory buf n) 3 q = (0, 0, 0) := by
  unfold pixel
  rw [ZeroMemory_getD buf n hn, ZeroMemory_getD buf n hn, ZeroMemory_getD buf n hn]

/-- One faulty frame stored in a node that the lookup by its window returns,
`j` faulty frames after the last clear and with a period `k > j`. -/
theorem faulty_step (reg : List LiveCapture) (p : Nat) (d : LiveCapture) (b src : List Nat)
    (skipAlpha : Bool) (W H k j : Nat)
    (hd : reg[p]? = some d) (hfind : __capture_find reg d.win = some p)
    (hW : d.width = W) (hH : d.height = H) (hpic : d.pic = some b)
    (hb : b.length = W * H * 3) (hfb : d.forceBlack = k) (hsb : d.successiveBlacks = j)
    (hjk : j < k)
    (hsig : frameSignature d.width d.height src skipAlpha ≠ d.signature)
    (hfaulty :
      withinFault ((blackCount src (bytesPerPixel skipAlpha) (W * H) : Nat) : Int)
        d.blackFault (W : Int) (H : Int) = false) :
    ∃ d' b', (__capture_store reg p src skipAlpha).1[p]? = some d' ∧
      __capture_find (__capture_store reg p src skipAlpha).1 d.win = some p ∧
      d'.win = d.win ∧ d'.width = W ∧ d'.height = H ∧ d'.getStyle = d.getStyle ∧
      d'.forceBlack = k ∧ d'.blackFault = d.blackFault ∧
      d'.signature = frameSignature d.width d.height src skipAlpha ∧
      d'.pic = some b' ∧ b'.length = W * H * 3 ∧
      (j + 1 < k → d'.successiveBlacks = ((j + 1 : Nat) : Int) ∧
        ∀ q, q < W * H → pixel b' 3 q =
          if pixel src (bytesPerPixel skipAlpha) q = (0, 0, 0) then pixel b 3 q
          else permute (hasFlag d.getStyle CAPTURE_REVERSE)
            (pixel src (bytesPerPixel skipAlpha) q)) ∧
      (j + 1 = k → d'.successiveBlacks = 0 ∧
        ∀ q, q < W * H → pixel b' 3 q =
          if pixel src (bytesPerPixel skipAlpha) q = (0, 0, 0) then (0, 0, 0)
          else permute (hasFlag d.getStyle CAPTURE_REVERSE)
            (pixel src (bytesPerPixel skipAlpha) q)) := by
  obtain ⟨clr, hclr, hclr2, hst⟩ := capture_store_at reg p d src skipAlpha hd
  have hclr3 : clr = clearContext := hclr2 hfind
  subst hclr3
  have hfind2 : __capture_find (__capture_store reg p src skipAlpha).1 d.win = some p := by
    rw [find_eq_of_wins _ reg (wins_capture_store reg p src skipAlpha)]
    exact hfind
  have hcount := capture_count_black_fst src W H skipAlpha (some 0)
  have hblk : withinFault (__capture_count_black src
      (d.width * d.height * (bytesPerPixel skipAlpha : Nat))
      (bytesPerPixel skipAlpha) (some 0)).1 d.blackFault d.width d.height = false := by
    rw [hW, hH, hcount]
    exact hfaulty
  by_cases hlast : j + 1 = k
  · have hcl : d.forceBlack > 0 ∧ (d.successiveBlacks + 1).tmod d.forceBlack = 0 := by
      rw [hfb, hsb]
      constructor
      · exact_mod_cast (by omega : 0 < k)
      · apply Int.tmod_eq_zero_of_dvd
        rw [← hlast]
        push_cast
        exact dvd_refl _
    rw [storeContext_forced d src skipAlpha hsig hblk hcl] at hst
    have hzl : (ZeroMemory b (d.width * d.height * 3)).length = W * H * 3 := by
      rw [ZeroMemory_length]; exact hb
    have hcopy := capture_copy_spec (ZeroMemory b (d.width * d.height * 3)) src W H skipAlpha
      (hasFlag d.getStyle CAPTURE_REVERSE) true hzl
    have hzero : ∀ q, pixel (ZeroMemory b (d.width * d.height * 3)) 3 q = (0, 0, 0) := by
      intro q
      apply pixel_ZeroMemory
      rw [hW, hH, hb]
      have : ((W : Int) * (H : Int) * 3).toNat = W * H * 3 := by
        have : (W : Int) * (H : Int) * 3 = ((W * H * 3 : Nat) : Int) := by push_cast; rfl
        rw [this, Int.toNat_ofNat]
      omega
    refine ⟨_, __capture_copy (ZeroMemory b (d.width * d.height * 3)) src W H skipAlpha
      (hasFlag d.getStyle CAPTURE_REVERSE) true, hst, hfind2, ?_, ?_, ?_, ?_, ?_, ?_, rfl, ?_,
      hcopy.1, ?_, ?_⟩
    · simp only [clearContext, hpic]
    · simp only [clearContext, hpic, hW]
    · simp only [clearContext, hpic, hH]
    · simp only [clearContext, hpic]
    · simp only [clearContext, hpic, hfb]
    · simp only [clearContext, hpic]
    · simp only [clearContext, hpic, hW, hH, Option.map_some']
    · intro h; omega
    · intro _
      refine ⟨by simp only [clearContext, hpic], ?_⟩
      intro q hq
      rw [hcopy.2 q hq, hzero q]
      by_cases hbq : pixel src (bytesPerPixel skipAlpha) q = (0, 0, 0)
      · rw [if_pos ⟨rfl, hbq⟩, if_pos hbq]
      · rw [if_neg (fun h => hbq h.2), if_neg hbq]
  · have hcl : ¬ (d.forceBlack > 0 ∧ (d.successiveBlacks + 1).tmod d.forceBlack = 0) := by
      rw [hfb, hsb]
      rintro ⟨-, h2⟩
      have hdvd : (k : Int) ∣ (j : Int) + 1 := Int.dvd_of_tmod_eq_zero h2
      have hle : (k : Int) ≤ (j : Int) + 1 := Int.le_of_dvd (by omega) hdvd
      omega
    rw [storeContext_merge clearContext d src skipAlpha hsig hblk hcl] at hst
    have hcopy := capture_copy_spec b src W H skipAlpha (hasFlag d.getStyle CAPTURE_REVERSE) true
      hb
    refine ⟨_, __capture_copy b src W H skipAlpha (hasFlag d.getStyle CAPTURE_REVERSE) true,
      hst, hfind2, rfl, hW, hH, rfl, hfb, rfl, rfl, ?_, hcopy.1, ?_, ?_⟩
    · simp only [hpic, hW, hH, Option.map_some']
    · intro _
      refine ⟨by simp only [hsb]; push_cast; rfl, ?_⟩
      intro q hq
      rw [hcopy.2 q hq]
      by_cases hbq : pixel src (bytesPerPixel skipAlpha) q = (0, 0, 0)
      · rw [if_pos ⟨rfl, hbq⟩, if_pos hbq]
      · rw [if_neg (fun h => hbq h.2), if_neg hbq]
    · intro h; exact absurd h hlast

theorem storeFrames_take_succ (reg : List LiveCapture) (p : Nat) (frames : List (List Nat))
    (skipAlpha : Bool) (j : Nat) (hj : j < frames.length) :
    storeFrames reg p (frames.take (j + 1)) skipAlpha =
      (__capture_store (storeFrames reg p (frames.take j) skipAlpha) p (frames.getD j [])
        skipAlpha).1 := by
  have hget : frames.getD j [] = frames[j] := by
    rw [List.getD_eq_getElem?_getD, List.getElem?_eq_getElem hj]
    rfl
  rw [List.take_succ, List.getElem?_eq_getElem hj, hget]
  simp only [storeFrames, List.foldl_append, Option.toList, List.foldl_cons, List.foldl_nil]

theorem getD_mem (frames : List (List Nat)) (j : Nat) (hj : j < frames.length) :
    frames.getD j [] ∈ frames := by
  rw [List.getD_eq_getElem?_getD, List.getElem?_eq_getElem hj]
  exact List.getElem_mem hj

theorem cacheAt_eq (reg : List LiveCapture) (p : Nat) (d : LiveCapture) (b : List Nat)
    (hd : reg[p]? = some d) (hb : d.pic = some b) : cacheAt reg p = b := by
  unfold cacheAt
  rw [hd]
  simp only [hb, Option.getD_some]

/-- The node after `j < k` faulty frames in a row, the first one arriving with
`successiveBlacks = 0` and a period `k`. -/
theorem faulty_run (reg : List LiveCapture) (p : Nat) (c : LiveCapture) (buf : List Nat)
    (frames : List (List Nat)) (skipAlpha : Bool) (W H k : Nat)
    (hc : reg[p]? = some c) (hfind : __capture_find reg c.win = some p)
    (hW : c.width = W) (hH : c.height = H) (hpic : c.pic = some buf)
    (hbuf : buf.length = W * H * 3) (hfb : c.forceBlack = k) (hsb : c.successiveBlacks = 0)
    (hlen : frames.length = k)
    (hfaulty : ∀ f, f ∈ frames →
      withinFault ((blackCount f (bytesPerPixel skipAlpha) (W * H) : Nat) : Int)
        c.blackFault (W : Int) (H : Int) = false)
    (hsigs : ∀ j, j < k → frameSignature W H (frames.getD j []) skipAlpha ≠
      (if j = 0 then c.signature else frameSignature W H (frames.getD (j - 1) []) skipAlpha)) :
    ∀ j, j < k → ∃ d b, (storeFrames reg p (frames.take j) skipAlpha)[p]? = some d ∧
      __capture_find (storeFrames reg p (frames.take j) skipAlpha) c.win = some p ∧
      d.win = c.win ∧ d.width = W ∧ d.height = H ∧ d.getStyle = c.getStyle ∧
      d.forceBlack = k ∧ d.blackFault = c.blackFault ∧ d.successiveBlacks = (j : Int) ∧
      d.signature = (if j = 0 then c.signature
        else frameSignature W H (frames.getD (j - 1) []) skipAlpha) ∧
      d.pic = some b ∧ b.length = W * H * 3 := by
  intro j
  induction j with
  | zero =>
    intro _
    refine ⟨c, buf, ?_, ?_, rfl, hW, hH, rfl, hfb, rfl, ?_, ?_, hpic, hbuf⟩
    · simpa [storeFrames] using hc
    · simpa [storeFrames] using hfind
    · simpa using hsb
    · simp
  | succ j ih =>
    intro hj
    obtain ⟨d, b, hd, hf, hw, hdW, hdH, hgs, hdfb, hbf, hdsb, hdsig, hdpic, hdb⟩ :=
      ih (by omega)
    have hjl : j < frames.length := by omega
    have hs := hsigs j (by omega)
    rw [← hdsig, ← hdW, ← hdH] at hs
    have hfl := hfaulty _ (getD_mem frames j hjl)
    rw [← hbf] at hfl
    rw [← hw] at hf
    obtain ⟨d', b', h1, h2, h3, h4, h5, h6, h7, h8, h9, h10, h11, h12, -⟩ :=
      faulty_step _ p d b (frames.getD j []) skipAlpha W H k j hd hf hdW hdH hdpic hdb hdfb
        hdsb (by omega) hs hfl
    rw [storeFrames_take_succ reg p frames skipAlpha j hjl]
    refine ⟨d', b', h1, ?_, h3.trans hw, h4, h5, h6.trans hgs, h7, h8.trans hbf,
      (h12 hj).1, ?_, h10, h11⟩
    · rw [← hw]; exact h2
    · rw [h9, hdW, hdH]
      simp

/-- One frame that is not faulty stored in a node with a buffer of `W * H` pixels. -/
theorem full_step (reg : List LiveCapture) (p : Nat)
    (c : LiveCapture) (buf src : List Nat) (skipAlpha : Bool) (W H : Nat)
    (hc : reg[p]? = some c) (hW : c.width = W) (hH : c.height = H)
    (hpic : c.pic = some buf) (hbuf : buf.length = W * H * 3)
    (hsig : frameSignature c.width c.height src skipAlpha ≠ c.signature)
    (hblack : withinFault ((blackCount src (bytesPerPixel skipAlpha) (W * H) : Nat) : Int)
      c.blackFault (W : Int) (H : Int) = true) :
    ∃ c' buf', (__capture_store reg p src skipAlpha).1[p]? = some c' ∧
      c'.pic = some buf' ∧ buf'.length = W * H * 3 ∧
      (∀ k, k < W * H →
        pixel buf' 3 k = permute (hasFlag c.getStyle CAPTURE_REVERSE)
          (pixel src (bytesPerPixel skipAlpha) k)) ∧
      c'.successiveBlacks = 0 ∧
      c'.nbBlackPixels = ((blackCount src (bytesPerPixel skipAlpha) (W * H) : Nat) : Int) ∧
      c'.signature = frameSignature c.width c.height src skipAlpha := by
  obtain ⟨clr, hclr, -, hst⟩ := capture_store_at reg p c src skipAlpha hc
  obtain ⟨-, kw, kh, ks, -, -, kp⟩ := clr_keeps clr hclr c
  obtain ⟨b, hb, hbl⟩ := kp buf hpic
  have hcount := capture_count_black_fst src W H skipAlpha (some 0)
  have hblk : withinFault (__capture_count_black src
      (c.width * c.height * (bytesPerPixel skipAlpha : Nat))
      (bytesPerPixel skipAlpha) (some 0)).1 c.blackFault c.width c.height = true := by
    rw [hW, hH, hcount]
    exact hblack
  have hcopy := capture_copy_spec b src W H skipAlpha (hasFlag c.getStyle CAPTURE_REVERSE) false
    (hbl.trans hbuf)
  refine ⟨storeContext clr c src skipAlpha, __capture_copy b src W H skipAlpha
    (hasFlag c.getStyle CAPTURE_REVERSE) false, hst, ?_, hcopy.1, ?_, ?_, ?_, ?_⟩
  · rw [storeContext_full clr c src skipAlpha hsig hblk]
    simp only [hb, kw, kh, ks, hW, hH, Option.map_some']
  · intro k hk
    have := hcopy.2 k hk
    simpa using this
  · rw [storeContext_full clr c src skipAlpha hsig hblk]
  · rw [storeContext_full clr c src skipAlpha hsig hblk]
    simp only [hW, hH, hcount]
  · rw [storeContext_full clr c src skipAlpha hsig hblk]

theorem getElem?_set_self_of_some (reg : List LiveCapture) (p : Nat) (c d : LiveCapture)
    (hc : reg[p]? = some c) : (reg.set p d)[p]? = some d := by
  have hp : p < reg.length := by
    by_contra h
    rw [List.getElem?_eq_none (Nat.le_of_not_lt h)] at hc
    exact Option.noConfusion hc
  simp [List.getElem?_set, hp]

theorem captureCycle_ok (s : List LiveCapture) (T : HWND) (p : Nat) (d : LiveCapture)
    (Width Height : Int) (src : List Nat) (skipAlpha : Bool)
    (hfind : __capture_find s T = some p) (hd : s[p]? = some d) :
    (captureCycle s T Width Height (.ok src) skipAlpha).1 =
      (__capture_store (s.set p (__capture_init d Width Height false).1) p src skipAlpha).1 := by
  unfold captureCycle
  simp only [hfind]
  rw [update_eq_set s p _ d hd]

theorem capture_init_win (c : LiveCapture) (Width Height : Int) (force : Bool) :
    (__capture_init c Width Height force).1.win = c.win := by
  unfold __capture_init
  split <;> rfl

theorem capture_init_same (c : LiveCapture) (W H : Nat) (hW : c.width = W) (hH : c.height = H)
    (hpos : 0 < W) : (__capture_init c W H false).1 = { c with err := "" } := by
  unfold __capture_init
  have h0 : c.width ≠ 0 := by rw [hW]; exact_mod_cast (by omega : W ≠ 0)
  have hcond : ¬ (c.height ≠ (H : Int) ∨ c.width ≠ (W : Int) ∨ (c.width = 0 ∧ c.height = 0) ∨
      false = true) := by
    rintro (h | h | h | h)
    · exact h hH
    · exact h hW
    · exact h0 h.1
    · exact Bool.noConfusion h
  rw [if_neg hcond]

theorem capture_init_fresh (c : LiveCapture) (W H : Nat) (hH : c.height = 0) (hpos : 0 < H) :
    (__capture_init c W H false).1 =
      { c with height := H, width := W, pic := some (List.replicate (W * H * 3) 0),
               successiveBlacks := 0 } := by
  unfold __capture_init
  have h0 : c.height ≠ (H : Int) := by rw [hH]; exact_mod_cast (by omega : 0 ≠ H)
  have hn : ((W : Int) * (H : Int) * 3).toNat = W * H * 3 := by
    have : (W : Int) * (H : Int) * 3 = ((W * H * 3 : Nat) : Int) := by push_cast; rfl
    rw [this, Int.toNat_ofNat]
  rw [if_pos (Or.inl h0), hn]

theorem CaptureNew_create (reg : List LiveCapture) (IsWindow : HWND → Bool) (T : HWND)
    (getStyle : Int) (blackFault : ℚ) (forceBlack : Int)
    (hfresh : __capture_find reg T = none) (hvalid : IsWindow T = true) :
    CaptureNew reg IsWindow T getStyle blackFault forceBlack =
      (newContext T getStyle
        (if (if blackFault < 0 then 0 else blackFault) > 1 then 1
           else (if blackFault < 0 then 0 else blackFault)) forceBlack :: reg, true) := by
  unfold CaptureNew newContext
  simp only [hfresh, hvalid, not_true_eq_false, if_false]

theorem clamp_eq (r : ℚ) :
    (if (if r < 0 then 0 else r) > 1 then 1 else (if r < 0 then 0 else r)) = min (max r 0) 1 := by
  by_cases h0 : r < 0
  · have h1 : ¬ ((0 : ℚ) > 1) := by norm_num
    rw [if_pos h0, if_neg h1, max_eq_right (le_of_lt h0), min_eq_left (by norm_num)]
  · rw [if_neg h0, max_eq_left (not_lt.mp h0)]
    by_cases h1 : r > 1
    · rw [if_pos h1, min_eq_right (le_of_lt h1)]
    · rw [if_neg h1, min_eq_left (not_lt.mp h1)]

theorem find_head (c : LiveCapture) (reg : List LiveCapture) :
    __capture_find (c :: reg) c.win = some 0 := by
  simp [__capture_find]

theorem contextOf_eq (s : List LiveCapture) (T : HWND) (p : Nat)
    (hfind : __capture_find s T = some p) : contextOf s T = s[p]? := by
  unfold contextOf
  rw [hfind]

/-- A capture cycle with a faulty frame on a node that `__capture_init` leaves
with a buffer of `W * H` pixels, `j` faulty frames after the last clear. -/
theorem cycle_faulty (s : List LiveCapture) (T : HWND) (p : Nat) (d : LiveCapture)
    (b0 src : List Nat) (skipAlpha : Bool) (W H k j : Nat)
    (hfind : __capture_find s T = some p) (hd : s[p]? = some d) (hwin : d.win = T)
    (hW : (__capture_init d W H false).1.width = W)
    (hH : (__capture_init d W H false).1.height = H)
    (hpic : (__capture_init d W H false).1.pic = some b0)
    (hb : b0.length = W * H * 3)
    (hfb : (__capture_init d W H false).1.forceBlack = k)
    (hsb : (__capture_init d W H false).1.successiveBlacks = j)
    (hjk : j < k)
    (hsig : frameSignature W H src skipAlpha ≠ (__capture_init d W H false).1.signature)
    (hfaulty :
      withinFault ((blackCount src (bytesPerPixel skipAlpha) (W * H) : Nat) : Int)
        (__capture_init d W H false).1.blackFault (W : Int) (H : Int) = false) :
    ∃ d' b', (captureCycle s T W H (.ok src) skipAlpha).1[p]? = some d' ∧
      __capture_find (captureCycle s T W H (.ok src) skipAlpha).1 T = some p ∧
      d'.win = T ∧ d'.width = W ∧ d'.height = H ∧
      d'.getStyle = (__capture_init d W H false).1.getStyle ∧
      d'.forceBlack = k ∧ d'.blackFault = (__capture_init d W H false).1.blackFault ∧
      d'.signature = frameSignature W H src skipAlpha ∧
      d'.pic = some b' ∧ b'.length = W * H * 3 ∧
      (j + 1 < k → d'.successiveBlacks = ((j + 1 : Nat) : Int) ∧
        ∀ q, q < W * H → pixel b' 3 q =
          if pixel src (bytesPerPixel skipAlpha) q = (0, 0, 0) then pixel b0 3 q
          else permute (hasFlag (__capture_init d W H false).1.getStyle CAPTURE_REVERSE)
            (pixel src (bytesPerPixel skipAlpha) q)) ∧
      (j + 1 = k → d'.successiveBlacks = 0 ∧
        ∀ q, q < W * H → pixel b' 3 q =
          if pixel src (bytesPerPixel skipAlpha) q = (0, 0, 0) then (0, 0, 0)
          else permute (hasFlag (__capture_init d W H false).1.getStyle CAPTURE_REVERSE)
            (pixel src (bytesPerPixel skipAlpha) q)) := by
  have hw0 : (__capture_init d W H false).1.win = T := by rw [capture_init_win]; exact hwin
  have h1 := getElem?_set_self_of_some s p d (__capture_init d W H false).1 hd
  have h2 : __capture_find (s.set p (__capture_init d W H false).1)
      (__capture_init d W H false).1.win = some p := by
    rw [find_set s p d _ hd ((capture_init_win d W H false)), hw0]
    exact hfind
  have hsig' : frameSignature (__capture_init d W H false).1.width
      (__capture_init d W H false).1.height src skipAlpha ≠
      (__capture_init d W H false).1.signature := by
    rw [hW, hH]; exact hsig
  obtain ⟨d', b', r1, r2, r3, r4, r5, r6, r7, r8, r9, r10, r11, r12, r13⟩ :=
    faulty_step _ p _ b0 src skipAlpha W H k j h1 h2 hW hH hpic hb hfb hsb hjk hsig' hfaulty
  rw [captureCycle_ok s T p d W H src skipAlpha hfind hd]
  rw [hw0] at r2
  rw [hW, hH] at r9
  exact ⟨d', b', r1, r2, r3.trans hw0, r4, r5, r6, r7, r8, r9, r10, r11, r12, r13⟩

/-- A capture cycle with a frame that is not faulty on a node that
`__capture_init` leaves with a buffer of `W * H` pixels. -/
theorem cycle_full (s : List LiveCapture) (T : HWND) (p : Nat) (d : LiveCapture)
    (b0 src : List Nat) (skipAlpha : Bool) (W H : Nat)
    (hfind : __capture_find s T = some p) (hd : s[p]? = some d)
    (hW : (__capture_init d W H false).1.width = W)
    (hH : (__capture_init d W H false).1.height = H)
    (hpic : (__capture_init d W H false).1.pic = some b0)
    (hb : b0.length = W * H * 3)
    (hsig : frameSignature W H src skipAlpha ≠ (__capture_init d W H false).1.signature)
    (hblack : withinFault ((blackCount src (bytesPerPixel skipAlpha) (W * H) : Nat) : Int)
      (__capture_init d W H false).1.blackFault (W : Int) (H : Int) = true) :
    ∃ d' b', (captureCycle s T W H (.ok src) skipAlpha).1[p]? = some d' ∧
      __capture_find (captureCycle s T W H (.ok src) skipAlpha).1 T = some p ∧
      d'.pic = some b' ∧ b'.length = W * H * 3 ∧
      (∀ q, q < W * H → pixel b' 3 q =
        permute (hasFlag (__capture_init d W H false).1.getStyle CAPTURE_REVERSE)
          (pixel src (bytesPerPixel skipAlpha) q)) ∧
      d'.successiveBlacks = 0 ∧
      d'.nbBlackPixels = ((blackCount src (bytesPerPixel skipAlpha) (W * H) : Nat) : Int) ∧
      d'.signature = frameSignature W H src skipAlpha := by
  have h1 := getElem?_set_self_of_some s p d (__capture_init d W H false).1 hd
  have hsig' : frameSignature (__capture_init d W H false).1.width
      (__capture_init d W H false).1.height src skipAlpha ≠
      (__capture_init d W H false).1.signature := by
    rw [hW, hH]; exact hsig
  obtain ⟨d', b', r1, r2, r3, r4, r5, r6, r7⟩ :=
    full_step _ p _ b0 src skipAlpha W H h1 hW hH hpic hb hsig' hblack
  rw [captureCycle_ok s T p d W H src skipAlpha hfind hd]
  have hf2 : __capture_find (__capture_store (s.set p (__capture_init d W H false).1) p src
      skipAlpha).1 T = some p := by
    rw [find_eq_of_wins _ _ (wins_capture_store _ p src skipAlpha),
      find_set s p d _ hd (capture_init_win d W H false)]
    exact hfind
  rw [hW, hH] at r7
  exact ⟨d', b', r1, hf2, r2, r3, r4, r5, r6, r7⟩

theorem CaptureNew_update (reg : List LiveCapture) (IsWindow : HWND → Bool) (T : HWND)
    (getStyle : Int) (blackFault : ℚ) (forceBlack : Int) (p : Nat) (c : LiveCapture)
    (hfind : __capture_find reg T = some p) (hc : reg[p]? = some c) :
    CaptureNew reg IsWindow T getStyle blackFault forceBlack =
      (reg.set p { c with getStyle := getStyle, blackFault := blackFault,
                          forceBlack := forceBlack }, true) := by
  unfold CaptureNew
  simp only [hfind]
  rw [update_eq_set reg p _ c hc]

theorem wins_CaptureNew_update (reg : List LiveCapture) (IsWindow : HWND → Bool) (T : HWND)
    (getStyle : Int) (blackFault : ℚ) (forceBlack : Int) (p : Nat)
    (hfind : __capture_find reg T = some p) :
    wins (CaptureNew reg IsWindow T getStyle blackFault forceBlack).1 = wins reg := by
  unfold CaptureNew
  simp only [hfind]
  exact wins_update reg p _ (fun _ => rfl)

theorem mem_wins_of_getElem? (reg : List LiveCapture) (i : Nat) (c : LiveCapture)
    (hc : reg[i]? = some c) :
    ∃ h : i < (wins reg).length, (wins reg)[i] = c.win := by
  have : (wins reg)[i]? = some c.win := by
    unfold wins
    rw [List.getElem?_map, hc]
    rfl
  exact List.getElem?_eq_some.mp this

theorem unique_of_nodup (reg : List LiveCapture) (hn : (wins reg).Nodup) (i j : Nat)
    (ci cj : LiveCapture) (hi : reg[i]? = some ci) (hj : reg[j]? = some cj)
    (hw : ci.win = cj.win) : i = j := by
  obtain ⟨h1, e1⟩ := mem_wins_of_getElem? reg i ci hi
  obtain ⟨h2, e2⟩ := mem_wins_of_getElem? reg j cj hj
  exact (List.Nodup.getElem_inj_iff hn).mp (by rw [e1, e2, hw])

theorem wins_applyOp_nodup (reg : List LiveCapture) (op : Op) (hn : (wins reg).Nodup) :
    (wins (applyOp reg op)).Nodup := by
  cases op with
  | new valid hWnd getStyle blackFault forceBlack =>
    simp only [applyOp]
    cases hf : __capture_find reg hWnd with
    | some p =>
      rw [wins_CaptureNew_update reg _ hWnd getStyle blackFault forceBlack p hf]
      exact hn
    | none =>
      cases valid with
      | false =>
        unfold CaptureNew
        simp only [hf]
        exact hn
      | true =>
        rw [CaptureNew_create reg _ hWnd getStyle blackFault forceBlack hf rfl]
        simp only [wins, List.map_cons, newContext]
        refine List.nodup_cons.mpr ⟨?_, hn⟩
        intro hmem
        obtain ⟨c, hc, hcw⟩ := List.mem_map.mp hmem
        exact find_none reg hWnd hf c hc hcw
  | setRect hWnd l t r b =>
    simp only [applyOp, CaptureSetRect]
    split
    · exact hn
    · simp [wins_update, hn]
  | clear hWnd =>
    simp only [applyOp]
    rw [wins_CaptureClear]
    exact hn
  | delete hWnd =>
    simp only [applyOp, CaptureDelete]
    split
    · exact hn
    · exact List.Nodup.sublist (List.Sublist.map _ (List.eraseIdx_sublist reg _)) hn
  | snap hWnd Width Height frame skipAlpha =>
    simp only [applyOp, captureCycle]
    split
    · exact hn
    · cases frame with
      | error msg =>
        simp [wins_update, capture_init_win, hn]
      | ok src =>
        simp only
        rw [wins_capture_store, wins_update _ _ _ (fun c => capture_init_win c Width Height false)]
        exact hn

theorem reachable_nodup (reg : List LiveCapture) (hr : Reachable reg) : (wins reg).Nodup := by
  obtain ⟨ops, rfl⟩ := hr
  have h : ∀ (ops : List Op) (s : List LiveCapture), (wins s).Nodup →
      (wins (ops.foldl applyOp s)).Nodup := by
    intro ops
    induction ops with
    | nil => intro s hs; exact hs
    | cons op rest ih => intro s hs; exact ih _ (wins_applyOp_nodup s op hs)
  exact h ops [] (by simp [wins])

/-- The float product for the ratio `16510911 / 2^25` and a buffer of 9 x 7
pixels is `16252927 / 2^19`, just below 31, while the exact product is above
31. -/
theorem withinFault_below_31 :
    withinFault 31 (16510911 / 33554432) 9 7 = false := by
  have h9 : toFloat (((9 : Int) : ℚ)) = 9 := by
    simpa using toFloat_int 9 (by decide)
  have h7 : toFloat (((7 : Int) : ℚ)) = 7 := by
    simpa using toFloat_int 7 (by decide)
  have h31 : toFloat (((31 : Int) : ℚ)) = 31 := by
    simpa using toFloat_int 31 (by decide)
  have ha : toFloat ((16510911 / 33554432 : ℚ) * 9) = 9287387 / 2097152 := by
    have := toFloat_of_near ((16510911 / 33554432 : ℚ) * 9) 2 9287387 (by norm_num)
      (by norm_num) (by norm_num [abs_lt])
    rw [this]
    norm_num
  have hb : toFloat ((9287387 / 2097152 : ℚ) * 7) = 16252927 / 524288 := by
    have := toFloat_of_near ((9287387 / 2097152 : ℚ) * 7) 4 16252927 (by norm_num)
      (by norm_num) (by norm_num [abs_lt])
    rw [this]
    norm_num
  unfold withinFault
  rw [h9, h7, h31, ha, hb]
  rw [decide_eq_false_iff_not]
  norm_num

/-- C1 as stated fails where the float product rounds below the exact one.
A context of 9 x 7 pixels holds the ratio `16510911 / 2^25` (a float) and a
buffer of colour `(9, 9, 9)`; the frame has 31 black pixels out of 63 and a
signature different from the stored one, and `31 <= ratio * 9 * 7` in exact
arithmetic.  The store takes the faulty branch: `successiveBlacks` is 1 and the
pixel 62 of the buffer is still `(9, 9, 9)` where the frame is black. -/
theorem full_replace_fails_at_rounding :
    frameSignature 9 7 (thresholdFrame 32 31) false
      ≠ (thresholdContext (16510911 / 33554432) 9 7).signature ∧
    ((blackCount (thresholdFrame 32 31) (bytesPerPixel false) (9 * 7) : Nat) : ℚ)
      ≤ (thresholdContext (16510911 / 33554432) 9 7).blackFault * 9 * 7 ∧
    ∃ c' buf', (__capture_store [thresholdContext (16510911 / 33554432) 9 7] 0
        (thresholdFrame 32 31) false).1[0]? = some c' ∧
      c'.pic = some buf' ∧ c'.successiveBlacks = 1 ∧
      pixel buf' 3 62 = (9, 9, 9) ∧
      pixel (thresholdFrame 32 31) (bytesPerPixel false) 62 = (0, 0, 0) := by
  have hcount : blackCount (thresholdFrame 32 31) (bytesPerPixel false) (9 * 7) = 31 := by
    decide
  have hsig : frameSignature 9 7 (thresholdFrame 32 31) false
      ≠ (thresholdContext (16510911 / 33554432) 9 7).signature := by decide
  refine ⟨hsig, ?_, ?_⟩
  · rw [hcount]
    norm_num [thresholdContext]
  · obtain ⟨d', b', h1, -, -, -, -, -, -, -, -, h2, -, h3, -⟩ :=
      faulty_step [thresholdContext (16510911 / 33554432) 9 7] 0
        (thresholdContext (16510911 / 33554432) 9 7) (List.replicate (9 * 7 * 3) 9)
        (thresholdFrame 32 31) false 9 7 5 0 rfl (find_head _ []) rfl rfl rfl
        (List.length_replicate _ _) rfl rfl (by decide) hsig
        (by rw [hcount]; exact withinFault_below_31)
    obtain ⟨h4, h5⟩ := h3 (by decide)
    refine ⟨d', b', h1, h2, h4, ?_, by decide⟩
    rw [h5 62 (by decide)]
    decide

/-- C1 (full replace), amended.  For a node of the list whose buffer holds
`W * H` pixels and a raw frame of `W * H` pixels at 3 or 4 bytes per pixel,
whose signature differs from the stored one and whose number of black pixels
passes the test of the code, `BlackPixels <= blackFault * W * H` with the
product and the comparison in `float` (`withinFault`): after `__capture_store`
every pixel of the buffer is the source pixel with its colour bytes permuted as
`CAPTURE_REVERSE` asks (the alpha byte dropped), `successiveBlacks` is 0, and
`nbBlackPixels` and `signature` are those of the frame. -/
theorem capture_store_full_replace (all_captures : List LiveCapture) (p : Nat)
    (c : LiveCapture) (buf src : List Nat) (skipAlpha : Bool) (W H : Nat)
    (hc : all_captures[p]? = some c) (hW : c.width = W) (hH : c.height = H)
    (hpic : c.pic = some buf) (hbuf : buf.length = W * H * 3)
    (_hsrc : src.length = W * H * bytesPerPixel skipAlpha)
    (hsig : frameSignature c.width c.height src skipAlpha ≠ c.signature)
    (hblack : withinFault ((blackCount src (bytesPerPixel skipAlpha) (W * H) : Nat) : Int)
      c.blackFault (W : Int) (H : Int) = true) :
    ∃ c' buf', (__capture_store all_captures p src skipAlpha).1[p]? = some c' ∧
      c'.pic = some buf' ∧ buf'.length = W * H * 3 ∧
      (∀ k, k < W * H →
        pixel buf' 3 k = permute (hasFlag c.getStyle CAPTURE_REVERSE)
          (pixel src (bytesPerPixel skipAlpha) k)) ∧
      c'.successiveBlacks = 0 ∧
      c'.nbBlackPixels = ((blackCount src (bytesPerPixel skipAlpha) (W * H) : Nat) : Int) ∧
      c'.signature = frameSignature c.width c.height src skipAlpha := by
  obtain ⟨c', buf', h1, h2, h3, h4, h5, h6, h7⟩ :=
    full_step all_captures p c buf src skipAlpha W H hc hW hH hpic hbuf hsig hblack
  exact ⟨c', buf', h1, h2, h3, h4, h5, h6, h7⟩

theorem capture_store_full_replace_witness :
    ∃ c' buf', (__capture_store [sampleContext (1 / 2) 0] 0 [1, 2, 3, 0, 0, 0] false).1[0]?
        = some c' ∧
      c'.pic = some buf' ∧ buf'.length = 2 * 1 * 3 ∧
      (∀ k, k < 2 * 1 →
        pixel buf' 3 k = permute (hasFlag (sampleContext (1 / 2) 0).getStyle CAPTURE_REVERSE)
          (pixel [1, 2, 3, 0, 0, 0] (bytesPerPixel false) k)) ∧
      c'.successiveBlacks = 0 ∧
      c'.nbBlackPixels = ((blackCount [1, 2, 3, 0, 0, 0] (bytesPerPixel false) (2 * 1) : Nat) : Int) ∧
      c'.signature = frameSignature (sampleContext (1 / 2) 0).width
        (sampleContext (1 / 2) 0).height [1, 2, 3, 0, 0, 0] false :=
  capture_store_full_replace [sampleContext (1 / 2) 0] 0 (sampleContext (1 / 2) 0)
    [9, 9, 9, 9, 9, 9] [1, 2, 3, 0, 0, 0] false 2 1 rfl rfl rfl rfl (by decide) (by decide)
    (by decide)
    (by
      have h : blackCount [1, 2, 3, 0, 0, 0] (bytesPerPixel false) (2 * 1) = 1 := by decide
      rw [h]
      exact (withinFault_exact 1 (1 / 2) 2 1 1 1 (by decide) (by decide) (by decide)
        (by norm_num) (by norm_num) (by decide) (by decide)).trans (by decide))

/-- The float product for the ratio `11744051 / 2^24` (the float nearest to
0.7) and a buffer of 4 x 5 pixels is 14, while the exact product is below 14. -/
theorem withinFault_at_14 :
    withinFault 14 (11744051 / 16777216) 4 5 = true := by
  have h4 : toFloat (((4 : Int) : ℚ)) = 4 := by
    simpa using toFloat_int 4 (by decide)
  have h5 : toFloat (((5 : Int) : ℚ)) = 5 := by
    simpa using toFloat_int 5 (by decide)
  have h14 : toFloat (((14 : Int) : ℚ)) = 14 := by
    simpa using toFloat_int 14 (by decide)
  have ha : toFloat ((11744051 / 16777216 : ℚ) * 4) = 11744051 / 4194304 := by
    have := toFloat_exact 11744051 (-22) (by decide)
    norm_num at this ⊢
    exact this
  have hb : toFloat ((11744051 / 4194304 : ℚ) * 5) = 14 := by
    have := toFloat_of_near ((11744051 / 4194304 : ℚ) * 5) 3 14680064 (by norm_num)
      (by norm_num) (by norm_num [abs_lt])
    rw [this]
    norm_num
  unfold withinFault
  rw [h4, h5, h14, ha, hb]
  rw [decide_eq_true_iff]

/-- C2 as stated fails where the float product rounds above the exact one.
A context of 4 x 5 pixels holds the ratio `11744051 / 2^24` (the float 0.7), a
period of 5 and a buffer of colour `(9, 9, 9)`; the frame has 14 black pixels
out of 20 and a signature different from the stored one, `14 > ratio * 4 * 5`
in exact arithmetic, and no forced clear is due.  The store takes the full
replace branch: `successiveBlacks` is 0, not one more than before, and the pixel
19 of the buffer is `(0, 0, 0)`, not the `(9, 9, 9)` it was. -/
theorem selective_merge_fails_at_rounding :
    frameSignature 4 5 (thresholdFrame 6 14) false
      ≠ (thresholdContext (11744051 / 16777216) 4 5).signature ∧
    (thresholdContext (11744051 / 16777216) 4 5).blackFault * 4 * 5
      < ((blackCount (thresholdFrame 6 14) (bytesPerPixel false) (4 * 5) : Nat) : ℚ) ∧
    ¬ ((thresholdContext (11744051 / 16777216) 4 5).forceBlack
      ∣ (thresholdContext (11744051 / 16777216) 4 5).successiveBlacks + 1) ∧
    ∃ c' buf', (__capture_store [thresholdContext (11744051 / 16777216) 4 5] 0
        (thresholdFrame 6 14) false).1[0]? = some c' ∧
      c'.pic = some buf' ∧ c'.successiveBlacks = 0 ∧
      (thresholdContext (11744051 / 16777216) 4 5).successiveBlacks + 1 = 1 ∧
      pixel buf' 3 19 = (0, 0, 0) ∧
      pixel (thresholdFrame 6 14) (bytesPerPixel false) 19 = (0, 0, 0) ∧
      pixel (List.replicate (4 * 5 * 3) 9) 3 19 = (9, 9, 9) := by
  have hcount : blackCount (thresholdFrame 6 14) (bytesPerPixel false) (4 * 5) = 14 := by
    decide
  have hsig : frameSignature 4 5 (thresholdFrame 6 14) false
      ≠ (thresholdContext (11744051 / 16777216) 4 5).signature := by decide
  refine ⟨hsig, ?_, by decide, ?_⟩
  · rw [hcount]
    norm_num [thresholdContext]
  · obtain ⟨c', b', h1, h2, -, h3, h4, -, -⟩ :=
      full_step [thresholdContext (11744051 / 16777216) 4 5] 0
        (thresholdContext (11744051 / 16777216) 4 5) (List.replicate (4 * 5 * 3) 9)
        (thresholdFrame 6 14) false 4 5 rfl rfl rfl rfl
        (List.length_replicate _ _) hsig
        (by rw [hcount]; exact withinFault_at_14)
    refine ⟨c', b', h1, h2, h4, by decide, ?_, by decide, by decide⟩
    rw [h3 19 (by decide)]
    decide

/-- C2 (selective merge), amended.  For a node whose buffer holds `W * H`
pixels and a raw frame of that size whose signature differs from the stored
one, whose number of black pixels fails the test of the code,
`BlackPixels <= blackFault * W * H` with the product and the comparison in
`float` (`withinFault`), and which triggers no
forced clear (`forceBlack <= 0`, or `successiveBlacks + 1` is not a multiple of
`forceBlack`): after `__capture_store` a pixel of the buffer is the permuted
source pixel where the source pixel is not black and is what it was where the
source pixel is black, and `successiveBlacks` has grown by one. -/
theorem capture_store_selective_merge (all_captures : List LiveCapture) (p : Nat)
    (c : LiveCapture) (buf src : List Nat) (skipAlpha : Bool) (W H : Nat)
    (hc : all_captures[p]? = some c) (hW : c.width = W) (hH : c.height = H)
    (hpic : c.pic = some buf) (hbuf : buf.length = W * H * 3)
    (_hsrc : src.length = W * H * bytesPerPixel skipAlpha)
    (hsig : frameSignature c.width c.height src skipAlpha ≠ c.signature)
    (hblack :
      withinFault ((blackCount src (bytesPerPixel skipAlpha) (W * H) : Nat) : Int)
        c.blackFault (W : Int) (H : Int) = false)
    (hnoclear : c.forceBlack ≤ 0 ∨ ¬ (c.forceBlack ∣ c.successiveBlacks + 1)) :
    ∃ c' buf', (__capture_store all_captures p src skipAlpha).1[p]? = some c' ∧
      c'.pic = some buf' ∧ buf'.length = W * H * 3 ∧
      (∀ k, k < W * H →
        (pixel src (bytesPerPixel skipAlpha) k ≠ (0, 0, 0) →
          pixel buf' 3 k = permute (hasFlag c.getStyle CAPTURE_REVERSE)
            (pixel src (bytesPerPixel skipAlpha) k)) ∧
        (pixel src (bytesPerPixel skipAlpha) k = (0, 0, 0) → pixel buf' 3 k = pixel buf 3 k)) ∧
      c'.successiveBlacks = c.successiveBlacks + 1 := by
  obtain ⟨clr, -, -, hst⟩ := capture_store_at all_captures p c src skipAlpha hc
  have hcount := capture_count_black_fst src W H skipAlpha (some 0)
  have hblk : withinFault (__capture_count_black src
      (c.width * c.height * (bytesPerPixel skipAlpha : Nat))
      (bytesPerPixel skipAlpha) (some 0)).1 c.blackFault c.width c.height = false := by
    rw [hW, hH, hcount]
    exact hblack
  have hcl : ¬ (c.forceBlack > 0 ∧ (c.successiveBlacks + 1).tmod c.forceBlack = 0) := by
    rintro ⟨h1, h2⟩
    rcases hnoclear with h | h
    · omega
    · exact h (Int.dvd_of_tmod_eq_zero h2)
  have hcopy := capture_copy_spec buf src W H skipAlpha (hasFlag c.getStyle CAPTURE_REVERSE) true
    hbuf
  rw [storeContext_merge clr c src skipAlpha hsig hblk hcl] at hst
  refine ⟨_, __capture_copy buf src W H skipAlpha (hasFlag c.getStyle CAPTURE_REVERSE) true,
    hst, ?_, hcopy.1, ?_, rfl⟩
  · simp only [hpic, hW, hH, Option.map_some']
  · intro k hk
    have := hcopy.2 k hk
    constructor
    · intro hne
      rw [this, if_neg (fun h => hne h.2)]
    · intro he
      rw [this, if_pos ⟨rfl, he⟩]

theorem capture_store_selective_merge_witness :
    ∃ c' buf', (__capture_store [sampleContext 0 0] 0 [1, 2, 3, 0, 0, 0] false).1[0]?
        = some c' ∧
      c'.pic = some buf' ∧ buf'.length = 2 * 1 * 3 ∧
      (∀ k, k < 2 * 1 →
        (pixel [1, 2, 3, 0, 0, 0] (bytesPerPixel false) k ≠ (0, 0, 0) →
          pixel buf' 3 k = permute (hasFlag (sampleContext 0 0).getStyle CAPTURE_REVERSE)
            (pixel [1, 2, 3, 0, 0, 0] (bytesPerPixel false) k)) ∧
        (pixel [1, 2, 3, 0, 0, 0] (bytesPerPixel false) k = (0, 0, 0) →
          pixel buf' 3 k = pixel [9, 9, 9, 9, 9, 9] 3 k)) ∧
      c'.successiveBlacks = (sampleContext 0 0).successiveBlacks + 1 :=
  capture_store_selective_merge [sampleContext 0 0] 0 (sampleContext 0 0)
    [9, 9, 9, 9, 9, 9] [1, 2, 3, 0, 0, 0] false 2 1 rfl rfl rfl rfl (by decide) (by decide)
    (by decide)
    (by
      have h : blackCount [1, 2, 3, 0, 0, 0] (bytesPerPixel false) (2 * 1) = 1 := by decide
      rw [h]
      exact (withinFault_exact 1 0 2 1 0 0 (by decide) (by decide) (by decide)
        (by norm_num) (by norm_num) (by decide) (by decide)).trans (by decide))
    (Or.inl (by decide))

/-- C3 as stated fails where the float product rounds above the exact one.
A context of 4 x 5 pixels holds the ratio `11744051 / 2^24` (the float 0.7), a
period of 5, `successiveBlacks = 0` and a buffer of colour `(9, 9, 9)`; the five
frames have 14 black pixels out of 20 each, so `14 > ratio * 4 * 5` in exact
arithmetic, and each has a signature different from the one stored when it
arrives.  The first store is a full replace: the pixel 19 of the buffer, where
the first frame is black, is `(0, 0, 0)` after it and not the `(9, 9, 9)` it
was. -/
theorem forced_clear_fails_at_rounding :
    (thresholdContext (11744051 / 16777216) 4 5).forceBlack = 5 ∧
    (thresholdContext (11744051 / 16777216) 4 5).successiveBlacks = 0 ∧
    thresholdFrames.length = 5 ∧
    (∀ f, f ∈ thresholdFrames →
      (thresholdContext (11744051 / 16777216) 4 5).blackFault * 4 * 5
        < ((blackCount f (bytesPerPixel false) (4 * 5) : Nat) : ℚ)) ∧
    (∀ j, j < 5 → frameSignature 4 5 (thresholdFrames.getD j []) false ≠
      (if j = 0 then (thresholdContext (11744051 / 16777216) 4 5).signature
        else frameSignature 4 5 (thresholdFrames.getD (j - 1) []) false)) ∧
    pixel (thresholdFrames.getD 0 []) (bytesPerPixel false) 19 = (0, 0, 0) ∧
    pixel (cacheAt (storeFrames [thresholdContext (11744051 / 16777216) 4 5] 0
      (thresholdFrames.take 0) false) 0) 3 19 = (9, 9, 9) ∧
    pixel (cacheAt (storeFrames [thresholdContext (11744051 / 16777216) 4 5] 0
      (thresholdFrames.take 1) false) 0) 3 19 = (0, 0, 0) := by
  have hcount : ∀ g, g ∈ thresholdFrames → blackCount g (bytesPerPixel false) (4 * 5) = 14 := by
    decide
  have hsig : frameSignature 4 5 (thresholdFrame 6 14) false
      ≠ (thresholdContext (11744051 / 16777216) 4 5).signature := by decide
  refine ⟨rfl, rfl, rfl, ?_, by decide, by decide, by decide, ?_⟩
  · intro f hf
    rw [hcount f hf]
    norm_num [thresholdContext]
  · obtain ⟨c', b', h1, h2, -, h3, -, -, -⟩ :=
      full_step [thresholdContext (11744051 / 16777216) 4 5] 0
        (thresholdContext (11744051 / 16777216) 4 5) (List.replicate (4 * 5 * 3) 9)
        (thresholdFrame 6 14) false 4 5 rfl rfl rfl rfl
        (List.length_replicate _ _) hsig
        (by rw [hcount _ (by decide)]; exact withinFault_at_14)
    have hst : storeFrames [thresholdContext (11744051 / 16777216) 4 5] 0
        (thresholdFrames.take 1) false
        = (__capture_store [thresholdContext (11744051 / 16777216) 4 5] 0
            (thresholdFrame 6 14) false).1 := rfl
    rw [hst]
    unfold cacheAt
    rw [h1]
    simp only [h2, Option.getD_some]
    rw [h3 19 (by decide)]
    decide

/-- C3 (forced clear), amended.  Take `k > 0`, a node with `forceBlack = k` and
`successiveBlacks = 0` that the lookup by its window returns, with a buffer of
`W * H` pixels, and `k` faulty frames of that size stored in a row (frames
that fail the test of the code, `BlackPixels <= blackFault * W * H` computed in
`float`), each with a
signature different from the stored one when it arrives (the signature of the
node for the first frame, of the previous frame for the others).  Then each of
the first `k - 1` stores keeps the cached pixel where the source pixel is black
and writes the permuted source pixel elsewhere, and after the `k`-th store a
cached pixel is zero where the `k`-th frame is black and the permuted pixel of
the `k`-th frame elsewhere. -/
theorem forced_clear_every_k (all_captures : List LiveCapture) (p : Nat) (c : LiveCapture)
    (buf : List Nat) (frames : List (List Nat)) (skipAlpha : Bool) (W H k : Nat)
    (hk : 0 < k)
    (hc : all_captures[p]? = some c) (hfind : __capture_find all_captures c.win = some p)
    (hW : c.width = W) (hH : c.height = H) (hpic : c.pic = some buf)
    (hbuf : buf.length = W * H * 3) (hfb : c.forceBlack = k) (hsb : c.successiveBlacks = 0)
    (hlen : frames.length = k)
    (_hsize : ∀ f, f ∈ frames → f.length = W * H * bytesPerPixel skipAlpha)
    (hfaulty : ∀ f, f ∈ frames →
      withinFault ((blackCount f (bytesPerPixel skipAlpha) (W * H) : Nat) : Int)
        c.blackFault (W : Int) (H : Int) = false)
    (hsigs : ∀ j, j < k → frameSignature W H (frames.getD j []) skipAlpha ≠
      (if j = 0 then c.signature else frameSignature W H (frames.getD (j - 1) []) skipAlpha)) :
    (∀ j, j ≤ k →
      (cacheAt (storeFrames all_captures p (frames.take j) skipAlpha) p).length = W * H * 3) ∧
    (∀ j, j + 1 < k → ∀ q, q < W * H →
      pixel (cacheAt (storeFrames all_captures p (frames.take (j + 1)) skipAlpha) p) 3 q =
        if pixel (frames.getD j []) (bytesPerPixel skipAlpha) q = (0, 0, 0) then
          pixel (cacheAt (storeFrames all_captures p (frames.take j) skipAlpha) p) 3 q
        else permute (hasFlag c.getStyle CAPTURE_REVERSE)
          (pixel (frames.getD j []) (bytesPerPixel skipAlpha) q)) ∧
    (∀ q, q < W * H →
      pixel (cacheAt (storeFrames all_captures p (frames.take k) skipAlpha) p) 3 q =
        if pixel (frames.getD (k - 1) []) (bytesPerPixel skipAlpha) q = (0, 0, 0) then (0, 0, 0)
        else permute (hasFlag c.getStyle CAPTURE_REVERSE)
          (pixel (frames.getD (k - 1) []) (bytesPerPixel skipAlpha) q)) := by
  have inv := faulty_run all_captures p c buf frames skipAlpha W H k hc hfind hW hH hpic hbuf
    hfb hsb hlen hfaulty hsigs
  have step : ∀ j, j < k → ∃ b b', 
      cacheAt (storeFrames all_captures p (frames.take j) skipAlpha) p = b ∧
      cacheAt (storeFrames all_captures p (frames.take (j + 1)) skipAlpha) p = b' ∧
      b.length = W * H * 3 ∧ b'.length = W * H * 3 ∧
      (j + 1 < k → ∀ q, q < W * H → pixel b' 3 q =
        if pixel (frames.getD j []) (bytesPerPixel skipAlpha) q = (0, 0, 0) then pixel b 3 q
        else permute (hasFlag c.getStyle CAPTURE_REVERSE)
          (pixel (frames.getD j []) (bytesPerPixel skipAlpha) q)) ∧
      (j + 1 = k → ∀ q, q < W * H → pixel b' 3 q =
        if pixel (frames.getD j []) (bytesPerPixel skipAlpha) q = (0, 0, 0) then (0, 0, 0)
        else permute (hasFlag c.getStyle CAPTURE_REVERSE)
          (pixel (frames.getD j []) (bytesPerPixel skipAlpha) q)) := by
    intro j hj
    obtain ⟨d, b, hd, hf, hw, hdW, hdH, hgs, hdfb, hbf, hdsb, hdsig, hdpic, hdb⟩ := inv j hj
    have hjl : j < frames.length := by omega
    have hs := hsigs j hj
    rw [← hdsig, ← hdW, ← hdH] at hs
    have hfl := hfaulty _ (getD_mem frames j hjl)
    rw [← hbf] at hfl
    rw [← hw] at hf
    obtain ⟨d', b', h1, -, -, -, -, -, -, -, -, h10, h11, h12, h13⟩ :=
      faulty_step _ p d b (frames.getD j []) skipAlpha W H k j hd hf hdW hdH hdpic hdb hdfb
        hdsb hj hs hfl
    rw [← storeFrames_take_succ all_captures p frames skipAlpha j hjl] at h1
    refine ⟨b, b', cacheAt_eq _ p d b hd hdpic, cacheAt_eq _ p d' b' h1 h10, hdb, h11, ?_, ?_⟩
    · intro h; rw [← hgs]; exact (h12 h).2
    · intro h; rw [← hgs]; exact (h13 h).2
  refine ⟨?_, ?_, ?_⟩
  · intro j hj
    by_cases hjk : j < k
    · obtain ⟨b, b', e1, -, l1, -, -, -⟩ := step j hjk
      rw [e1]; exact l1
    · have hjk2 : j = (k - 1) + 1 := by omega
      obtain ⟨b, b', -, e2, -, l2, -, -⟩ := step (k - 1) (by omega)
      rw [hjk2, e2]; exact l2
  · intro j hj q hq
    obtain ⟨b, b', e1, e2, -, -, h, -⟩ := step j (by omega)
    rw [e1, e2]
    exact h hj q hq
  · intro q hq
    obtain ⟨b, b', -, e2, -, -, -, h⟩ := step (k - 1) (by omega)
    have hk1 : k - 1 + 1 = k := by omega
    rw [hk1] at e2 h
    rw [e2]
    exact h rfl q hq

theorem forced_clear_every_k_witness :
    (∀ j, j ≤ 2 →
      (cacheAt (storeFrames [sampleContext 0 2] 0 (sampleFrames.take j) false) 0).length
        = 2 * 1 * 3) ∧
    (∀ j, j + 1 < 2 → ∀ q, q < 2 * 1 →
      pixel (cacheAt (storeFrames [sampleContext 0 2] 0 (sampleFrames.take (j + 1)) false) 0) 3 q =
        if pixel (sampleFrames.getD j []) (bytesPerPixel false) q = (0, 0, 0) then
          pixel (cacheAt (storeFrames [sampleContext 0 2] 0 (sampleFrames.take j) false) 0) 3 q
        else permute (hasFlag (sampleContext 0 2).getStyle CAPTURE_REVERSE)
          (pixel (sampleFrames.getD j []) (bytesPerPixel false) q)) ∧
    (∀ q, q < 2 * 1 →
      pixel (cacheAt (storeFrames [sampleContext 0 2] 0 (sampleFrames.take 2) false) 0) 3 q =
        if pixel (sampleFrames.getD (2 - 1) []) (bytesPerPixel false) q = (0, 0, 0) then (0, 0, 0)
        else permute (hasFlag (sampleContext 0 2).getStyle CAPTURE_REVERSE)
          (pixel (sampleFrames.getD (2 - 1) []) (bytesPerPixel false) q)) :=
  forced_clear_every_k [sampleContext 0 2] 0 (sampleContext 0 2) [9, 9, 9, 9, 9, 9]
    sampleFrames false 2 1 2 (by decide) rfl (by decide) rfl rfl rfl (by decide) rfl rfl rfl
    (by decide)
    (by
      intro f hf
      have h : ∀ g, g ∈ sampleFrames → blackCount g (bytesPerPixel false) (2 * 1) = 1 := by
        decide
      rw [h f hf]
      exact (withinFault_exact 1 0 2 1 0 0 (by decide) (by decide) (by decide)
        (by norm_num) (by norm_num) (by decide) (by decide)).trans (by decide))
    (by decide)

/-- C4 (signature stability).  Storing the same frame twice in a row in the
same node: the second `__capture_store` leaves the whole list of captures, and
so the buffer, `nbBlackPixels`, `signature` and `successiveBlacks` of the node,
as the first one left them. -/
theorem capture_store_twice (all_captures : List LiveCapture) (p : Nat) (src : List Nat)
    (skipAlpha : Bool) :
    (__capture_store (__capture_store all_captures p src skipAlpha).1 p src skipAlpha).1 =
      (__capture_store all_captures p src skipAlpha).1 := by
  cases hc : all_captures[p]? with
  | none =>
    have h1 : (__capture_store all_captures p src skipAlpha).1 = all_captures := by
      unfold __capture_store
      simp only [hc]
    rw [h1, h1]
  | some c =>
    obtain ⟨clr, hclr, -, hst⟩ := capture_store_at all_captures p c src skipAlpha hc
    obtain ⟨-, kw, kh, -, -, -, ks⟩ := storeContext_keeps clr hclr c src skipAlpha
    apply capture_store_same _ p _ src skipAlpha hst
    rw [kw, kh, ks]

/-- C5 (change gate).  When the signature computed for the frame equals the
signature stored in the node, `__capture_store` leaves the whole list of
captures unchanged, whatever the number of black pixels of the frame, and
returns that number. -/
theorem capture_store_change_gate (all_captures : List LiveCapture) (p : Nat)
    (c : LiveCapture) (src : List Nat) (skipAlpha : Bool)
    (hc : all_captures[p]? = some c)
    (hsig : frameSignature c.width c.height src skipAlpha = c.signature) :
    (__capture_store all_captures p src skipAlpha).1 = all_captures :=
  capture_store_same all_captures p c src skipAlpha hc hsig

theorem capture_store_change_gate_witness :
    (__capture_store [{ sampleContext 0 0 with signature := 6 }] 0 [1, 2, 3, 0, 0, 0] false).1 =
      [{ sampleContext 0 0 with signature := 6 }] :=
  capture_store_change_gate [{ sampleContext 0 0 with signature := 6 }] 0
    { sampleContext 0 0 with signature := 6 } [1, 2, 3, 0, 0, 0] false rfl (by decide)

theorem pixel_replicate_zero (n q : Nat) : pixel (List.replicate n 0) 3 q = (0, 0, 0) := by
  have h : ∀ i, (List.replicate n 0).getD i 0 = 0 := by
    intro i
    rw [List.getD_eq_getElem?_getD, List.getElem?_replicate]
    split <;> rfl
  unfold pixel
  rw [h, h, h]

theorem faulty_of_fifth (r : ℚ) (W H n : Nat) (hr : r = 1 / 10) (hW : 0 < W) (hH : 0 < H)
    (hn : 5 * n = W * H) : withinFault (n : Int) r (W : Int) (H : Int) = false := by
  have h1 : (5 : ℚ) * (n : ℚ) = (W : ℚ) * (H : ℚ) := by exact_mod_cast hn
  have h2 : (0 : ℚ) < (W : ℚ) * (H : ℚ) := by
    have : 0 < W * H := Nat.mul_pos hW hH
    exact_mod_cast this
  have hb := (floatProduct_bounds r W H (by rw [hr]; norm_num)).2
  have hc := toFloat_ge_scale (n : ℚ) (Nat.cast_nonneg n)
  unfold withinFault
  rw [decide_eq_false_iff_not, not_le]
  simp only [Int.cast_natCast] at hb ⊢
  rw [hr] at hb ⊢
  have e : (1 / 10 : ℚ) * (W : ℚ) * (H : ℚ) * (105 / 100)
      = (W : ℚ) * (H : ℚ) * (105 / 1000) := by ring
  rw [e] at hb
  linarith

theorem sound_of_twentieth (r : ℚ) (W H n : Nat) (hr : r = 1 / 10)
    (hn : 20 * n = W * H) : withinFault (n : Int) r (W : Int) (H : Int) = true := by
  have h1 : (20 : ℚ) * (n : ℚ) = (W : ℚ) * (H : ℚ) := by exact_mod_cast hn
  have h2 : (0 : ℚ) ≤ (n : ℚ) := Nat.cast_nonneg n
  have hb := (floatProduct_bounds r W H (by rw [hr]; norm_num)).1
  have hc := toFloat_le_scale (n : ℚ) h2
  unfold withinFault
  rw [decide_eq_true_iff]
  simp only [Int.cast_natCast] at hb ⊢
  rw [hr] at hb ⊢
  have e : (1 / 10 : ℚ) * (W : ℚ) * (H : ℚ) * (95 / 100)
      = (W : ℚ) * (H : ℚ) * (95 / 1000) := by ring
  rw [e] at hb
  linarith

/-- C6 (end to end).  A window `T` without a context is registered with
`blackFault = 0.1` and `forceBlack = 3`; four capture cycles follow with frames
of `W * H > 0` pixels, the first three with one black pixel in five, the fourth
with one in twenty, each with a signature different from the stored one when it
arrives (`-1`, then the signature of the previous frame).  The first two stores
merge without clearing (`successiveBlacks` becomes 1, then 2; a black source
pixel keeps the cached pixel, zero after the allocation for the first frame);
the third store clears and merges (a cached pixel is zero where the third frame
is black, `successiveBlacks` is back to 0); after the fourth store the buffer is
the permuted fourth frame and `successiveBlacks` is 0. -/
theorem end_to_end_scenario (reg : List LiveCapture) (IsWindow : HWND → Bool) (T : HWND)
    (getStyle : Int) (skipAlpha : Bool) (W H : Nat) (f1 f2 f3 f4 : List Nat)
    (hfresh : __capture_find reg T = none) (hvalid : IsWindow T = true)
    (hW : 0 < W) (hH : 0 < H)
    (_hs1 : f1.length = W * H * bytesPerPixel skipAlpha)
    (_hs2 : f2.length = W * H * bytesPerPixel skipAlpha)
    (_hs3 : f3.length = W * H * bytesPerPixel skipAlpha)
    (_hs4 : f4.length = W * H * bytesPerPixel skipAlpha)
    (hb1 : 5 * blackCount f1 (bytesPerPixel skipAlpha) (W * H) = W * H)
    (hb2 : 5 * blackCount f2 (bytesPerPixel skipAlpha) (W * H) = W * H)
    (hb3 : 5 * blackCount f3 (bytesPerPixel skipAlpha) (W * H) = W * H)
    (hb4 : 20 * blackCount f4 (bytesPerPixel skipAlpha) (W * H) = W * H)
    (hg1 : frameSignature W H f1 skipAlpha ≠ -1)
    (hg2 : frameSignature W H f2 skipAlpha ≠ frameSignature W H f1 skipAlpha)
    (hg3 : frameSignature W H f3 skipAlpha ≠ frameSignature W H f2 skipAlpha)
    (hg4 : frameSignature W H f4 skipAlpha ≠ frameSignature W H f3 skipAlpha) :
    ∃ d1 d2 d3 d4 b1 b2 b3 b4,
      contextOf (captureCycles (CaptureNew reg IsWindow T getStyle (1 / 10) 3).1 T W H
        [f1] skipAlpha) T = some d1 ∧
      contextOf (captureCycles (CaptureNew reg IsWindow T getStyle (1 / 10) 3).1 T W H
        [f1, f2] skipAlpha) T = some d2 ∧
      contextOf (captureCycles (CaptureNew reg IsWindow T getStyle (1 / 10) 3).1 T W H
        [f1, f2, f3] skipAlpha) T = some d3 ∧
      contextOf (captureCycles (CaptureNew reg IsWindow T getStyle (1 / 10) 3).1 T W H
        [f1, f2, f3, f4] skipAlpha) T = some d4 ∧
      d1.pic = some b1 ∧ d2.pic = some b2 ∧ d3.pic = some b3 ∧ d4.pic = some b4 ∧
      b1.length = W * H * 3 ∧ b2.length = W * H * 3 ∧ b3.length = W * H * 3 ∧
      b4.length = W * H * 3 ∧
      d1.successiveBlacks = 1 ∧ d2.successiveBlacks = 2 ∧ d3.successiveBlacks = 0 ∧
      d4.successiveBlacks = 0 ∧
      (∀ q, q < W * H → pixel b1 3 q =
        if pixel f1 (bytesPerPixel skipAlpha) q = (0, 0, 0) then (0, 0, 0)
        else permute (hasFlag getStyle CAPTURE_REVERSE) (pixel f1 (bytesPerPixel skipAlpha) q)) ∧
      (∀ q, q < W * H → pixel b2 3 q =
        if pixel f2 (bytesPerPixel skipAlpha) q = (0, 0, 0) then pixel b1 3 q
        else permute (hasFlag getStyle CAPTURE_REVERSE) (pixel f2 (bytesPerPixel skipAlpha) q)) ∧
      (∀ q, q < W * H → pixel b3 3 q =
        if pixel f3 (bytesPerPixel skipAlpha) q = (0, 0, 0) then (0, 0, 0)
        else permute (hasFlag getStyle CAPTURE_REVERSE) (pixel f3 (bytesPerPixel skipAlpha) q)) ∧
      (∀ q, q < W * H → pixel b4 3 q =
        permute (hasFlag getStyle CAPTURE_REVERSE) (pixel f4 (bytesPerPixel skipAlpha) q)) := by
  have hbf : min (max (1 / 10 : ℚ) 0) 1 = 1 / 10 := by norm_num
  rw [CaptureNew_create reg IsWindow T getStyle (1 / 10) 3 hfresh hvalid, clamp_eq, hbf]
  simp only [captureCycles, List.foldl_cons, List.foldl_nil]
  -- first cycle: the buffer is allocated, then the frame is merged
  have hi0 := capture_init_fresh (newContext T getStyle (1 / 10) 3) W H rfl hH
  obtain ⟨d1, b1, x1, y1, w1, W1, H1, g1, k1, r1, s1, p1, l1, m1, -⟩ :=
    cycle_faulty (newContext T getStyle (1 / 10) 3 :: reg) T 0
      (newContext T getStyle (1 / 10) 3) (List.replicate (W * H * 3) 0) f1 skipAlpha W H 3 0
      (find_head _ reg) (by simp) rfl (by rw [hi0]) (by rw [hi0]) (by rw [hi0])
      (List.length_replicate _ _) (by rw [hi0]; rfl) (by rw [hi0]; rfl) (by decide)
      (by rw [hi0]; exact hg1)
      (by rw [hi0]; exact faulty_of_fifth _ W H _ rfl hW hH hb1)
  rw [hi0] at g1 r1 m1
  simp only [newContext] at g1 r1 m1
  -- second cycle
  have hi1 := capture_init_same d1 W H W1 H1 hW
  obtain ⟨d2, b2, x2, y2, w2, W2, H2, g2, k2, r2, s2, p2, l2, m2, -⟩ :=
    cycle_faulty _ T 0 d1 b1 f2 skipAlpha W H 3 1 y1 x1 w1 (by rw [hi1]; exact W1)
      (by rw [hi1]; exact H1) (by rw [hi1]; exact p1) l1 (by rw [hi1]; exact k1)
      (by rw [hi1]; exact (m1 (by decide)).1) (by decide)
      (by rw [hi1]; simp only; rw [s1]; exact hg2)
      (by rw [hi1]; exact faulty_of_fifth _ W H _ r1 hW hH hb2)
  rw [hi1] at g2 r2 m2
  simp only at g2 r2 m2
  -- third cycle: the period is reached
  have hi2 := capture_init_same d2 W H W2 H2 hW
  obtain ⟨d3, b3, x3, y3, w3, W3, H3, g3, k3, r3, s3, p3, l3, -, n3⟩ :=
    cycle_faulty _ T 0 d2 b2 f3 skipAlpha W H 3 2 y2 x2 w2 (by rw [hi2]; exact W2)
      (by rw [hi2]; exact H2) (by rw [hi2]; exact p2) l2 (by rw [hi2]; exact k2)
      (by rw [hi2]; exact (m2 (by decide)).1) (by decide)
      (by rw [hi2]; simp only; rw [s2]; exact hg3)
      (by rw [hi2]; exact faulty_of_fifth _ W H _ (r2.trans r1) hW hH hb3)
  rw [hi2] at g3 r3 n3
  simp only at g3 r3 n3
  -- fourth cycle: full replace
  have hi3 := capture_init_same d3 W H W3 H3 hW
  obtain ⟨d4, b4, x4, y4, p4, l4, m4, n4, -, -⟩ :=
    cycle_full _ T 0 d3 b3 f4 skipAlpha W H y3 x3 (by rw [hi3]; exact W3)
      (by rw [hi3]; exact H3) (by rw [hi3]; exact p3) l3
      (by rw [hi3]; simp only; rw [s3]; exact hg4)
      (by rw [hi3]; exact sound_of_twentieth _ W H _ (r3.trans (r2.trans r1)) hb4)
  rw [hi3] at m4
  simp only at m4
  refine ⟨d1, d2, d3, d4, b1, b2, b3, b4, ?_, ?_, ?_, ?_, p1, p2, p3, p4, l1, l2, l3, l4,
    ?_, ?_, (n3 trivial).1, n4, ?_, ?_, ?_, ?_⟩
  · rw [contextOf_eq _ T 0 y1]; exact x1
  · rw [contextOf_eq _ T 0 y2]; exact x2
  · rw [contextOf_eq _ T 0 y3]; exact x3
  · rw [contextOf_eq _ T 0 y4]; exact x4
  · exact (m1 (by decide)).1
  · exact (m2 (by decide)).1
  · intro q hq
    rw [(m1 (by decide)).2 q hq, pixel_replicate_zero]
  · intro q hq
    rw [(m2 (by decide)).2 q hq, g1]
  · intro q hq
    rw [(n3 trivial).2 q hq, g2, g1]
  · intro q hq
    rw [m4 q hq, g3, g2, g1]

theorem end_to_end_scenario_witness :
    ∃ d1 d2 d3 d4 b1 b2 b3 b4,
      contextOf (captureCycles (CaptureNew [] (fun _ => true) 7 CAPTURE_CLIENT (1 / 10) 3).1 7
        (5 : Nat) (4 : Nat) [sampleFrame 1 4] false) 7 = some d1 ∧
      contextOf (captureCycles (CaptureNew [] (fun _ => true) 7 CAPTURE_CLIENT (1 / 10) 3).1 7
        (5 : Nat) (4 : Nat) [sampleFrame 1 4, sampleFrame 2 4] false) 7 = some d2 ∧
      contextOf (captureCycles (CaptureNew [] (fun _ => true) 7 CAPTURE_CLIENT (1 / 10) 3).1 7
        (5 : Nat) (4 : Nat) [sampleFrame 1 4, sampleFrame 2 4, sampleFrame 3 4] false) 7
        = some d3 ∧
      contextOf (captureCycles (CaptureNew [] (fun _ => true) 7 CAPTURE_CLIENT (1 / 10) 3).1 7
        (5 : Nat) (4 : Nat)
        [sampleFrame 1 4, sampleFrame 2 4, sampleFrame 3 4, sampleFrame 4 1] false) 7
        = some d4 ∧
      d1.pic = some b1 ∧ d2.pic = some b2 ∧ d3.pic = some b3 ∧ d4.pic = some b4 ∧
      b1.length = 5 * 4 * 3 ∧ b2.length = 5 * 4 * 3 ∧ b3.length = 5 * 4 * 3 ∧
      b4.length = 5 * 4 * 3 ∧
      d1.successiveBlacks = 1 ∧ d2.successiveBlacks = 2 ∧ d3.successiveBlacks = 0 ∧
      d4.successiveBlacks = 0 ∧
      (∀ q, q < 5 * 4 → pixel b1 3 q =
        if pixel (sampleFrame 1 4) (bytesPerPixel false) q = (0, 0, 0) then (0, 0, 0)
        else permute (hasFlag CAPTURE_CLIENT CAPTURE_REVERSE)
          (pixel (sampleFrame 1 4) (bytesPerPixel false) q)) ∧
      (∀ q, q < 5 * 4 → pixel b2 3 q =
        if pixel (sampleFrame 2 4) (bytesPerPixel false) q = (0, 0, 0) then pixel b1 3 q
        else permute (hasFlag CAPTURE_CLIENT CAPTURE_REVERSE)
          (pixel (sampleFrame 2 4) (bytesPerPixel false) q)) ∧
      (∀ q, q < 5 * 4 → pixel b3 3 q =
        if pixel (sampleFrame 3 4) (bytesPerPixel false) q = (0, 0, 0) then (0, 0, 0)
        else permute (hasFlag CAPTURE_CLIENT CAPTURE_REVERSE)
          (pixel (sampleFrame 3 4) (bytesPerPixel false) q)) ∧
      (∀ q, q < 5 * 4 → pixel b4 3 q =
        permute (hasFlag CAPTURE_CLIENT CAPTURE_REVERSE)
          (pixel (sampleFrame 4 1) (bytesPerPixel false) q)) :=
  end_to_end_scenario [] (fun _ => true) 7 CAPTURE_CLIENT false 5 4
    (sampleFrame 1 4) (sampleFrame 2 4) (sampleFrame 3 4) (sampleFrame 4 1)
    rfl rfl (by decide) (by decide) (by decide) (by decide) (by decide) (by decide)
    (by decide) (by decide) (by decide) (by decide) (by decide) (by decide) (by decide)
    (by decide)

/-- C7 (clamping at creation).  `CaptureNew` on a valid window that has no
context links a new node whose `blackFault` is the given ratio clamped to
`[0, 1]`, that is `min (max r 0) 1`; a ratio of 1.5 gives 1 and a ratio of -0.3
gives 0. -/
theorem CaptureNew_clamps (all_captures : List LiveCapture) (IsWindow : HWND → Bool)
    (hWnd : HWND) (getStyle : Int) (r : ℚ) (forceBlack : Int)
    (hfresh : __capture_find all_captures hWnd = none) (hvalid : IsWindow hWnd = true) :
    (∃ c, CaptureNew all_captures IsWindow hWnd getStyle r forceBlack = (c :: all_captures, true)
      ∧ c.win = hWnd ∧ c.blackFault = min (max r 0) 1) ∧
    (∃ c, CaptureNew all_captures IsWindow hWnd getStyle (3 / 2) forceBlack
      = (c :: all_captures, true) ∧ c.win = hWnd ∧ c.blackFault = 1) ∧
    (∃ c, CaptureNew all_captures IsWindow hWnd getStyle (-3 / 10) forceBlack
      = (c :: all_captures, true) ∧ c.win = hWnd ∧ c.blackFault = 0) := by
  have key : ∀ x : ℚ, ∃ c, CaptureNew all_captures IsWindow hWnd getStyle x forceBlack
      = (c :: all_captures, true) ∧ c.win = hWnd ∧ c.blackFault = min (max x 0) 1 := by
    intro x
    refine ⟨_, CaptureNew_create all_captures IsWindow hWnd getStyle x forceBlack hfresh hvalid,
      rfl, ?_⟩
    simp only [newContext]
    exact clamp_eq x
  refine ⟨key r, ?_, ?_⟩
  · obtain ⟨c, h1, h2, h3⟩ := key (3 / 2)
    exact ⟨c, h1, h2, by rw [h3]; norm_num⟩
  · obtain ⟨c, h1, h2, h3⟩ := key (-3 / 10)
    exact ⟨c, h1, h2, by rw [h3]; norm_num⟩

theorem CaptureNew_clamps_witness :
    (∃ c, CaptureNew [] (fun _ => true) 7 CAPTURE_CLIENT (5 / 2) 3 = (c :: [], true)
      ∧ c.win = 7 ∧ c.blackFault = min (max (5 / 2) 0) 1) ∧
    (∃ c, CaptureNew [] (fun _ => true) 7 CAPTURE_CLIENT (3 / 2) 3
      = (c :: [], true) ∧ c.win = 7 ∧ c.blackFault = 1) ∧
    (∃ c, CaptureNew [] (fun _ => true) 7 CAPTURE_CLIENT (-3 / 10) 3
      = (c :: [], true) ∧ c.win = 7 ∧ c.blackFault = 0) :=
  CaptureNew_clamps [] (fun _ => true) 7 CAPTURE_CLIENT (5 / 2) 3 rfl rfl

/-- C8 (the ratio after an update).  Registering a valid window with the
ratio 1/2 and registering it again with the ratio 3/2 is a sequence of calls
after which the list of captures holds one context, whose `blackFault` is 3/2:
the update branch of `CaptureNew` stores the ratio as given. -/
theorem CaptureNew_update_stores_ratio_unclamped :
    Reachable (run [Op.new true 7 CAPTURE_WINDOW (1 / 2) 0, Op.new true 7 CAPTURE_WINDOW (3 / 2) 0]) ∧
    run [Op.new true 7 CAPTURE_WINDOW (1 / 2) 0, Op.new true 7 CAPTURE_WINDOW (3 / 2) 0] =
      [newContext 7 CAPTURE_WINDOW (3 / 2) 0] ∧
    ¬ ((newContext 7 CAPTURE_WINDOW (3 / 2) 0).blackFault ≤ 1) := by
  refine ⟨⟨_, rfl⟩, ?_, ?_⟩
  · have h1 : (CaptureNew [] (fun _ => true) 7 CAPTURE_WINDOW (1 / 2) 0).1 =
        [newContext 7 CAPTURE_WINDOW (1 / 2) 0] := by
      rw [CaptureNew_create [] _ 7 CAPTURE_WINDOW (1 / 2) 0 rfl rfl, clamp_eq]
      norm_num
    simp only [run, List.foldl_cons, List.foldl_nil, applyOp, h1]
    rw [CaptureNew_update [newContext 7 CAPTURE_WINDOW (1 / 2) 0] _ 7 CAPTURE_WINDOW (3 / 2) 0 0
      (newContext 7 CAPTURE_WINDOW (1 / 2) 0) (find_head _ []) rfl]
    rfl
  · simp only [newContext]
    norm_num

/-- The effect of `CaptureNew` on a list where the lookup of the window
returns the node `p`. -/
theorem CaptureNew_existing (reg : List LiveCapture) (IsWindow : HWND → Bool) (T : HWND)
    (getStyle : Int) (blackFault : ℚ) (forceBlack : Int) (p : Nat) (c : LiveCapture)
    (hfind : __capture_find reg T = some p) (hc : reg[p]? = some c) :
    (CaptureNew reg IsWindow T getStyle blackFault forceBlack).2 = true ∧
    (CaptureNew reg IsWindow T getStyle blackFault forceBlack).1.length = reg.length ∧
    __capture_find (CaptureNew reg IsWindow T getStyle blackFault forceBlack).1 T = some p ∧
    (∃ c', (CaptureNew reg IsWindow T getStyle blackFault forceBlack).1[p]? = some c' ∧
      c'.win = c.win ∧ c'.pic = c.pic ∧ c'.width = c.width ∧ c'.height = c.height ∧
      c'.signature = c.signature ∧ c'.nbBlackPixels = c.nbBlackPixels ∧
      c'.successiveBlacks = c.successiveBlacks ∧ c'.leftOffset = c.leftOffset ∧
      c'.topOffset = c.topOffset ∧ c'.rightOffset = c.rightOffset ∧
      c'.bottomOffset = c.bottomOffset) ∧
    (∀ q, q ≠ p →
      (CaptureNew reg IsWindow T getStyle blackFault forceBlack).1[q]? = reg[q]?) := by
  rw [CaptureNew_update reg IsWindow T getStyle blackFault forceBlack p c hfind hc]
  refine ⟨rfl, List.length_set _ _ _, ?_, ?_, ?_⟩
  · have h := find_set reg p c
      { c with getStyle := getStyle, blackFault := blackFault, forceBlack := forceBlack }
      hc rfl T
    exact h.trans hfind
  · exact ⟨_, getElem?_set_self_of_some reg p c _ hc, rfl, rfl, rfl, rfl, rfl, rfl, rfl, rfl,
      rfl, rfl, rfl⟩
  · intro q hq
    exact List.getElem?_set_ne (Ne.symm hq)

/-- C9 (register on an existing target).  When the window has a context,
`CaptureNew` returns success, adds no node, and leaves the buffer, `width`,
`height`, `signature`, `nbBlackPixels`, `successiveBlacks` and the four offsets
of that context, and every other node, unchanged.  Hence, for any list, after a
successful `CaptureNew` a second `CaptureNew` with the same parameters leaves
the buffer, `signature` and `nbBlackPixels` of the context as the first call
left them. -/
theorem CaptureNew_existing_preserves (all_captures : List LiveCapture)
    (IsWindow : HWND → Bool) (hWnd : HWND) (getStyle : Int) (blackFault : ℚ)
    (forceBlack : Int) (p : Nat) (c : LiveCapture)
    (hfind : __capture_find all_captures hWnd = some p) (hc : all_captures[p]? = some c) :
    ((CaptureNew all_captures IsWindow hWnd getStyle blackFault forceBlack).2 = true ∧
     (CaptureNew all_captures IsWindow hWnd getStyle blackFault forceBlack).1.length
       = all_captures.length ∧
     __capture_find (CaptureNew all_captures IsWindow hWnd getStyle blackFault forceBlack).1 hWnd
       = some p ∧
     (∃ c', (CaptureNew all_captures IsWindow hWnd getStyle blackFault forceBlack).1[p]?
         = some c' ∧
       c'.win = c.win ∧ c'.pic = c.pic ∧ c'.width = c.width ∧ c'.height = c.height ∧
       c'.signature = c.signature ∧ c'.nbBlackPixels = c.nbBlackPixels ∧
       c'.successiveBlacks = c.successiveBlacks ∧ c'.leftOffset = c.leftOffset ∧
       c'.topOffset = c.topOffset ∧ c'.rightOffset = c.rightOffset ∧
       c'.bottomOffset = c.bottomOffset) ∧
     (∀ q, q ≠ p →
       (CaptureNew all_captures IsWindow hWnd getStyle blackFault forceBlack).1[q]?
         = all_captures[q]?)) ∧
    (∀ (s : List LiveCapture) (T : HWND),
      (CaptureNew s IsWindow T getStyle blackFault forceBlack).2 = true →
      ∃ c1 c2,
        contextOf (CaptureNew s IsWindow T getStyle blackFault forceBlack).1 T = some c1 ∧
        contextOf (CaptureNew (CaptureNew s IsWindow T getStyle blackFault forceBlack).1
          IsWindow T getStyle blackFault forceBlack).1 T = some c2 ∧
        c2.pic = c1.pic ∧ c2.signature = c1.signature ∧
        c2.nbBlackPixels = c1.nbBlackPixels ∧ c2.width = c1.width ∧ c2.height = c1.height) := by
  refine ⟨CaptureNew_existing all_captures IsWindow hWnd getStyle blackFault forceBlack p c
    hfind hc, ?_⟩
  intro s T hok
  have hfirst : ∃ q c1, __capture_find
      (CaptureNew s IsWindow T getStyle blackFault forceBlack).1 T = some q ∧
      (CaptureNew s IsWindow T getStyle blackFault forceBlack).1[q]? = some c1 := by
    cases hf : __capture_find s T with
    | some q =>
      obtain ⟨c0, hc0, -, -⟩ := find_some s T q hf
      obtain ⟨-, -, h3, ⟨c', h4, -⟩, -⟩ :=
        CaptureNew_existing s IsWindow T getStyle blackFault forceBlack q c0 hf hc0
      exact ⟨q, c', h3, h4⟩
    | none =>
      have hv : IsWindow T = true := by
        by_contra hv
        unfold CaptureNew at hok
        simp [hf, hv] at hok
      rw [CaptureNew_create s IsWindow T getStyle blackFault forceBlack hf hv]
      exact ⟨0, newContext T getStyle (if (if blackFault < 0 then 0 else blackFault) > 1 then 1
        else (if blackFault < 0 then 0 else blackFault)) forceBlack, find_head _ s, by simp⟩
  obtain ⟨q, c1, hq, hc1⟩ := hfirst
  obtain ⟨-, -, h3, ⟨c2, h4, -, h5, h6, h7, h8, h9, -⟩, -⟩ :=
    CaptureNew_existing _ IsWindow T getStyle blackFault forceBlack q c1 hq hc1
  refine ⟨c1, c2, ?_, ?_, h5, h8, h9, h6, h7⟩
  · rw [contextOf_eq _ T q hq]; exact hc1
  · rw [contextOf_eq _ T q h3]; exact h4

theorem CaptureNew_existing_preserves_witness :
    ((CaptureNew [sampleContext 0 2] (fun _ => false) 7 CAPTURE_CLIENT (3 / 4) 5).2 = true ∧
     (CaptureNew [sampleContext 0 2] (fun _ => false) 7 CAPTURE_CLIENT (3 / 4) 5).1.length
       = [sampleContext 0 2].length ∧
     __capture_find (CaptureNew [sampleContext 0 2] (fun _ => false) 7 CAPTURE_CLIENT (3 / 4) 5).1 7
       = some 0 ∧
     (∃ c', (CaptureNew [sampleContext 0 2] (fun _ => false) 7 CAPTURE_CLIENT (3 / 4) 5).1[0]?
         = some c' ∧
       c'.win = (sampleContext 0 2).win ∧ c'.pic = (sampleContext 0 2).pic ∧
       c'.width = (sampleContext 0 2).width ∧ c'.height = (sampleContext 0 2).height ∧
       c'.signature = (sampleContext 0 2).signature ∧
       c'.nbBlackPixels = (sampleContext 0 2).nbBlackPixels ∧
       c'.successiveBlacks = (sampleContext 0 2).successiveBlacks ∧
       c'.leftOffset = (sampleContext 0 2).leftOffset ∧
       c'.topOffset = (sampleContext 0 2).topOffset ∧
       c'.rightOffset = (sampleContext 0 2).rightOffset ∧
       c'.bottomOffset = (sampleContext 0 2).bottomOffset) ∧
     (∀ q, q ≠ 0 →
       (CaptureNew [sampleContext 0 2] (fun _ => false) 7 CAPTURE_CLIENT (3 / 4) 5).1[q]?
         = [sampleContext 0 2][q]?)) ∧
    (∀ (s : List LiveCapture) (T : HWND),
      (CaptureNew s (fun _ => false) T CAPTURE_CLIENT (3 / 4) 5).2 = true →
      ∃ c1 c2,
        contextOf (CaptureNew s (fun _ => false) T CAPTURE_CLIENT (3 / 4) 5).1 T = some c1 ∧
        contextOf (CaptureNew (CaptureNew s (fun _ => false) T CAPTURE_CLIENT (3 / 4) 5).1
          (fun _ => false) T CAPTURE_CLIENT (3 / 4) 5).1 T = some c2 ∧
        c2.pic = c1.pic ∧ c2.signature = c1.signature ∧
        c2.nbBlackPixels = c1.nbBlackPixels ∧ c2.width = c1.width ∧ c2.height = c1.height) :=
  CaptureNew_existing_preserves [sampleContext 0 2] (fun _ => false) 7 CAPTURE_CLIENT (3 / 4) 5 0
    (sampleContext 0 2) (by decide) rfl

/-- C10 (uniqueness).  In a list of captures that a sequence of calls
(`CaptureNew`, `CaptureSetRect`, `CaptureClear`, `CaptureDelete`, capture
cycles) produces from the empty list, no two nodes have the same window;
`__capture_find` returns a node exactly when that node has the window looked
up, and returns nothing exactly when no node has it. -/
theorem reachable_unique_target (all_captures : List LiveCapture)
    (hr : Reachable all_captures) :
    (∀ (i j : Nat) (ci cj : LiveCapture), all_captures[i]? = some ci → all_captures[j]? = some cj →
      ci.win = cj.win → i = j) ∧
    (∀ hWnd p, __capture_find all_captures hWnd = some p ↔
      ∃ c, all_captures[p]? = some c ∧ c.win = hWnd) ∧
    (∀ hWnd, __capture_find all_captures hWnd = none ↔
      ∀ c, c ∈ all_captures → c.win ≠ hWnd) := by
  have hn := reachable_nodup all_captures hr
  have huniq := unique_of_nodup all_captures hn
  refine ⟨huniq, ?_, ?_⟩
  · intro hWnd p
    constructor
    · intro hf
      obtain ⟨c, hc, hw, -⟩ := find_some all_captures hWnd p hf
      exact ⟨c, hc, hw⟩
    · rintro ⟨c, hc, hw⟩
      cases hf : __capture_find all_captures hWnd with
      | none => exact absurd hw (find_none all_captures hWnd hf c (List.getElem?_mem hc))
      | some q =>
        obtain ⟨d, hd, hdw, -⟩ := find_some all_captures hWnd q hf
        rw [huniq q p d c hd hc (hdw.trans hw.symm)]
  · intro hWnd
    constructor
    · exact find_none all_captures hWnd
    · intro hall
      cases hf : __capture_find all_captures hWnd with
      | none => rfl
      | some q =>
        obtain ⟨d, hd, hdw, -⟩ := find_some all_captures hWnd q hf
        exact absurd hdw (hall d (List.getElem?_mem hd))

theorem reachable_unique_target_witness :
    (∀ (i j : Nat) (ci cj : LiveCapture),
      (run [Op.new true 7 CAPTURE_CLIENT (1 / 2) 3, Op.new true 8 CAPTURE_WINDOW 0 0,
        Op.new true 7 CAPTURE_WINDOW (1 / 4) 0])[i]? = some ci →
      (run [Op.new true 7 CAPTURE_CLIENT (1 / 2) 3, Op.new true 8 CAPTURE_WINDOW 0 0,
        Op.new true 7 CAPTURE_WINDOW (1 / 4) 0])[j]? = some cj →
      ci.win = cj.win → i = j) ∧
    (∀ hWnd p, __capture_find (run [Op.new true 7 CAPTURE_CLIENT (1 / 2) 3,
        Op.new true 8 CAPTURE_WINDOW 0 0, Op.new true 7 CAPTURE_WINDOW (1 / 4) 0]) hWnd = some p ↔
      ∃ c, (run [Op.new true 7 CAPTURE_CLIENT (1 / 2) 3, Op.new true 8 CAPTURE_WINDOW 0 0,
        Op.new true 7 CAPTURE_WINDOW (1 / 4) 0])[p]? = some c ∧ c.win = hWnd) ∧
    (∀ hWnd, __capture_find (run [Op.new true 7 CAPTURE_CLIENT (1 / 2) 3,
        Op.new true 8 CAPTURE_WINDOW 0 0, Op.new true 7 CAPTURE_WINDOW (1 / 4) 0]) hWnd = none ↔
      ∀ c, c ∈ run [Op.new true 7 CAPTURE_CLIENT (1 / 2) 3, Op.new true 8 CAPTURE_WINDOW 0 0,
        Op.new true 7 CAPTURE_WINDOW (1 / 4) 0] → c.win ≠ hWnd) :=
  reachable_unique_target _ ⟨_, rfl⟩

theorem find_eq_none_of_not_mem (reg : List LiveCapture) (T : HWND) (h : T ∉ wins reg) :
    __capture_find reg T = none := by
  induction reg with
  | nil => rfl
  | cons a rest ih =>
    simp only [wins, List.map_cons, List.mem_cons, not_or] at h
    unfold __capture_find
    rw [if_neg (fun e => h.1 e.symm)]
    have := ih (by simpa [wins] using h.2)
    rw [this]
    rfl

theorem find_eraseIdx_self (reg : List LiveCapture) (T : HWND) (p : Nat)
    (hn : (wins reg).Nodup) (hf : __capture_find reg T = some p) :
    __capture_find (reg.eraseIdx p) T = none := by
  induction reg generalizing p with
  | nil => simp [__capture_find] at hf
  | cons a rest ih =>
    simp only [wins, List.map_cons, List.nodup_cons] at hn
    unfold __capture_find at hf
    by_cases ha : a.win = T
    · rw [if_pos ha] at hf
      have hp : p = 0 := by simpa using hf.symm
      subst hp
      rw [List.eraseIdx_cons_zero]
      apply find_eq_none_of_not_mem
      rw [← ha]
      exact hn.1
    · rw [if_neg ha] at hf
      cases hr : __capture_find rest T with
      | none => rw [hr] at hf; simp at hf
      | some r =>
        rw [hr] at hf
        have hp : p = r + 1 := by simpa using hf.symm
        subst hp
        rw [List.eraseIdx_cons_succ]
        unfold __capture_find
        rw [if_neg ha, ih r hn.2 hr]
        rfl

theorem CaptureExists_iff (reg : List LiveCapture) (T : HWND) :
    CaptureExists reg T = true ↔ ∃ p, __capture_find reg T = some p := by
  unfold CaptureExists
  cases __capture_find reg T <;> simp

theorem wins_applyOp_snap (reg : List LiveCapture) (T : HWND) (Width Height : Int)
    (frame : Except String (List Nat)) (skipAlpha : Bool) :
    wins (applyOp reg (.snap T Width Height frame skipAlpha)) = wins reg := by
  simp only [applyOp, captureCycle]
  split
  · rfl
  · cases frame with
    | error msg => simp [wins_update, capture_init_win]
    | ok src =>
      simp only
      rw [wins_capture_store, wins_update _ _ _ (fun c => capture_init_win c Width Height false)]

theorem wins_applyOp_setRect (reg : List LiveCapture) (T : HWND) (l t r b : Int) :
    wins (applyOp reg (.setRect T l t r b)) = wins reg := by
  simp only [applyOp, CaptureSetRect]
  split
  · rfl
  · simp [wins_update]

theorem wins_applyOp_clear (reg : List LiveCapture) (T : HWND) :
    wins (applyOp reg (.clear T)) = wins reg := by
  simp only [applyOp]
  exact wins_CaptureClear reg T

theorem wins_applyOp_new_fresh (reg : List LiveCapture) (T : HWND) (getStyle : Int)
    (blackFault : ℚ) (forceBlack : Int) (hf : __capture_find reg T = none) :
    wins (applyOp reg (.new true T getStyle blackFault forceBlack)) = T :: wins reg := by
  simp only [applyOp]
  rw [CaptureNew_create reg _ T getStyle blackFault forceBlack hf rfl]
  rfl

theorem update_getElem? (reg : List LiveCapture) (p q : Nat) (f : LiveCapture → LiveCapture) :
    (update reg p f)[q]? = if p = q then reg[q]?.map f else reg[q]? := by
  by_cases h : p = q
  · subst h
    rw [if_pos rfl]
    cases hc : reg[p]? with
    | none =>
      unfold update
      rw [hc]
      simp [hc]
    | some c =>
      rw [update_getElem?_self reg p f c hc]
      rfl
  · rw [if_neg h]
    exact update_getElem?_ne reg p q f h

theorem CaptureClear_getElem? (reg : List LiveCapture) (h : HWND) (q : Nat) :
    (CaptureClear reg h).1[q]? =
      if __capture_find reg h = some q then reg[q]?.map clearContext else reg[q]? := by
  unfold CaptureClear
  cases hf : __capture_find reg h with
  | none => simp
  | some p =>
    simp only [update_getElem?, Option.some.injEq]

theorem capture_store_getElem?_ne (reg : List LiveCapture) (p : Nat) (c : LiveCapture)
    (src : List Nat) (skipAlpha : Bool) (q : Nat) (hc : reg[p]? = some c) (hq : q ≠ p) :
    (__capture_store reg p src skipAlpha).1[q]? = reg[q]? ∨
      (__capture_find reg c.win = some q ∧
        (__capture_store reg p src skipAlpha).1[q]? = reg[q]?.map clearContext) := by
  have hpq : p ≠ q := Ne.symm hq
  have hset : (reg.set p { c with successiveBlacks := c.successiveBlacks + 1 })[q]? = reg[q]? :=
    List.getElem?_set_ne hpq
  have hfs : __capture_find (reg.set p { c with successiveBlacks := c.successiveBlacks + 1 })
      c.win = __capture_find reg c.win :=
    find_set reg p c { c with successiveBlacks := c.successiveBlacks + 1 } hc rfl c.win
  have hbpp : (if skipAlpha = true then (4 : Nat) else 3) = bytesPerPixel skipAlpha := rfl
  unfold __capture_store
  simp only [hc, hbpp]
  by_cases hsig : ((__capture_count_black src (c.width * c.height * (bytesPerPixel skipAlpha : Nat))
      (bytesPerPixel skipAlpha) (some 0)).2.getD 0) ≠ c.signature
  · simp only [if_pos hsig]
    by_cases hblk : withinFault (__capture_count_black src
        (c.width * c.height * (bytesPerPixel skipAlpha : Nat))
        (bytesPerPixel skipAlpha) (some 0)).1 c.blackFault c.width c.height = true
    · simp only [if_pos hblk, update_getElem?_ne _ p q _ hpq, CaptureClear_getElem?]
      by_cases hf : __capture_find reg c.win = some q
      · rw [if_pos hf]; exact Or.inr ⟨hf, rfl⟩
      · rw [if_neg hf]; exact Or.inl rfl
    · simp only [if_neg hblk, update_getElem?_ne _ p q _ hpq]
      by_cases h0 : c.forceBlack > 0
      · by_cases hm : (c.successiveBlacks + 1).tmod c.forceBlack = 0
        · simp only [if_pos h0, if_pos hm, CaptureClear_getElem?, hfs, hset]
          by_cases hf : __capture_find reg c.win = some q
          · rw [if_pos hf]; exact Or.inr ⟨hf, rfl⟩
          · rw [if_neg hf]; exact Or.inl rfl
        · simp only [if_pos h0, if_neg hm, hset]
          exact Or.inl trivial
      · simp only [if_neg h0, hset]
        exact Or.inl trivial
  · simp only [if_neg hsig]
    exact Or.inl trivial

theorem capture_store_other (reg : List LiveCapture) (p : Nat) (c : LiveCapture)
    (src : List Nat) (skipAlpha : Bool) (q : Nat) (hc : reg[p]? = some c)
    (hfind : __capture_find reg c.win = some p) (hq : q ≠ p) :
    (__capture_store reg p src skipAlpha).1[q]? = reg[q]? := by
  rcases capture_store_getElem?_ne reg p c src skipAlpha q hc hq with h | ⟨hf, -⟩
  · exact h
  · rw [hfind] at hf
    exact absurd (Option.some.inj hf).symm hq

theorem mem_update (reg : List LiveCapture) (p : Nat) (f : LiveCapture → LiveCapture)
    (d : LiveCapture) (hd : d ∈ update reg p f) :
    d ∈ reg ∨ ∃ c, reg[p]? = some c ∧ d = f c := by
  unfold update at hd
  cases hc : reg[p]? with
  | none => rw [hc] at hd; exact Or.inl hd
  | some c =>
    rw [hc] at hd
    rcases List.mem_or_eq_of_mem_set hd with h | h
    · exact Or.inl h
    · exact Or.inr ⟨c, rfl, h⟩

theorem mem_capture_store (reg : List LiveCapture) (p : Nat) (src : List Nat)
    (skipAlpha : Bool) (d : LiveCapture) (hd : d ∈ (__capture_store reg p src skipAlpha).1) :
    d ∈ reg ∨ (∃ c, c ∈ reg ∧ d = clearContext c) ∨
      ∃ c clr, reg[p]? = some c ∧ (clr = clearContext ∨ clr = id) ∧
        d = storeContext clr c src skipAlpha := by
  cases hc : reg[p]? with
  | none =>
    have h1 : (__capture_store reg p src skipAlpha).1 = reg := by
      unfold __capture_store
      simp only [hc]
    rw [h1] at hd
    exact Or.inl hd
  | some c =>
    obtain ⟨q, hq⟩ := List.mem_iff_getElem?.mp hd
    by_cases hqp : q = p
    · subst hqp
      obtain ⟨clr, hclr, -, hst⟩ := capture_store_at reg q c src skipAlpha hc
      rw [hst] at hq
      exact Or.inr (Or.inr ⟨c, clr, rfl, hclr, (Option.some.inj hq).symm⟩)
    · rcases capture_store_getElem?_ne reg p c src skipAlpha q hc hqp with h | ⟨-, h⟩
      · rw [h] at hq
        exact Or.inl (List.getElem?_mem hq)
      · rw [h] at hq
        cases hr : reg[q]? with
        | none => rw [hr] at hq; simp at hq
        | some e =>
          rw [hr] at hq
          simp only [Option.map_some', Option.some.injEq] at hq
          exact Or.inr (Or.inl ⟨e, List.getElem?_mem hr, hq.symm⟩)

theorem copyLoop_length (src : List Nat) (size : Int) (bpp : Nat) (reverse skipBlack : Bool) :
    ∀ (fuel i j : Nat) (dst : List Nat),
      (copyLoop src size bpp reverse skipBlack fuel i j dst).length = dst.length := by
  intro fuel
  induction fuel with
  | zero => intro i j dst; rfl
  | succ f ih =>
    intro i j dst
    unfold copyLoop
    split
    · rw [ih, copyPixel_length]
    · rfl

theorem capture_copy_length (dst src : List Nat) (width height : Int)
    (skipAlpha reverse skipBlack : Bool) :
    (__capture_copy dst src width height skipAlpha reverse skipBlack).length = dst.length := by
  unfold __capture_copy
  simp only
  split <;> exact copyLoop_length _ _ _ _ _ _ _ _ _

/-- A property of the nodes that every transformation a call applies to a
node keeps holds for all nodes after the call. -/
theorem applyOp_all (P : LiveCapture → Prop) (reg : List LiveCapture) (op : Op)
    (hnew : ∀ T gs bf fb, P (newContext T gs bf fb))
    (hupd : ∀ c gs bf fb, P c →
      P { c with getStyle := gs, blackFault := bf, forceBlack := fb })
    (hrect : ∀ c l t r b, P c →
      P { c with leftOffset := l, topOffset := t, rightOffset := r, bottomOffset := b })
    (hclear : ∀ c, P c → P (clearContext c))
    (hcycle : ∀ T W H frame sa, op = .snap T W H frame sa → ∀ c, P c →
      P (__capture_init c W H false).1 ∧
      (∀ msg, P { (__capture_init c W H false).1 with err := msg }) ∧
      (∀ src clr, (clr = clearContext ∨ clr = id) → frame = .ok src →
        P (storeContext clr (__capture_init c W H false).1 src sa)))
    (hall : ∀ c, c ∈ reg → P c) : ∀ c, c ∈ applyOp reg op → P c := by
  intro d hd
  cases op with
  | new valid hWnd getStyle blackFault forceBlack =>
    simp only [applyOp] at hd
    cases hf : __capture_find reg hWnd with
    | some p =>
      unfold CaptureNew at hd
      simp only [hf] at hd
      rcases mem_update reg p _ d hd with h | ⟨c, hc, rfl⟩
      · exact hall d h
      · exact hupd c _ _ _ (hall c (List.getElem?_mem hc))
    | none =>
      cases valid with
      | false =>
        unfold CaptureNew at hd
        simp only [hf] at hd
        exact hall d hd
      | true =>
        rw [CaptureNew_create reg _ hWnd getStyle blackFault forceBlack hf rfl] at hd
        rcases List.mem_cons.mp hd with rfl | h
        · exact hnew _ _ _ _
        · exact hall d h
  | setRect hWnd l t r b =>
    simp only [applyOp, CaptureSetRect] at hd
    split at hd
    · exact hall d hd
    · rcases mem_update reg _ _ d hd with h | ⟨c, hc, rfl⟩
      · exact hall d h
      · exact hrect c _ _ _ _ (hall c (List.getElem?_mem hc))
  | clear hWnd =>
    simp only [applyOp, CaptureClear] at hd
    split at hd
    · exact hall d hd
    · rcases mem_update reg _ _ d hd with h | ⟨c, hc, rfl⟩
      · exact hall d h
      · exact hclear c (hall c (List.getElem?_mem hc))
  | delete hWnd =>
    simp only [applyOp, CaptureDelete] at hd
    split at hd
    · exact hall d hd
    · exact hall d ((List.eraseIdx_sublist reg _).subset hd)
  | snap hWnd Width Height frame skipAlpha =>
    have hcy := hcycle hWnd Width Height frame skipAlpha rfl
    simp only [applyOp, captureCycle] at hd
    cases hf : __capture_find reg hWnd with
    | none =>
      simp only [hf] at hd
      exact hall d hd
    | some p =>
      simp only [hf] at hd
      have hall1 : ∀ e, e ∈ update reg p (fun c => (__capture_init c Width Height false).1) →
          P e := by
        intro e he
        rcases mem_update reg p _ e he with h | ⟨c, hc, rfl⟩
        · exact hall e h
        · exact (hcy c (hall c (List.getElem?_mem hc))).1
      have hat : ∀ e, (update reg p (fun c => (__capture_init c Width Height false).1))[p]?
          = some e → ∃ c, P c ∧ e = (__capture_init c Width Height false).1 := by
        intro e he
        rw [update_getElem?, if_pos rfl] at he
        cases hc : reg[p]? with
        | none => rw [hc] at he; simp at he
        | some c =>
          rw [hc] at he
          simp only [Option.map_some', Option.some.injEq] at he
          exact ⟨c, hall c (List.getElem?_mem hc), he.symm⟩
      cases frame with
      | error msg =>
        simp only at hd
        rcases mem_update _ p _ d hd with h | ⟨e, he, rfl⟩
        · exact hall1 d h
        · obtain ⟨c, hc, rfl⟩ := hat e he
          exact (hcy c hc).2.1 msg
      | ok src =>
        simp only at hd
        rcases mem_capture_store _ p src skipAlpha d hd with h | ⟨e, he, rfl⟩ |
          ⟨e, clr, he, hclr, rfl⟩
        · exact hall1 d h
        · exact hclear e (hall1 e he)
        · obtain ⟨c, hc, rfl⟩ := hat e he
          exact (hcy c hc).2.2 src clr hclr rfl

theorem reachable_induction (P : List LiveCapture → Prop) (h0 : P [])
    (hstep : ∀ reg op, P reg → P (applyOp reg op)) :
    ∀ reg, Reachable reg → P reg := by
  intro reg hr
  obtain ⟨ops, rfl⟩ := hr
  have h : ∀ (ops : List Op) (s : List LiveCapture), P s → P (ops.foldl applyOp s) := by
    intro ops
    induction ops with
    | nil => intro s hs; exact hs
    | cons op rest ih => intro s hs; exact ih _ (hstep s op hs)
  exact h ops [] h0

theorem reachableWF_induction (P : List LiveCapture → Prop) (h0 : P [])
    (hstep : ∀ reg op, op.wellFormed → P reg → P (applyOp reg op)) :
    ∀ reg, ReachableWF reg → P reg := by
  intro reg hr
  obtain ⟨ops, hwf, rfl⟩ := hr
  have h : ∀ (ops : List Op) (s : List LiveCapture), (∀ op, op ∈ ops → op.wellFormed) →
      P s → P (ops.foldl applyOp s) := by
    intro ops
    induction ops with
    | nil => intro s _ hs; exact hs
    | cons op rest ih =>
      intro s hw hs
      exact ih _ (fun o ho => hw o (List.mem_cons_of_mem _ ho))
        (hstep s op (hw op (List.mem_cons_self _ _)) hs)
  exact h ops [] hwf h0

theorem reachable_of_reachableWF (reg : List LiveCapture) (h : ReachableWF reg) :
    Reachable reg := by
  obtain ⟨ops, -, hrun⟩ := h
  exact ⟨ops, hrun⟩

theorem NodeInv_clearContext (c : LiveCapture) (h : NodeInv c) : NodeInv (clearContext c) := by
  unfold clearContext
  cases hp : c.pic with
  | none => simpa [hp] using h
  | some pic =>
    simp only
    refine ⟨fun hn => by simp at hn, ?_⟩
    intro b hb
    simp only [Option.some.injEq] at hb
    subst hb
    rw [ZeroMemory_length]
    exact h.2 pic hp

theorem NodeInv_init (c : LiveCapture) (Width Height : Int) (force : Bool) (h : NodeInv c) :
    NodeInv (__capture_init c Width Height force).1 ∧
      (__capture_init c Width Height force).1.pic ≠ none := by
  unfold __capture_init
  split
  · refine ⟨⟨fun hn => by simp at hn, ?_⟩, by simp⟩
    intro b hb
    simp only [Option.some.injEq] at hb
    subst hb
    simp
  · next hcond =>
    refine ⟨h, ?_⟩
    intro hn
    have := h.1 hn
    exact hcond (Or.inr (Or.inr (Or.inl ⟨this.2.2.2.1, this.2.2.2.2⟩)))

theorem NodeInv_storeContext (clr : LiveCapture → LiveCapture)
    (hclr : clr = clearContext ∨ clr = id) (c : LiveCapture) (src : List Nat)
    (skipAlpha : Bool) (h : NodeInv c) (hpic : c.pic ≠ none) :
    NodeInv (storeContext clr c src skipAlpha) := by
  obtain ⟨b, hb⟩ := Option.ne_none_iff_exists'.mp hpic
  have hlen := h.2 b hb
  obtain ⟨-, kw, kh, -, -, -, kp⟩ := clr_keeps clr hclr c
  obtain ⟨-, jw, jh, -, -, -, jp⟩ := clr_keeps clr hclr
    { c with successiveBlacks := c.successiveBlacks + 1 }
  obtain ⟨b1, hb1, hl1⟩ := kp b hb
  obtain ⟨b2, hb2, hl2⟩ := jp b hb
  unfold storeContext
  simp only
  split
  · split
    · refine ⟨fun hn => by simp [hb1] at hn, ?_⟩
      intro x hx
      simp only [hb1, Option.map_some', Option.some.injEq] at hx
      subst hx
      rw [capture_copy_length, hl1, hlen, kw, kh]
    · split
      · refine ⟨fun hn => by simp [hb2] at hn, ?_⟩
        intro x hx
        simp only [hb2, Option.map_some', Option.some.injEq] at hx
        subst hx
        rw [capture_copy_length, hl2, hlen, jw, jh]
      · refine ⟨fun hn => by simp [hb] at hn, ?_⟩
        intro x hx
        simp only [hb, Option.map_some', Option.some.injEq] at hx
        subst hx
        rw [capture_copy_length, hlen]
  · exact h

theorem reachable_NodeInv (reg : List LiveCapture) (hr : Reachable reg) :
    ∀ c, c ∈ reg → NodeInv c := by
  refine reachable_induction (fun s => ∀ c, c ∈ s → NodeInv c) (by simp) ?_ reg hr
  intro s op hs
  apply applyOp_all NodeInv s op
  · intro T gs bf fb
    refine ⟨fun _ => ⟨rfl, rfl, rfl, rfl, rfl⟩, ?_⟩
    intro b hb
    simp [newContext] at hb
  · intro c gs bf fb h; exact h
  · intro c l t r b h; exact h
  · exact NodeInv_clearContext
  · intro T W H frame sa _ c hc
    obtain ⟨h1, h2⟩ := NodeInv_init c W H false hc
    exact ⟨h1, fun _ => h1, fun src clr hclr _ => NodeInv_storeContext clr hclr _ src sa h1 h2⟩
  · exact hs

theorem contextOf_some (reg : List LiveCapture) (T : HWND) (c : LiveCapture) :
    contextOf reg T = some c ↔ ∃ p, __capture_find reg T = some p ∧ reg[p]? = some c := by
  unfold contextOf
  cases hf : __capture_find reg T with
  | none => simp
  | some p => simp

theorem contextOf_of_exists (reg : List LiveCapture) (T : HWND)
    (hex : CaptureExists reg T = true) :
    ∃ p c, __capture_find reg T = some p ∧ reg[p]? = some c ∧ c.win = T ∧
      contextOf reg T = some c := by
  obtain ⟨p, hp⟩ := (CaptureExists_iff reg T).mp hex
  obtain ⟨c, hc, hw, -⟩ := find_some reg T p hp
  exact ⟨p, c, hp, hc, hw, (contextOf_some reg T c).mpr ⟨p, hp, hc⟩⟩

theorem ZeroMemory_eq_replicate (buf : List Nat) (n : Int) (hn : buf.length ≤ n.toNat) :
    ZeroMemory buf n = List.replicate buf.length 0 := by
  unfold ZeroMemory
  rw [Nat.min_eq_right hn, List.drop_of_length_le hn, List.append_nil]

theorem contextOf_cons (a : LiveCapture) (rest : List LiveCapture) (U : HWND) :
    contextOf (a :: rest) U = if a.win = U then some a else contextOf rest U := by
  have hfc : __capture_find (a :: rest) U =
      if a.win = U then some 0 else (__capture_find rest U).map (· + 1) := rfl
  unfold contextOf
  rw [hfc]
  by_cases h : a.win = U
  · simp [h]
  · simp only [if_neg h]
    cases __capture_find rest U <;> simp

theorem contextOf_eraseIdx (reg : List LiveCapture) (T U : HWND) (p : Nat)
    (hf : __capture_find reg T = some p) (hTU : U ≠ T) :
    contextOf (reg.eraseIdx p) U = contextOf reg U := by
  induction reg generalizing p with
  | nil => simp [__capture_find] at hf
  | cons a rest ih =>
    unfold __capture_find at hf
    by_cases ha : a.win = T
    · rw [if_pos ha] at hf
      have hp : p = 0 := by simpa using hf.symm
      subst hp
      rw [List.eraseIdx_cons_zero, contextOf_cons, if_neg (fun e => hTU (e.symm.trans ha))]
    · rw [if_neg ha] at hf
      cases hr : __capture_find rest T with
      | none => rw [hr] at hf; simp at hf
      | some r =>
        rw [hr] at hf
        have hp : p = r + 1 := by simpa using hf.symm
        subst hp
        rw [List.eraseIdx_cons_succ, contextOf_cons, contextOf_cons, ih r hr]

theorem contextOf_update_ne (reg : List LiveCapture) (T U : HWND) (p : Nat)
    (f : LiveCapture → LiveCapture) (hf : __capture_find reg T = some p) (hTU : U ≠ T)
    (hwin : ∀ c, (f c).win = c.win) :
    contextOf (update reg p f) U = contextOf reg U := by
  unfold contextOf
  rw [find_update reg p f hwin U]
  cases hq : __capture_find reg U with
  | none => rfl
  | some q =>
    simp only
    have hpq : p ≠ q := by
      intro e
      subst e
      obtain ⟨c, hc, hw, -⟩ := find_some reg T p hf
      obtain ⟨d, hd, hdw, -⟩ := find_some reg U p hq
      rw [hc] at hd
      cases hd
      exact hTU (hdw.symm.trans hw)
    exact update_getElem?_ne reg p q f hpq

theorem contextOf_update_self (reg : List LiveCapture) (T : HWND) (p : Nat) (c : LiveCapture)
    (f : LiveCapture → LiveCapture) (hf : __capture_find reg T = some p)
    (hc : reg[p]? = some c) (hwin : ∀ c, (f c).win = c.win) :
    contextOf (update reg p f) T = some (f c) := by
  unfold contextOf
  rw [find_update reg p f hwin T, hf]
  exact update_getElem?_self reg p f c hc

/-- C11 (delete then register again).  In a list of captures that a sequence
of calls produces, for a window that has a context (whatever its state):
`CaptureDelete` succeeds, `CaptureExists` is false afterwards, and a following
`CaptureNew` on the window, still valid, links a new node that the lookup of the
window returns, with `width = 0`, `height = 0`, no buffer, `nbBlackPixels = -1`,
`signature = -1`, `successiveBlacks = 0` and the four offsets 0. -/
theorem delete_then_register (all_captures : List LiveCapture) (IsWindow : HWND → Bool)
    (hWnd : HWND) (getStyle : Int) (blackFault : ℚ) (forceBlack : Int)
    (hr : Reachable all_captures) (hex : CaptureExists all_captures hWnd = true)
    (hvalid : IsWindow hWnd = true) :
    (CaptureDelete all_captures hWnd).2 = true ∧
    CaptureExists (CaptureDelete all_captures hWnd).1 hWnd = false ∧
    ∃ c, CaptureNew (CaptureDelete all_captures hWnd).1 IsWindow hWnd getStyle blackFault
        forceBlack = (c :: (CaptureDelete all_captures hWnd).1, true) ∧
      contextOf (c :: (CaptureDelete all_captures hWnd).1) hWnd = some c ∧
      c.width = 0 ∧ c.height = 0 ∧ c.pic = none ∧ c.nbBlackPixels = -1 ∧ c.signature = -1 ∧
      c.successiveBlacks = 0 ∧ c.leftOffset = 0 ∧ c.topOffset = 0 ∧ c.rightOffset = 0 ∧
      c.bottomOffset = 0 := by
  obtain ⟨p, hp⟩ := (CaptureExists_iff all_captures hWnd).mp hex
  have hn := reachable_nodup all_captures hr
  have hdel : CaptureDelete all_captures hWnd = (all_captures.eraseIdx p, true) := by
    unfold CaptureDelete
    rw [hp]
  have hgone := find_eraseIdx_self all_captures hWnd p hn hp
  rw [hdel]
  refine ⟨rfl, ?_, ?_⟩
  · simp only [CaptureExists, hgone, Option.isSome_none]
  · refine ⟨_, CaptureNew_create _ IsWindow hWnd getStyle blackFault forceBlack hgone hvalid,
      ?_, rfl, rfl, rfl, rfl, rfl, rfl, rfl, rfl, rfl, rfl⟩
    rw [contextOf_eq _ hWnd 0 (find_head _ _)]
    simp

theorem delete_then_register_witness :
    (CaptureDelete (run [Op.new true 7 CAPTURE_CLIENT (1 / 2) 3, Op.setRect 7 1 2 3 4,
      Op.snap 7 2 1 (.ok [1, 2, 3, 0, 0, 0]) false]) 7).2 = true ∧
    CaptureExists (CaptureDelete (run [Op.new true 7 CAPTURE_CLIENT (1 / 2) 3,
      Op.setRect 7 1 2 3 4, Op.snap 7 2 1 (.ok [1, 2, 3, 0, 0, 0]) false]) 7).1 7 = false ∧
    ∃ c, CaptureNew (CaptureDelete (run [Op.new true 7 CAPTURE_CLIENT (1 / 2) 3,
        Op.setRect 7 1 2 3 4, Op.snap 7 2 1 (.ok [1, 2, 3, 0, 0, 0]) false]) 7).1
        (fun _ => true) 7 CAPTURE_WINDOW (1 / 4) 0 =
        (c :: (CaptureDelete (run [Op.new true 7 CAPTURE_CLIENT (1 / 2) 3,
          Op.setRect 7 1 2 3 4, Op.snap 7 2 1 (.ok [1, 2, 3, 0, 0, 0]) false]) 7).1, true) ∧
      contextOf (c :: (CaptureDelete (run [Op.new true 7 CAPTURE_CLIENT (1 / 2) 3,
        Op.setRect 7 1 2 3 4, Op.snap 7 2 1 (.ok [1, 2, 3, 0, 0, 0]) false]) 7).1) 7 = some c ∧
      c.width = 0 ∧ c.height = 0 ∧ c.pic = none ∧ c.nbBlackPixels = -1 ∧ c.signature = -1 ∧
      c.successiveBlacks = 0 ∧ c.leftOffset = 0 ∧ c.topOffset = 0 ∧ c.rightOffset = 0 ∧
      c.bottomOffset = 0 :=
  delete_then_register _ (fun _ => true) 7 CAPTURE_WINDOW (1 / 4) 0 ⟨_, rfl⟩
    (by
      have hw : wins (run [Op.new true 7 CAPTURE_CLIENT (1 / 2) 3, Op.setRect 7 1 2 3 4,
          Op.snap 7 2 1 (.ok [1, 2, 3, 0, 0, 0]) false]) = wins [newContext 7 0 0 0] := by
        simp only [run, List.foldl_cons, List.foldl_nil]
        rw [wins_applyOp_snap, wins_applyOp_setRect,
          wins_applyOp_new_fresh [] 7 CAPTURE_CLIENT (1 / 2) 3 rfl]
        rfl
      unfold CaptureExists
      rw [find_eq_of_wins _ _ hw]
      rfl)
    rfl

/-- C12 (clear).  In a list of captures that a sequence of calls produces, for
a window that has a context: `CaptureClear` returns success, and afterwards the
context has `nbBlackPixels = -1`, `signature = -1`, `successiveBlacks = 0`, the
same `width` and `height`, and a buffer of the same size whose bytes are all
zero; a context without buffer stays without buffer and has those values of the
three fields as well. -/
theorem clear_resets (all_captures : List LiveCapture) (hWnd : HWND)
    (hr : Reachable all_captures) (hex : CaptureExists all_captures hWnd = true) :
    (CaptureClear all_captures hWnd).2 = true ∧
    ∃ c c', contextOf all_captures hWnd = some c ∧
      contextOf (CaptureClear all_captures hWnd).1 hWnd = some c' ∧
      c'.nbBlackPixels = -1 ∧ c'.signature = -1 ∧ c'.successiveBlacks = 0 ∧
      c'.width = c.width ∧ c'.height = c.height ∧
      (c.pic = none → c'.pic = none) ∧
      (∀ b, c.pic = some b → c'.pic = some (List.replicate b.length 0)) := by
  obtain ⟨p, c, hp, hc, -, hctx⟩ := contextOf_of_exists all_captures hWnd hex
  have hinv := reachable_NodeInv all_captures hr c (List.getElem?_mem hc)
  have hcl : CaptureClear all_captures hWnd = (update all_captures p clearContext, true) := by
    unfold CaptureClear
    rw [hp]
  rw [hcl]
  refine ⟨rfl, c, clearContext c, hctx,
    contextOf_update_self all_captures hWnd p c clearContext hp hc clearContext_win, ?_⟩
  cases hpic : c.pic with
  | none =>
    obtain ⟨h1, h2, h3, -, -⟩ := hinv.1 hpic
    have hcc : clearContext c = c := by
      unfold clearContext
      rw [hpic]
    rw [hcc]
    exact ⟨h1, h2, h3, rfl, rfl, fun _ => hpic, fun b hb => by simp at hb⟩
  | some pic =>
    have hlen := hinv.2 pic hpic
    have hcc : clearContext c =
        { c with nbBlackPixels := -1, signature := -1, successiveBlacks := 0,
                 pic := some (ZeroMemory pic (c.width * c.height * 3)) } := by
      unfold clearContext
      rw [hpic]
    rw [hcc]
    refine ⟨rfl, rfl, rfl, rfl, rfl, fun h => by simp at h, ?_⟩
    intro b hb
    simp only [Option.some.injEq] at hb
    subst hb
    simp only
    rw [ZeroMemory_eq_replicate pic _ (le_of_eq hlen)]

theorem clear_resets_witness :
    (CaptureClear (run [Op.new true 7 CAPTURE_CLIENT (1 / 2) 3,
      Op.snap 7 2 1 (.ok [1, 2, 3, 0, 0, 0]) false]) 7).2 = true ∧
    ∃ c c', contextOf (run [Op.new true 7 CAPTURE_CLIENT (1 / 2) 3,
        Op.snap 7 2 1 (.ok [1, 2, 3, 0, 0, 0]) false]) 7 = some c ∧
      contextOf (CaptureClear (run [Op.new true 7 CAPTURE_CLIENT (1 / 2) 3,
        Op.snap 7 2 1 (.ok [1, 2, 3, 0, 0, 0]) false]) 7).1 7 = some c' ∧
      c'.nbBlackPixels = -1 ∧ c'.signature = -1 ∧ c'.successiveBlacks = 0 ∧
      c'.width = c.width ∧ c'.height = c.height ∧
      (c.pic = none → c'.pic = none) ∧
      (∀ b, c.pic = some b → c'.pic = some (List.replicate b.length 0)) :=
  clear_resets _ 7 ⟨_, rfl⟩
    (by
      have hw : wins (run [Op.new true 7 CAPTURE_CLIENT (1 / 2) 3,
          Op.snap 7 2 1 (.ok [1, 2, 3, 0, 0, 0]) false]) = wins [newContext 7 0 0 0] := by
        simp only [run, List.foldl_cons, List.foldl_nil]
        rw [wins_applyOp_snap, wins_applyOp_new_fresh [] 7 CAPTURE_CLIENT (1 / 2) 3 rfl]
        rfl
      unfold CaptureExists
      rw [find_eq_of_wins _ _ hw]
      rfl)

/-- C13 (failed operations change nothing).  On a window that has no context,
`CaptureDelete`, `CaptureSetRect`, `CaptureClear` and `CaptureGetInfo` return
failure, and so does `CaptureNew` when the window is not valid; each of them
returns the list of captures it was given, and `CaptureGetInfo` leaves the four
places for its results as they were. -/
theorem failed_operations_atomic (all_captures : List LiveCapture) (IsWindow : HWND → Bool)
    (hWnd : HWND) (getStyle : Int) (blackFault : ℚ) (forceBlack : Int) (l t r b : Int)
    (out : Int × Int × Int × Int)
    (hno : CaptureExists all_captures hWnd = false) :
    CaptureDelete all_captures hWnd = (all_captures, false) ∧
    CaptureSetRect all_captures hWnd l t r b = (all_captures, false) ∧
    CaptureClear all_captures hWnd = (all_captures, false) ∧
    CaptureGetInfo all_captures hWnd out = (all_captures, false, out) ∧
    (IsWindow hWnd = false →
      CaptureNew all_captures IsWindow hWnd getStyle blackFault forceBlack
        = (all_captures, false)) := by
  have hf : __capture_find all_captures hWnd = none := by
    unfold CaptureExists at hno
    cases h : __capture_find all_captures hWnd with
    | none => rfl
    | some p => rw [h] at hno; simp at hno
  refine ⟨?_, ?_, ?_, ?_, ?_⟩
  · unfold CaptureDelete; rw [hf]
  · unfold CaptureSetRect; rw [hf]
  · unfold CaptureClear; rw [hf]
  · unfold CaptureGetInfo contextOf; rw [hf]
  · intro hv
    unfold CaptureNew
    simp only [hf, hv, Bool.false_eq_true, not_false_eq_true, if_true]

theorem failed_operations_atomic_witness :
    CaptureDelete [sampleContext 0 2] 8 = ([sampleContext 0 2], false) ∧
    CaptureSetRect [sampleContext 0 2] 8 1 2 3 4 = ([sampleContext 0 2], false) ∧
    CaptureClear [sampleContext 0 2] 8 = ([sampleContext 0 2], false) ∧
    CaptureGetInfo [sampleContext 0 2] 8 (5, 6, 7, 8) = ([sampleContext 0 2], false, (5, 6, 7, 8)) ∧
    ((fun _ => false) 8 = false →
      CaptureNew [sampleContext 0 2] (fun _ => false) 8 CAPTURE_CLIENT (1 / 2) 3
        = ([sampleContext 0 2], false)) :=
  failed_operations_atomic [sampleContext 0 2] (fun _ => false) 8 CAPTURE_CLIENT (1 / 2) 3
    1 2 3 4 (5, 6, 7, 8) (by decide)

theorem contextOf_capture_store_ne (reg : List LiveCapture) (T U : HWND) (p : Nat)
    (src : List Nat) (skipAlpha : Bool) (hf : __capture_find reg T = some p) (hTU : U ≠ T) :
    contextOf (__capture_store reg p src skipAlpha).1 U = contextOf reg U := by
  obtain ⟨c, hc, hw, -⟩ := find_some reg T p hf
  unfold contextOf
  rw [find_eq_of_wins _ reg (wins_capture_store reg p src skipAlpha)]
  cases hq : __capture_find reg U with
  | none => rfl
  | some q =>
    simp only
    have hqp : q ≠ p := by
      intro e
      subst e
      obtain ⟨d, hd, hdw, -⟩ := find_some reg U q hq
      rw [hc] at hd
      cases hd
      exact hTU (hdw.symm.trans hw)
    exact capture_store_other reg p c src skipAlpha q hc (by rw [hw]; exact hf) hqp

/-- C14 (only the addressed context is touched).  For two different windows
`T` and `U`, each of `CaptureNew`, `CaptureSetRect`, `CaptureClear` and
`CaptureDelete` on `T`, and `__capture_store` into the node the lookup of `T`
returns (with the `CaptureClear` it calls), leaves the context that the lookup
of `U` returns, all its fields and its buffer, as it was;
`CaptureSetRect` changes the four offsets of the context of `T` and nothing
else in it. -/
theorem only_addressed_context (all_captures : List LiveCapture) (IsWindow : HWND → Bool)
    (T U : HWND) (getStyle : Int) (blackFault : ℚ) (forceBlack : Int) (l t r b : Int)
    (src : List Nat) (skipAlpha : Bool) (hTU : U ≠ T) :
    contextOf (CaptureNew all_captures IsWindow T getStyle blackFault forceBlack).1 U
      = contextOf all_captures U ∧
    contextOf (CaptureSetRect all_captures T l t r b).1 U = contextOf all_captures U ∧
    contextOf (CaptureClear all_captures T).1 U = contextOf all_captures U ∧
    contextOf (CaptureDelete all_captures T).1 U = contextOf all_captures U ∧
    (∀ p, __capture_find all_captures T = some p →
      contextOf (__capture_store all_captures p src skipAlpha).1 U = contextOf all_captures U) ∧
    (∀ c, contextOf all_captures T = some c →
      contextOf (CaptureSetRect all_captures T l t r b).1 T =
        some { c with leftOffset := l, topOffset := t, rightOffset := r, bottomOffset := b }) := by
  refine ⟨?_, ?_, ?_, ?_, ?_, ?_⟩
  · cases hf : __capture_find all_captures T with
    | some p =>
      unfold CaptureNew
      simp only [hf]
      exact contextOf_update_ne all_captures T U p _ hf hTU (fun _ => rfl)
    | none =>
      by_cases hv : IsWindow T = true
      · rw [CaptureNew_create all_captures IsWindow T getStyle blackFault forceBlack hf hv]
        simp only
        rw [contextOf_cons, if_neg (fun e => hTU e.symm)]
      · unfold CaptureNew
        simp [hf, hv]
  · unfold CaptureSetRect
    cases hf : __capture_find all_captures T with
    | none => rfl
    | some p => exact contextOf_update_ne all_captures T U p _ hf hTU (fun _ => rfl)
  · unfold CaptureClear
    cases hf : __capture_find all_captures T with
    | none => rfl
    | some p => exact contextOf_update_ne all_captures T U p _ hf hTU clearContext_win
  · unfold CaptureDelete
    cases hf : __capture_find all_captures T with
    | none => rfl
    | some p => exact contextOf_eraseIdx all_captures T U p hf hTU
  · intro p hp
    exact contextOf_capture_store_ne all_captures T U p src skipAlpha hp hTU
  · intro c hc
    obtain ⟨p, hp, hcp⟩ := (contextOf_some all_captures T c).mp hc
    unfold CaptureSetRect
    simp only [hp]
    exact contextOf_update_self all_captures T p c _ hp hcp (fun _ => rfl)

theorem only_addressed_context_witness :
    contextOf (CaptureNew [sampleContext 0 2, newContext 8 0 0 0] (fun _ => true) 7
      CAPTURE_CLIENT (1 / 2) 3).1 8 = contextOf [sampleContext 0 2, newContext 8 0 0 0] 8 ∧
    contextOf (CaptureSetRect [sampleContext 0 2, newContext 8 0 0 0] 7 1 2 3 4).1 8
      = contextOf [sampleContext 0 2, newContext 8 0 0 0] 8 ∧
    contextOf (CaptureClear [sampleContext 0 2, newContext 8 0 0 0] 7).1 8
      = contextOf [sampleContext 0 2, newContext 8 0 0 0] 8 ∧
    contextOf (CaptureDelete [sampleContext 0 2, newContext 8 0 0 0] 7).1 8
      = contextOf [sampleContext 0 2, newContext 8 0 0 0] 8 ∧
    (∀ p, __capture_find [sampleContext 0 2, newContext 8 0 0 0] 7 = some p →
      contextOf (__capture_store [sampleContext 0 2, newContext 8 0 0 0] p [1, 2, 3, 0, 0, 0]
        false).1 8 = contextOf [sampleContext 0 2, newContext 8 0 0 0] 8) ∧
    (∀ c, contextOf [sampleContext 0 2, newContext 8 0 0 0] 7 = some c →
      contextOf (CaptureSetRect [sampleContext 0 2, newContext 8 0 0 0] 7 1 2 3 4).1 7 =
        some { c with leftOffset := 1, topOffset := 2, rightOffset := 3, bottomOffset := 4 }) :=
  only_addressed_context [sampleContext 0 2, newContext 8 0 0 0] (fun _ => true) 7 8
    CAPTURE_CLIENT (1 / 2) 3 1 2 3 4 [1, 2, 3, 0, 0, 0] false (by decide)

/-- C15 (resize policy).  For a requested size with `Width * Height >= 0`,
`__capture_init` reinitialises (returns `TRUE`) exactly when the height or the
width differs from the current one, or the current width and height are both 0,
or `force` is set.  When it does, the context has the requested width and
height, a buffer of exactly `Width * Height * 3` bytes, all zero, and
`successiveBlacks = 0`; when it does not, the buffer, `width`, `height` and
`successiveBlacks` are unchanged. -/
theorem capture_init_policy (c : LiveCapture) (Width Height : Int) (force : Bool)
    (hsize : 0 ≤ Width * Height) :
    ((__capture_init c Width Height force).2 = true ↔
      (c.height ≠ Height ∨ c.width ≠ Width ∨ (c.width = 0 ∧ c.height = 0) ∨ force = true)) ∧
    ((__capture_init c Width Height force).2 = true →
      (__capture_init c Width Height force).1.width = Width ∧
      (__capture_init c Width Height force).1.height = Height ∧
      (__capture_init c Width Height force).1.successiveBlacks = 0 ∧
      ∃ b, (__capture_init c Width Height force).1.pic = some b ∧
        (b.length : Int) = Width * Height * 3 ∧ ∀ x, x ∈ b → x = 0) ∧
    ((__capture_init c Width Height force).2 = false →
      (__capture_init c Width Height force).1.pic = c.pic ∧
      (__capture_init c Width Height force).1.width = c.width ∧
      (__capture_init c Width Height force).1.height = c.height ∧
      (__capture_init c Width Height force).1.successiveBlacks = c.successiveBlacks) := by
  unfold __capture_init
  by_cases hcond : c.height ≠ Height ∨ c.width ≠ Width ∨ (c.width = 0 ∧ c.height = 0) ∨
      force = true
  · rw [if_pos hcond]
    refine ⟨⟨fun _ => hcond, fun _ => rfl⟩, ?_, fun h => by simp at h⟩
    intro _
    refine ⟨rfl, rfl, rfl, List.replicate (Width * Height * 3).toNat 0, rfl, ?_, ?_⟩
    · rw [List.length_replicate]
      exact Int.toNat_of_nonneg (by omega)
    · intro x hx
      exact List.eq_of_mem_replicate hx
  · rw [if_neg hcond]
    refine ⟨⟨fun h => by simp at h, fun h => absurd h hcond⟩, fun h => by simp at h, ?_⟩
    intro _
    exact ⟨rfl, rfl, rfl, rfl⟩

theorem capture_init_policy_witness :
    ((__capture_init (sampleContext 0 2) 3 1 false).2 = true ↔
      ((sampleContext 0 2).height ≠ 1 ∨ (sampleContext 0 2).width ≠ 3 ∨
        ((sampleContext 0 2).width = 0 ∧ (sampleContext 0 2).height = 0) ∨ false = true)) ∧
    ((__capture_init (sampleContext 0 2) 3 1 false).2 = true →
      (__capture_init (sampleContext 0 2) 3 1 false).1.width = 3 ∧
      (__capture_init (sampleContext 0 2) 3 1 false).1.height = 1 ∧
      (__capture_init (sampleContext 0 2) 3 1 false).1.successiveBlacks = 0 ∧
      ∃ b, (__capture_init (sampleContext 0 2) 3 1 false).1.pic = some b ∧
        (b.length : Int) = 3 * 1 * 3 ∧ ∀ x, x ∈ b → x = 0) ∧
    ((__capture_init (sampleContext 0 2) 3 1 false).2 = false →
      (__capture_init (sampleContext 0 2) 3 1 false).1.pic = (sampleContext 0 2).pic ∧
      (__capture_init (sampleContext 0 2) 3 1 false).1.width = (sampleContext 0 2).width ∧
      (__capture_init (sampleContext 0 2) 3 1 false).1.height = (sampleContext 0 2).height ∧
      (__capture_init (sampleContext 0 2) 3 1 false).1.successiveBlacks
        = (sampleContext 0 2).successiveBlacks) :=
  capture_init_policy (sampleContext 0 2) 3 1 false (by decide)

theorem storeContext_dims (clr : LiveCapture → LiveCapture)
    (hclr : clr = clearContext ∨ clr = id) (c : LiveCapture) (src : List Nat)
    (skipAlpha : Bool) (h : 0 ≤ c.width ∧ 0 ≤ c.height) :
    0 ≤ (storeContext clr c src skipAlpha).width ∧
      0 ≤ (storeContext clr c src skipAlpha).height := by
  obtain ⟨-, kw, kh, -⟩ := storeContext_keeps clr hclr c src skipAlpha
  rw [kw, kh]
  exact h

theorem reachableWF_dims (reg : List LiveCapture) (hr : ReachableWF reg) :
    ∀ c, c ∈ reg → 0 ≤ c.width ∧ 0 ≤ c.height := by
  refine reachableWF_induction (fun s => ∀ c, c ∈ s → 0 ≤ c.width ∧ 0 ≤ c.height)
    (by simp) ?_ reg hr
  intro s op hwf hs
  apply applyOp_all (fun c => 0 ≤ c.width ∧ 0 ≤ c.height) s op
  · intro T gs bf fb
    exact ⟨le_refl _, le_refl _⟩
  · intro c gs bf fb h; exact h
  · intro c l t r b h; exact h
  · intro c h
    obtain ⟨-, kw, kh, -⟩ := clr_keeps clearContext (Or.inl rfl) c
    rw [kw, kh]
    exact h
  · intro T W H frame sa hop c hc
    subst hop
    have hW : 0 ≤ W := hwf.1
    have hH : 0 ≤ H := hwf.2.1
    have hinit : 0 ≤ (__capture_init c W H false).1.width ∧
        0 ≤ (__capture_init c W H false).1.height := by
      unfold __capture_init
      split
      · exact ⟨hW, hH⟩
      · exact hc
    exact ⟨hinit, fun _ => hinit, fun src clr hclr _ => storeContext_dims clr hclr _ src sa hinit⟩
  · exact hs

/-- C16 (buffer size invariant).  In a list of captures that a sequence of
calls produces, the capture cycles having a size that is not negative and a
frame of that size, every context either has no buffer, and then `width` and
`height` are 0, or has a buffer of exactly `width * height * 3` bytes. -/
theorem buffer_size_invariant (all_captures : List LiveCapture)
    (hr : ReachableWF all_captures) :
    ∀ c, c ∈ all_captures →
      (c.pic = none ∧ c.width = 0 ∧ c.height = 0) ∨
      (∃ b, c.pic = some b ∧ (b.length : Int) = c.width * c.height * 3) := by
  intro c hc
  have hinv := reachable_NodeInv all_captures (reachable_of_reachableWF all_captures hr) c hc
  have hdim := reachableWF_dims all_captures hr c hc
  cases hp : c.pic with
  | none =>
    obtain ⟨-, -, -, h4, h5⟩ := hinv.1 hp
    exact Or.inl ⟨rfl, h4, h5⟩
  | some b =>
    refine Or.inr ⟨b, rfl, ?_⟩
    rw [hinv.2 b hp]
    exact Int.toNat_of_nonneg (Int.mul_nonneg (Int.mul_nonneg hdim.1 hdim.2) (by decide))

theorem buffer_size_invariant_witness :
    ReachableWF (run [Op.new true 7 CAPTURE_CLIENT (1 / 2) 3,
      Op.snap 7 2 1 (.ok [1, 2, 3, 0, 0, 0]) false, Op.snap 7 1 1 (.error "failed") false,
      Op.clear 7]) ∧
    ∃ c, contextOf (run [Op.new true 7 CAPTURE_CLIENT (1 / 2) 3,
        Op.snap 7 2 1 (.ok [1, 2, 3, 0, 0, 0]) false, Op.snap 7 1 1 (.error "failed") false,
        Op.clear 7]) 7 = some c ∧
      ((c.pic = none ∧ c.width = 0 ∧ c.height = 0) ∨
        (∃ b, c.pic = some b ∧ (b.length : Int) = c.width * c.height * 3)) := by
  have hwf : ReachableWF (run [Op.new true 7 CAPTURE_CLIENT (1 / 2) 3,
      Op.snap 7 2 1 (.ok [1, 2, 3, 0, 0, 0]) false, Op.snap 7 1 1 (.error "failed") false,
      Op.clear 7]) := by
    refine ⟨_, ?_, rfl⟩
    intro op hop
    simp only [List.mem_cons, List.mem_singleton, List.not_mem_nil, or_false] at hop
    rcases hop with rfl | rfl | rfl | rfl
    · trivial
    · refine ⟨by decide, by decide, ?_⟩
      intro src hsrc
      cases hsrc
      decide
    · refine ⟨by decide, by decide, ?_⟩
      intro src hsrc
      cases hsrc
    · trivial
  have hex : CaptureExists (run [Op.new true 7 CAPTURE_CLIENT (1 / 2) 3,
      Op.snap 7 2 1 (.ok [1, 2, 3, 0, 0, 0]) false, Op.snap 7 1 1 (.error "failed") false,
      Op.clear 7]) 7 = true := by
    have hw : wins (run [Op.new true 7 CAPTURE_CLIENT (1 / 2) 3,
        Op.snap 7 2 1 (.ok [1, 2, 3, 0, 0, 0]) false, Op.snap 7 1 1 (.error "failed") false,
        Op.clear 7]) = wins [newContext 7 0 0 0] := by
      simp only [run, List.foldl_cons, List.foldl_nil]
      rw [wins_applyOp_clear, wins_applyOp_snap, wins_applyOp_snap,
        wins_applyOp_new_fresh [] 7 CAPTURE_CLIENT (1 / 2) 3 rfl]
      rfl
    unfold CaptureExists
    rw [find_eq_of_wins _ _ hw]
    rfl
  obtain ⟨p, c, -, hc, -, hctx⟩ := contextOf_of_exists _ 7 hex
  exact ⟨hwf, c, hctx, buffer_size_invariant _ hwf c (List.getElem?_mem hc)⟩

/-- C17 (width rounding).  For a width `w >= 0`, the rounding `((w+3)/4)*4`
that `CaptureSnap` applies to the store width and to the capture width gives
the smallest multiple of 4 that is at least `w`: it is at least `w`, less than
`w + 4`, a multiple of 4, not above any multiple of 4 that is at least `w`, and
equal to `w` when `w` is a multiple of 4; 37 is rounded to 40. -/
theorem roundWidth_smallest_multiple (w : Int) (hw : 0 ≤ w) (g : SnapGeometry) :
    w ≤ roundWidth w ∧ roundWidth w < w + 4 ∧ 4 ∣ roundWidth w ∧
    (∀ m : Int, 4 ∣ m → w ≤ m → roundWidth w ≤ m) ∧
    (4 ∣ w → roundWidth w = w) ∧
    roundWidth 37 = 40 ∧
    (snapRound g).storeWidth = roundWidth g.storeWidth ∧
    (snapRound g).captureWidth = roundWidth g.captureWidth := by
  have hr : roundWidth w = (w + 3) / 4 * 4 := by
    unfold roundWidth
    rw [Int.tdiv_eq_ediv (by omega) (by decide)]
  refine ⟨?_, ?_, ?_, ?_, ?_, by decide, rfl, rfl⟩
  · rw [hr]; omega
  · rw [hr]; omega
  · rw [hr]; exact Dvd.intro_left _ rfl
  · intro m hm hle
    rw [hr]
    obtain ⟨k, rfl⟩ := hm
    omega
  · intro hd
    rw [hr]
    obtain ⟨k, rfl⟩ := hd
    omega

theorem roundWidth_smallest_multiple_witness :
    (37 : Int) ≤ roundWidth 37 ∧ roundWidth 37 < 37 + 4 ∧ 4 ∣ roundWidth 37 ∧
    (∀ m : Int, 4 ∣ m → 37 ≤ m → roundWidth 37 ≤ m) ∧
    (4 ∣ (37 : Int) → roundWidth 37 = 37) ∧
    roundWidth 37 = 40 ∧
    (snapRound ⟨37, 20, 37, 20, 0, 0⟩).storeWidth = roundWidth 37 ∧
    (snapRound ⟨37, 20, 37, 20, 0, 0⟩).captureWidth = roundWidth 37 :=
  roundWidth_smallest_multiple 37 (by decide) ⟨37, 20, 37, 20, 0, 0⟩

theorem wrapInt32_add (x y : Int) : wrapInt32 (wrapInt32 x + y) = wrapInt32 (x + y) := by
  unfold wrapInt32
  omega

theorem countLoop_snd (src : List Nat) (bpp : Nat) (hb : 0 < bpp) (n : Nat) :
    ∀ (m fuel k : Nat) (bp S : Int), k + m = n → m ≤ fuel →
      (countLoop src ((n * bpp : Nat) : Int) bpp true fuel (k * bpp) bp (wrapInt32 S)).2 =
        wrapInt32 (S + (((List.range' k m).filter
          (fun q => decide ((q * bpp) % SIGNATURE_SKIP = 0))).map
          (fun q => ((src.getD (q * bpp) 0 + src.getD (q * bpp + 1) 0
            + src.getD (q * bpp + 2) 0 : Nat) : Int))).sum) := by
  intro m
  induction m with
  | zero =>
    intro fuel k bp S hk _
    have hkn : k = n := by omega
    subst hkn
    cases fuel <;> simp [countLoop]
  | succ m ih =>
    intro fuel k bp S hk hf
    cases fuel with
    | zero => omega
    | succ f =>
      have hi : ((k * bpp : Nat) : Int) < ((n * bpp : Nat) : Int) := by
        have : k * bpp < n * bpp := Nat.mul_lt_mul_of_pos_right (by omega) hb
        exact_mod_cast this
      have e1 : k * bpp + bpp = (k + 1) * bpp := by ring
      rw [countLoop, if_pos hi]
      simp only [e1, Bool.true_and]
      rw [List.range'_succ, List.filter_cons]
      by_cases hs : (k * bpp) % SIGNATURE_SKIP = 0
      · simp only [hs, beq_self_eq_true, if_true, decide_True, List.map_cons, List.sum_cons]
        rw [wrapInt32_add, ih f (k + 1) _ _ (by omega) (by omega), Int.add_assoc]
      · have hs' : (k * bpp % SIGNATURE_SKIP == 0) = false := by simpa using hs
        simp only [hs', Bool.false_eq_true, if_false, hs, decide_False]
        rw [ih f (k + 1) _ _ (by omega) (by omega)]

/-- The signature of a buffer of `n` pixels is the sum, reduced to 32 bits, of
the colour bytes of the pixels whose byte offset is a multiple of 20. -/
theorem capture_count_black_snd (src : List Nat) (n : Nat) (skipAlpha : Bool) (s0 : Int) :
    (__capture_count_black src ((n * bytesPerPixel skipAlpha : Nat) : Int)
      (bytesPerPixel skipAlpha) (some s0)).2 =
      some (wrapInt32 (signatureSum src (bytesPerPixel skipAlpha)
        (if skipAlpha = true then 5 else 20) n)) := by
  have hb : 0 < bytesPerPixel skipAlpha := by unfold bytesPerPixel; split <;> decide
  have hfuel : n ≤ n * bytesPerPixel skipAlpha := Nat.le_mul_of_pos_right _ hb
  have key := countLoop_snd src (bytesPerPixel skipAlpha) hb n n (n * bytesPerPixel skipAlpha)
    0 0 0 (by omega) hfuel
  have hw0 : wrapInt32 0 = 0 := by decide
  rw [hw0] at key
  simp only [Nat.zero_mul, Int.zero_add] at key
  unfold __capture_count_black
  simp only [Int.toNat_ofNat]
  rw [key]
  unfold signatureSum
  rw [List.range_eq_range']
  have hfilter : (List.range' 0 n).filter
      (fun q => decide ((q * bytesPerPixel skipAlpha) % SIGNATURE_SKIP = 0)) =
      (List.range' 0 n).filter
        (fun k => decide (k % (if skipAlpha = true then 5 else 20) = 0)) := by
    apply List.filter_congr
    intro q _
    cases skipAlpha
    · have : (q * 3 % 20 = 0) ↔ (q % 20 = 0) := by omega
      simp [bytesPerPixel, SIGNATURE_SKIP, this]
    · have : (q * 4 % 20 = 0) ↔ (q % 5 = 0) := by omega
      simp [bytesPerPixel, SIGNATURE_SKIP, this]
  rw [hfilter]

/-- C18 as stated fails with 4 bytes per pixel: for a buffer of 6 pixels
whose bytes are all 1, the signature is 6 (pixels 0 and 5 are sampled), while
the sum over the pixels whose index is a multiple of 20 is 3. -/
theorem signature_not_every_twentieth_pixel_with_alpha :
    (__capture_count_black (List.replicate 24 1) ((6 * bytesPerPixel true : Nat) : Int)
      (bytesPerPixel true) (some 0)).2 = some 6 ∧
    wrapInt32 (signatureSum (List.replicate 24 1) (bytesPerPixel true) 20 6) = 3 ∧
    ¬ ((__capture_count_black (List.replicate 24 1) ((6 * bytesPerPixel true : Nat) : Int)
        (bytesPerPixel true) (some 0)).2 =
      some (wrapInt32 (signatureSum (List.replicate 24 1) (bytesPerPixel true) 20 6))) := by
  decide

/-- C18 (signature definition), amended.  For a raw buffer of `n` pixels,
`__capture_count_black` returns the number of pixels whose three colour bytes
are all zero, and the signature it computes is the sum, reduced to a signed 32
bit integer, of the three colour bytes of the pixels whose byte offset is a
multiple of 20: the pixels whose index is a multiple of 20 with 3 bytes per
pixel, the pixels whose index is a multiple of 5 with 4 bytes per pixel. -/
theorem capture_count_black_definition (src : List Nat) (n : Nat) (skipAlpha : Bool)
    (s0 : Int) :
    __capture_count_black src ((n * bytesPerPixel skipAlpha : Nat) : Int)
      (bytesPerPixel skipAlpha) (some s0) =
      (((blackCount src (bytesPerPixel skipAlpha) n : Nat) : Int),
        some (wrapInt32 (signatureSum src (bytesPerPixel skipAlpha)
          (if skipAlpha = true then 5 else 20) n))) := by
  have h1 := capture_count_black_fst src n 1 skipAlpha (some s0)
  have h2 := capture_count_black_snd src n skipAlpha s0
  have hsize : (n : Int) * ((1 : Nat) : Int) * ((bytesPerPixel skipAlpha : Nat) : Int)
      = ((n * bytesPerPixel skipAlpha : Nat) : Int) := by push_cast; ring
  rw [hsize, Nat.mul_one] at h1
  exact Prod.ext h1 h2

/-- What a successful capture cycle keeps of the node that `__capture_init`
leaves, and the change gate of the store in it. -/
theorem cycle_ok_keeps (s : List LiveCapture) (T : HWND) (p : Nat) (d : LiveCapture)
    (Width Height : Int) (src : List Nat) (skipAlpha : Bool)
    (hfind : __capture_find s T = some p) (hd : s[p]? = some d) :
    ∃ d', (captureCycle s T Width Height (.ok src) skipAlpha).1[p]? = some d' ∧
      __capture_find (captureCycle s T Width Height (.ok src) skipAlpha).1 T = some p ∧
      d'.width = (__capture_init d Width Height false).1.width ∧
      d'.height = (__capture_init d Width Height false).1.height ∧
      d'.signature = frameSignature (__capture_init d Width Height false).1.width
        (__capture_init d Width Height false).1.height src skipAlpha ∧
      (frameSignature (__capture_init d Width Height false).1.width
          (__capture_init d Width Height false).1.height src skipAlpha
          = (__capture_init d Width Height false).1.signature →
        d' = (__capture_init d Width Height false).1) := by
  have h1 := getElem?_set_self_of_some s p d (__capture_init d Width Height false).1 hd
  obtain ⟨clr, hclr, -, hst⟩ := capture_store_at _ p _ src skipAlpha h1
  obtain ⟨-, kw, kh, -, -, -, ks⟩ := storeContext_keeps clr hclr
    (__capture_init d Width Height false).1 src skipAlpha
  rw [captureCycle_ok s T p d Width Height src skipAlpha hfind hd]
  refine ⟨_, hst, ?_, kw, kh, ks, ?_⟩
  · rw [find_eq_of_wins _ _ (wins_capture_store _ p src skipAlpha),
      find_set s p d _ hd (capture_init_win d Width Height false)]
    exact hfind
  · intro hsame
    exact storeContext_same clr _ src skipAlpha hsame

theorem resize_stale (r : ℚ) :
    cacheOf (captureCycle (captureCycle [newContext 7 CAPTURE_WINDOW r 0] 7 4 1
      (.ok ([1, 2, 3] ++ List.replicate 9 1)) false).1 7 8 1
      (.ok ([1, 2, 3] ++ List.replicate 21 2)) false).1 7
      = List.replicate 24 0 := by
  -- first cycle
  obtain ⟨d1, x1, y1, w1, h1, s1, -⟩ := cycle_ok_keeps [newContext 7 CAPTURE_WINDOW r 0]
    7 0 (newContext 7 CAPTURE_WINDOW r 0) 4 1 ([1, 2, 3] ++ List.replicate 9 1) false
    (find_head _ []) (by simp)
  have hi0 : (__capture_init (newContext 7 CAPTURE_WINDOW r 0) 4 1 false).1 =
      { newContext 7 CAPTURE_WINDOW r 0 with
        height := 1, width := 4, pic := some (List.replicate 12 0), successiveBlacks := 0 } :=
    capture_init_fresh (newContext 7 CAPTURE_WINDOW r 0) 4 1 rfl (by decide)
  rw [hi0] at w1 h1 s1
  simp only at w1 h1 s1
  have hsig1 : d1.signature = 6 := by rw [s1]; decide
  -- second cycle
  obtain ⟨d2, x2, y2, -, -, -, g2⟩ := cycle_ok_keeps _ 7 0 d1 8 1
    ([1, 2, 3] ++ List.replicate 21 2) false y1 x1
  have hi1 : (__capture_init d1 8 1 false).1 =
      { d1 with height := 1, width := 8, pic := some (List.replicate 24 0),
                successiveBlacks := 0 } := by
    unfold __capture_init
    rw [if_pos (Or.inr (Or.inl (by rw [w1]; decide)))]
    rfl
  rw [hi1] at g2
  simp only at g2
  have hd2 := g2 (by rw [hsig1]; decide)
  unfold cacheOf
  rw [contextOf_eq _ 7 0 y2, x2, hd2]
  rfl

/-- C19 at a failing input.  A window is registered and captured at 4 x 1
with a frame whose first pixel is `(1, 2, 3)`; the next cycle asks for 8 x 1,
so `__capture_init` reinitialises, and brings a frame with the same first pixel
and so the same signature, 6, as the first frame.  After that cycle the buffer
is all zero: the store was skipped, and the first pixel of the buffer is not the
first pixel of the frame. -/
theorem resize_keeps_stale_signature :
    cacheOf (run [Op.new true 7 CAPTURE_WINDOW (1 / 2) 0,
      Op.snap 7 4 1 (.ok ([1, 2, 3] ++ List.replicate 9 1)) false,
      Op.snap 7 8 1 (.ok ([1, 2, 3] ++ List.replicate 21 2)) false]) 7 = List.replicate 24 0 ∧
    frameSignature 8 1 ([1, 2, 3] ++ List.replicate 21 2) false
      = frameSignature 4 1 ([1, 2, 3] ++ List.replicate 9 1) false ∧
    pixel (List.replicate 24 0) 3 0 ≠
      permute (hasFlag CAPTURE_WINDOW CAPTURE_REVERSE)
        (pixel ([1, 2, 3] ++ List.replicate 21 2) 3 0) := by
  refine ⟨?_, by decide, by decide⟩
  simp only [run, List.foldl_cons, List.foldl_nil, applyOp]
  rw [CaptureNew_create [] _ 7 CAPTURE_WINDOW (1 / 2) 0 rfl rfl]
  exact resize_stale _

theorem tdiv_four (x : Int) : x.tdiv 4 = if 0 ≤ x then x / 4 else -((-x) / 4) := by
  by_cases h : 0 ≤ x
  · rw [if_pos h, Int.tdiv_eq_ediv h (by decide)]
  · rw [if_neg h]
    have h2 : x = -(-x) := by omega
    rw [h2, Int.neg_tdiv, Int.tdiv_eq_ediv (by omega) (by decide)]
    simp

theorem roundWidth_mono (a b : Int) (h : a ≤ b) : roundWidth a ≤ roundWidth b := by
  unfold roundWidth
  rw [tdiv_four, tdiv_four]
  split <;> split <;> omega

theorem snapBase_capture (getStyle : Int) (wi : WINDOWINFO) (title_height menu_height : Int) :
    (snapBase getStyle wi title_height menu_height).captureWidth
      = wi.rcWindow.right - wi.rcWindow.left ∧
    (snapBase getStyle wi title_height menu_height).captureHeight
      = wi.rcWindow.bottom - wi.rcWindow.top := by
  unfold snapBase
  simp only
  split
  · split <;> exact ⟨rfl, rfl⟩
  · exact ⟨rfl, rfl⟩

/-- C20 (manual rectangle clamping).  With `CAPTURE_RECT` set, for any window
information, metrics and offsets, the rectangle of `CaptureSnap` after the
offsets are applied has `storeX >= 0`, `storeY >= 0`, a width not above the
width of the window and a height not above its height; after the rounding the
store width is not above the capture width, which is the rounded width of the
window, and the origin and the height are those before the rounding. -/
theorem manual_rect_clamped (c : LiveCapture) (wi : WINDOWINFO)
    (title_height menu_height : Int) (hrect : hasFlag c.getStyle CAPTURE_RECT = true) :
    0 ≤ (snapManual c (snapBase c.getStyle wi title_height menu_height)).storeX ∧
    0 ≤ (snapManual c (snapBase c.getStyle wi title_height menu_height)).storeY ∧
    (snapManual c (snapBase c.getStyle wi title_height menu_height)).storeWidth
      ≤ wi.rcWindow.right - wi.rcWindow.left ∧
    (snapManual c (snapBase c.getStyle wi title_height menu_height)).storeHeight
      ≤ wi.rcWindow.bottom - wi.rcWindow.top ∧
    (snapGeometry c wi title_height menu_height).storeWidth
      ≤ (snapGeometry c wi title_height menu_height).captureWidth ∧
    (snapGeometry c wi title_height menu_height).captureWidth
      = roundWidth (wi.rcWindow.right - wi.rcWindow.left) ∧
    (snapGeometry c wi title_height menu_height).storeX
      = (snapManual c (snapBase c.getStyle wi title_height menu_height)).storeX ∧
    (snapGeometry c wi title_height menu_height).storeY
      = (snapManual c (snapBase c.getStyle wi title_height menu_height)).storeY ∧
    (snapGeometry c wi title_height menu_height).storeHeight
      = (snapManual c (snapBase c.getStyle wi title_height menu_height)).storeHeight := by
  obtain ⟨hcw, hch⟩ := snapBase_capture c.getStyle wi title_height menu_height
  have hx : 0 ≤ (snapManual c (snapBase c.getStyle wi title_height menu_height)).storeX := by
    unfold snapManual
    rw [if_pos hrect]
    simp only
    split <;> omega
  have hy : 0 ≤ (snapManual c (snapBase c.getStyle wi title_height menu_height)).storeY := by
    unfold snapManual
    rw [if_pos hrect]
    simp only
    split <;> omega
  have hw : (snapManual c (snapBase c.getStyle wi title_height menu_height)).storeWidth
      ≤ (snapBase c.getStyle wi title_height menu_height).captureWidth := by
    unfold snapManual
    rw [if_pos hrect]
    simp only
    split <;> omega
  have hh : (snapManual c (snapBase c.getStyle wi title_height menu_height)).storeHeight
      ≤ (snapBase c.getStyle wi title_height menu_height).captureHeight := by
    unfold snapManual
    rw [if_pos hrect]
    simp only
    split <;> omega
  have hmc : (snapManual c (snapBase c.getStyle wi title_height menu_height)).captureWidth
      = (snapBase c.getStyle wi title_height menu_height).captureWidth := by
    unfold snapManual
    rw [if_pos hrect]
  refine ⟨hx, hy, by rw [← hcw]; exact hw, by rw [← hch]; exact hh, ?_, ?_, rfl, rfl, rfl⟩
  · show roundWidth _ ≤ roundWidth _
    apply roundWidth_mono
    rw [hmc]
    exact hw
  · show roundWidth _ = roundWidth _
    rw [hmc, hcw]

theorem manual_rect_clamped_witness :
    0 ≤ (snapManual sampleRectContext
      (snapBase sampleRectContext.getStyle sampleWindowInfo 20 6)).storeX ∧
    0 ≤ (snapManual sampleRectContext
      (snapBase sampleRectContext.getStyle sampleWindowInfo 20 6)).storeY ∧
    (snapManual sampleRectContext
      (snapBase sampleRectContext.getStyle sampleWindowInfo 20 6)).storeWidth
      ≤ sampleWindowInfo.rcWindow.right - sampleWindowInfo.rcWindow.left ∧
    (snapManual sampleRectContext
      (snapBase sampleRectContext.getStyle sampleWindowInfo 20 6)).storeHeight
      ≤ sampleWindowInfo.rcWindow.bottom - sampleWindowInfo.rcWindow.top ∧
    (snapGeometry sampleRectContext sampleWindowInfo 20 6).storeWidth
      ≤ (snapGeometry sampleRectContext sampleWindowInfo 20 6).captureWidth ∧
    (snapGeometry sampleRectContext sampleWindowInfo 20 6).captureWidth
      = roundWidth (sampleWindowInfo.rcWindow.right - sampleWindowInfo.rcWindow.left) ∧
    (snapGeometry sampleRectContext sampleWindowInfo 20 6).storeX
      = (snapManual sampleRectContext
          (snapBase sampleRectContext.getStyle sampleWindowInfo 20 6)).storeX ∧
    (snapGeometry sampleRectContext sampleWindowInfo 20 6).storeY
      = (snapManual sampleRectContext
          (snapBase sampleRectContext.getStyle sampleWindowInfo 20 6)).storeY ∧
    (snapGeometry sampleRectContext sampleWindowInfo 20 6).storeHeight
      = (snapManual sampleRectContext
          (snapBase sampleRectContext.getStyle sampleWindowInfo 20 6)).storeHeight :=
  manual_rect_clamped sampleRectContext sampleWindowInfo 20 6 (by decide)

/-- C21 (client-only rectangle).  With `CAPTURE_RECT` clear, for any window
information and metrics, the rectangle of `CaptureSnap` before the rounding is:
with `CAPTURE_CLIENT` set and `windowTop + titleHeight + menuHeight + cyBorder`
equal to `clientTop`, `x = cxBorder`, `y = cyBorder + titleHeight`,
`width = W - 2 * cxBorder`, `height = H - 2 * cyBorder - titleHeight`, and its
top edge is `menuHeight` above the top of the client area; with
`CAPTURE_CLIENT` set and the sum different from `clientTop`, the client
rectangle relative to the window; without `CAPTURE_CLIENT`, `(0, 0, W, H)`. -/
theorem client_rectangle (c : LiveCapture) (wi : WINDOWINFO) (title_height menu_height : Int)
    (hrect : hasFlag c.getStyle CAPTURE_RECT = false) :
    (hasFlag c.getStyle CAPTURE_CLIENT = true →
      wi.rcWindow.top + title_height + menu_height + (wi.cyWindowBorders : Int)
        = wi.rcClient.top →
      storeRect (snapManual c (snapBase c.getStyle wi title_height menu_height)) =
        ((wi.cxWindowBorders : Int), (wi.cyWindowBorders : Int) + title_height,
          (wi.rcWindow.right - wi.rcWindow.left) - 2 * (wi.cxWindowBorders : Int),
          (wi.rcWindow.bottom - wi.rcWindow.top) - 2 * (wi.cyWindowBorders : Int)
            - title_height) ∧
      wi.rcClient.top - (wi.rcWindow.top +
        (snapManual c (snapBase c.getStyle wi title_height menu_height)).storeY)
        = menu_height) ∧
    (hasFlag c.getStyle CAPTURE_CLIENT = true →
      wi.rcWindow.top + title_height + menu_height + (wi.cyWindowBorders : Int)
        ≠ wi.rcClient.top →
      storeRect (snapManual c (snapBase c.getStyle wi title_height menu_height)) =
        (wi.rcClient.left - wi.rcWindow.left, wi.rcClient.top - wi.rcWindow.top,
          wi.rcClient.right - wi.rcClient.left, wi.rcClient.bottom - wi.rcClient.top)) ∧
    (hasFlag c.getStyle CAPTURE_CLIENT = false →
      storeRect (snapManual c (snapBase c.getStyle wi title_height menu_height)) =
        (0, 0, wi.rcWindow.right - wi.rcWindow.left, wi.rcWindow.bottom - wi.rcWindow.top)) := by
  have hm : snapManual c (snapBase c.getStyle wi title_height menu_height)
      = snapBase c.getStyle wi title_height menu_height := by
    unfold snapManual
    rw [hrect]
    rfl
  rw [hm]
  refine ⟨?_, ?_, ?_⟩
  · intro hcl heq
    unfold snapBase storeRect
    simp only [hcl, heq, if_true]
    refine ⟨?_, by omega⟩
    refine Prod.ext rfl (Prod.ext rfl (Prod.ext rfl ?_))
    simp only
    omega
  · intro hcl hne
    unfold snapBase storeRect
    simp only [hcl, if_true, if_neg hne]
  · intro hcl
    unfold snapBase storeRect
    simp only [hcl]
    rfl

theorem client_rectangle_witness :
    (hasFlag 1 CAPTURE_CLIENT = true →
      sampleWindowInfo.rcWindow.top + 20 + 6 + (sampleWindowInfo.cyWindowBorders : Int)
        = sampleWindowInfo.rcClient.top →
      storeRect (snapManual (newContext 7 1 0 0)
          (snapBase (newContext 7 1 0 0).getStyle sampleWindowInfo 20 6)) =
        ((sampleWindowInfo.cxWindowBorders : Int),
          (sampleWindowInfo.cyWindowBorders : Int) + 20,
          (sampleWindowInfo.rcWindow.right - sampleWindowInfo.rcWindow.left)
            - 2 * (sampleWindowInfo.cxWindowBorders : Int),
          (sampleWindowInfo.rcWindow.bottom - sampleWindowInfo.rcWindow.top)
            - 2 * (sampleWindowInfo.cyWindowBorders : Int) - 20) ∧
      sampleWindowInfo.rcClient.top - (sampleWindowInfo.rcWindow.top +
        (snapManual (newContext 7 1 0 0)
          (snapBase (newContext 7 1 0 0).getStyle sampleWindowInfo 20 6)).storeY) = 6) ∧
    storeRect (snapManual (newContext 7 1 0 0)
      (snapBase (newContext 7 1 0 0).getStyle sampleWindowInfo 20 6)) = (4, 24, 92, 52) :=
  ⟨(client_rectangle (newContext 7 1 0 0) sampleWindowInfo 20 6 (by decide)).1,
    ((client_rectangle (newContext 7 1 0 0) sampleWindowInfo 20 6 (by decide)).1
      (by decide) (by decide)).1⟩

theorem reachable_applyOp (reg : List LiveCapture) (op : Op) (h : Reachable reg) :
    Reachable (applyOp reg op) := by
  obtain ⟨ops, rfl⟩ := h
  refine ⟨ops ++ [op], ?_⟩
  unfold run
  rw [List.foldl_append]
  rfl

theorem contextOf_applyOp_ne (reg : List LiveCapture) (op : Op) (U : HWND)
    (h : U ≠ op.target) : contextOf (applyOp reg op) U = contextOf reg U := by
  cases op with
  | new valid T getStyle blackFault forceBlack =>
    simp only [Op.target] at h
    simp only [applyOp]
    cases hf : __capture_find reg T with
    | some p =>
      unfold CaptureNew
      simp only [hf]
      exact contextOf_update_ne reg T U p _ hf h (fun _ => rfl)
    | none =>
      cases valid with
      | true =>
        rw [CaptureNew_create reg _ T getStyle blackFault forceBlack hf rfl]
        simp only
        rw [contextOf_cons, if_neg (fun e => h e.symm)]
      | false =>
        unfold CaptureNew
        simp [hf]
  | setRect T l t r b =>
    simp only [Op.target] at h
    simp only [applyOp, CaptureSetRect]
    cases hf : __capture_find reg T with
    | none => rfl
    | some p => exact contextOf_update_ne reg T U p _ hf h (fun _ => rfl)
  | clear T =>
    simp only [Op.target] at h
    simp only [applyOp, CaptureClear]
    cases hf : __capture_find reg T with
    | none => rfl
    | some p => exact contextOf_update_ne reg T U p _ hf h clearContext_win
  | delete T =>
    simp only [Op.target] at h
    simp only [applyOp, CaptureDelete]
    cases hf : __capture_find reg T with
    | none => rfl
    | some p => exact contextOf_eraseIdx reg T U p hf h
  | snap T Width Height frame skipAlpha =>
    simp only [Op.target] at h
    simp only [applyOp, captureCycle]
    cases hf : __capture_find reg T with
    | none => rfl
    | some p =>
      have hw : ∀ c, (__capture_init c Width Height false).1.win = c.win :=
        fun c => capture_init_win c Width Height false
      have h1 : contextOf (update reg p (fun c => (__capture_init c Width Height false).1)) U
          = contextOf reg U := contextOf_update_ne reg T U p _ hf h hw
      have hf1 : __capture_find (update reg p (fun c => (__capture_init c Width Height false).1))
          T = some p := by
        rw [find_update reg p _ hw T]
        exact hf
      cases frame with
      | error msg =>
        simp only
        exact (contextOf_update_ne _ T U p (fun c => { c with err := msg }) hf1 h
          (fun _ => rfl)).trans h1
      | ok src =>
        simp only
        rw [contextOf_capture_store_ne _ T U p src skipAlpha hf1 h]
        exact h1

theorem captureCycle_self (s : List LiveCapture) (T : HWND) (p : Nat) (d : LiveCapture)
    (Width Height : Int) (frame : Except String (List Nat)) (skipAlpha : Bool)
    (hfind : __capture_find s T = some p) (hd : s[p]? = some d) :
    (∀ msg, frame = .error msg →
      contextOf (captureCycle s T Width Height frame skipAlpha).1 T
        = some { (__capture_init d Width Height false).1 with err := msg }) ∧
    (∀ src, frame = .ok src →
      contextOf (captureCycle s T Width Height frame skipAlpha).1 T
        = some (storeContext clearContext (__capture_init d Width Height false).1 src
            skipAlpha)) := by
  have hw : ∀ c, (__capture_init c Width Height false).1.win = c.win :=
    fun c => capture_init_win c Width Height false
  obtain ⟨d0, hd0, hwin, -⟩ := find_some s T p hfind
  rw [hd] at hd0
  cases hd0
  constructor
  · intro msg hmsg
    subst hmsg
    unfold captureCycle
    simp only [hfind]
    have hf1 : __capture_find (update s p (fun c => (__capture_init c Width Height false).1))
        T = some p := by
      rw [find_update s p _ hw T]
      exact hfind
    exact contextOf_update_self _ T p _ (fun c => { c with err := msg }) hf1
      (update_getElem?_self s p _ d hd) (fun _ => rfl)
  · intro src hsrc
    subst hsrc
    obtain ⟨d', hd', hf', -⟩ := cycle_ok_keeps s T p d Width Height src skipAlpha hfind hd
    rw [contextOf_eq _ T p hf']
    rw [captureCycle_ok s T p d Width Height src skipAlpha hfind hd]
    have he : (s.set p (__capture_init d Width Height false).1)[p]?
        = some (__capture_init d Width Height false).1 :=
      getElem?_set_self_of_some s p d _ hd
    obtain ⟨clr, -, hclr, hst⟩ := capture_store_at _ p _ src skipAlpha he
    have hfe : __capture_find (s.set p (__capture_init d Width Height false).1)
        (__capture_init d Width Height false).1.win = some p := by
      rw [find_set s p d _ hd (hw d), hw d, hwin]
      exact hfind
    rw [hclr hfe] at hst
    exact hst

theorem capture_init_counter (d : LiveCapture) (Width Height : Int) (k : Int) (hk : 0 < k)
    (h : CounterInv k d) : CounterInv k (__capture_init d Width Height false).1 := by
  unfold __capture_init
  split
  · exact ⟨h.1, le_refl 0, hk⟩
  · exact h

theorem clearContext_counter (d : LiveCapture) (k : Int) (hk : 0 < k)
    (h : CounterInv k d) : CounterInv k (clearContext d) := by
  unfold clearContext
  split
  · exact ⟨h.1, le_refl 0, hk⟩
  · exact h

theorem forced_iff (j k : Int) (h0 : 0 ≤ j) (h1 : j < k) :
    (k > 0 ∧ (j + 1).tmod k = 0) ↔ j + 1 = k := by
  constructor
  · rintro ⟨-, hm⟩
    by_contra hne
    have hlt : j + 1 < k := by omega
    rw [Int.tmod_eq_of_lt (by omega) hlt] at hm
    omega
  · intro h
    rw [h]
    exact ⟨by omega, Int.tmod_self⟩

theorem storeContext_counter (c : LiveCapture) (src : List Nat) (skipAlpha : Bool) (k : Int)
    (hpic : c.pic ≠ none) (h : CounterInv k c) :
    CounterInv k (storeContext clearContext c src skipAlpha) := by
  obtain ⟨hfb, h0, h1⟩ := h
  by_cases hsig : frameSignature c.width c.height src skipAlpha = c.signature
  · rw [storeContext_same clearContext c src skipAlpha hsig]
    exact ⟨hfb, h0, h1⟩
  · by_cases hblk : withinFault (__capture_count_black src
        (c.width * c.height * (bytesPerPixel skipAlpha : Nat))
        (bytesPerPixel skipAlpha) (some 0)).1 c.blackFault c.width c.height = true
    · rw [storeContext_full clearContext c src skipAlpha hsig hblk]
      have hk : (0 : Int) < k := by omega
      refine ⟨?_, le_refl 0, hk⟩
      show (clearContext c).forceBlack = k
      rw [(clr_keeps clearContext (Or.inl rfl) c).2.2.2.2.1]
      exact hfb
    · rw [Bool.not_eq_true] at hblk
      by_cases hcl : c.forceBlack > 0 ∧ (c.successiveBlacks + 1).tmod c.forceBlack = 0
      · rw [storeContext_forced c src skipAlpha hsig hblk hcl]
        cases hp : c.pic with
        | none => exact absurd hp hpic
        | some b =>
          have hk : (0 : Int) < k := by omega
          unfold clearContext
          simp only [hp]
          exact ⟨hfb, le_refl 0, hk⟩
      · rw [storeContext_merge clearContext c src skipAlpha hsig hblk hcl]
        rw [hfb] at hcl
        have hne : ¬ c.successiveBlacks + 1 = k :=
          fun e => hcl ((forced_iff c.successiveBlacks k h0 h1).mpr e)
        exact ⟨hfb, by show 0 ≤ c.successiveBlacks + 1; omega,
          by show c.successiveBlacks + 1 < k; omega⟩

theorem counter_step (s : List LiveCapture) (op : Op) (T : HWND) (k : Int) (hk : 0 < k)
    (hr : Reachable s) (hop : ¬ op.registers T)
    (hI : ∀ c, contextOf s T = some c → CounterInv k c) :
    ∀ c, contextOf (applyOp s op) T = some c → CounterInv k c := by
  intro c hc
  by_cases ht : T = op.target
  · cases op with
    | new valid U getStyle blackFault forceBlack =>
      exact absurd ht.symm hop
    | setRect U l t r b =>
      simp only [Op.target] at ht
      subst ht
      simp only [applyOp, CaptureSetRect] at hc
      cases hf : __capture_find s T with
      | none =>
        simp only [hf] at hc
        exact hI c hc
      | some p =>
        simp only [hf] at hc
        obtain ⟨d, hd, -, -⟩ := find_some s T p hf
        have hs := contextOf_update_self s T p d
          (fun c => { c with leftOffset := l, topOffset := t, rightOffset := r,
                             bottomOffset := b }) hf hd (fun _ => rfl)
        rw [hs] at hc
        cases hc
        exact hI d (by rw [contextOf_eq s T p hf]; exact hd)
    | clear U =>
      simp only [Op.target] at ht
      subst ht
      simp only [applyOp, CaptureClear] at hc
      cases hf : __capture_find s T with
      | none =>
        simp only [hf] at hc
        exact hI c hc
      | some p =>
        simp only [hf] at hc
        obtain ⟨d, hd, -, -⟩ := find_some s T p hf
        rw [contextOf_update_self s T p d _ hf hd clearContext_win] at hc
        cases hc
        exact clearContext_counter d k hk (hI d (by rw [contextOf_eq s T p hf]; exact hd))
    | delete U =>
      simp only [Op.target] at ht
      subst ht
      simp only [applyOp, CaptureDelete] at hc
      cases hf : __capture_find s T with
      | none =>
        simp only [hf] at hc
        exact hI c hc
      | some p =>
        simp only [hf] at hc
        unfold contextOf at hc
        rw [find_eraseIdx_self s T p (reachable_nodup s hr) hf] at hc
        cases hc
    | snap U Width Height frame skipAlpha =>
      simp only [Op.target] at ht
      subst ht
      simp only [applyOp] at hc
      cases hf : __capture_find s T with
      | none =>
        unfold captureCycle at hc
        simp only [hf] at hc
        exact hI c hc
      | some p =>
        obtain ⟨d, hd, -, -⟩ := find_some s T p hf
        have hdI : CounterInv k d := hI d (by rw [contextOf_eq s T p hf]; exact hd)
        have hini := capture_init_counter d Width Height k hk hdI
        obtain ⟨herr, hok⟩ := captureCycle_self s T p d Width Height frame skipAlpha hf hd
        cases frame with
        | error msg =>
          rw [herr msg rfl] at hc
          cases hc
          exact hini
        | ok src =>
          rw [hok src rfl] at hc
          cases hc
          exact storeContext_counter _ src skipAlpha k
            (NodeInv_init d Width Height false
              (reachable_NodeInv s hr d (List.getElem?_mem hd))).2 hini
  · rw [contextOf_applyOp_ne s op T ht] at hc
    exact hI c hc

theorem counter_run (T : HWND) (k : Int) (hk : 0 < k) (ops : List Op) :
    ∀ s, Reachable s → (∀ op, op ∈ ops → ¬ op.registers T) →
      (∀ c, contextOf s T = some c → CounterInv k c) →
      Reachable (ops.foldl applyOp s) ∧
        ∀ c, contextOf (ops.foldl applyOp s) T = some c → CounterInv k c := by
  induction ops with
  | nil => intro s hr _ hI; exact ⟨hr, hI⟩
  | cons op rest ih =>
    intro s hr hops hI
    rw [List.foldl_cons]
    exact ih (applyOp s op) (reachable_applyOp s op hr)
      (fun o ho => hops o (List.mem_cons_of_mem op ho))
      (counter_step s op T k hk hr (hops op (List.mem_cons_self op rest)) hI)

theorem storeContext_counter_faulty (c : LiveCapture) (src : List Nat) (skipAlpha : Bool)
    (k : Int) (hpic : c.pic ≠ none) (h : CounterInv k c)
    (hsig : frameSignature c.width c.height src skipAlpha ≠ c.signature)
    (hblk : withinFault (__capture_count_black src
      (c.width * c.height * (bytesPerPixel skipAlpha : Nat))
      (bytesPerPixel skipAlpha) (some 0)).1 c.blackFault c.width c.height = false) :
    (storeContext clearContext c src skipAlpha).successiveBlacks
      = if c.successiveBlacks + 1 = k then 0 else c.successiveBlacks + 1 := by
  obtain ⟨hfb, h0, h1⟩ := h
  by_cases hcl : c.forceBlack > 0 ∧ (c.successiveBlacks + 1).tmod c.forceBlack = 0
  · rw [storeContext_forced c src skipAlpha hsig hblk hcl]
    rw [hfb] at hcl
    rw [if_pos ((forced_iff c.successiveBlacks k h0 h1).mp hcl)]
    cases hp : c.pic with
    | none => exact absurd hp hpic
    | some b =>
      unfold clearContext
      simp only [hp]
  · rw [storeContext_merge clearContext c src skipAlpha hsig hblk hcl]
    rw [hfb] at hcl
    rw [if_neg (fun e => hcl ((forced_iff c.successiveBlacks k h0 h1).mpr e))]

/-- C22 (bounded fault counter).  A context is created with `forceBlack = k`,
`k > 0`, in a list of captures that a sequence of calls produced, and any
sequence of calls follows in which no `CaptureNew` is made on its window.  Then
the context that the lookup of the window returns, if any, has `forceBlack = k`
and `0 <= successiveBlacks < k`.  A capture cycle of that window with a faulty
frame (the signature differs and the black count fails the test of the code,
`BlackPixels <= blackFault * width * height` computed in `float`) leaves
the counter at 0 when the counter after `__capture_init` was `k - 1`, which is
the store that clears the buffer, and one above it otherwise. -/
theorem fault_counter_bounded (all_captures : List LiveCapture) (IsWindow : HWND → Bool)
    (hWnd : HWND) (getStyle : Int) (blackFault : ℚ) (k : Int) (ops : List Op)
    (hr : Reachable all_captures) (hk : 0 < k)
    (hfresh : CaptureExists all_captures hWnd = false) (hvalid : IsWindow hWnd = true)
    (hops : ∀ op, op ∈ ops → ¬ op.registers hWnd) :
    (∀ c, contextOf (ops.foldl applyOp
        (CaptureNew all_captures IsWindow hWnd getStyle blackFault k).1) hWnd = some c →
      c.forceBlack = k ∧ 0 ≤ c.successiveBlacks ∧ c.successiveBlacks < k) ∧
    (∀ c Width Height src skipAlpha,
      contextOf (ops.foldl applyOp
        (CaptureNew all_captures IsWindow hWnd getStyle blackFault k).1) hWnd = some c →
      frameSignature (__capture_init c Width Height false).1.width
        (__capture_init c Width Height false).1.height src skipAlpha
        ≠ (__capture_init c Width Height false).1.signature →
      withinFault (__capture_count_black src
          ((__capture_init c Width Height false).1.width
            * (__capture_init c Width Height false).1.height * (bytesPerPixel skipAlpha : Nat))
          (bytesPerPixel skipAlpha) (some 0)).1
        (__capture_init c Width Height false).1.blackFault
        (__capture_init c Width Height false).1.width
        (__capture_init c Width Height false).1.height = false →
      ∃ c', contextOf (captureCycle (ops.foldl applyOp
          (CaptureNew all_captures IsWindow hWnd getStyle blackFault k).1) hWnd Width Height
          (.ok src) skipAlpha).1 hWnd = some c' ∧
        c'.successiveBlacks =
          if (__capture_init c Width Height false).1.successiveBlacks + 1 = k then 0
          else (__capture_init c Width Height false).1.successiveBlacks + 1) := by
  have hf : __capture_find all_captures hWnd = none := by
    unfold CaptureExists at hfresh
    cases h : __capture_find all_captures hWnd with
    | none => rfl
    | some p => rw [h] at hfresh; simp at hfresh
  have hnew := CaptureNew_create all_captures IsWindow hWnd getStyle blackFault k hf hvalid
  have hr0 : Reachable (CaptureNew all_captures IsWindow hWnd getStyle blackFault k).1 := by
    have h := reachable_applyOp all_captures (.new true hWnd getStyle blackFault k) hr
    simp only [applyOp] at h
    rw [CaptureNew_create all_captures _ hWnd getStyle blackFault k hf rfl] at h
    rw [hnew]
    exact h
  have hI0 : ∀ c, contextOf (CaptureNew all_captures IsWindow hWnd getStyle blackFault k).1 hWnd
      = some c → CounterInv k c := by
    intro c hc
    rw [hnew] at hc
    simp only at hc
    rw [contextOf_cons] at hc
    rw [if_pos (show (newContext hWnd getStyle _ k).win = hWnd from rfl)] at hc
    cases hc
    exact ⟨rfl, le_refl 0, hk⟩
  obtain ⟨hrs, hIs⟩ := counter_run hWnd k hk ops _ hr0 hops hI0
  refine ⟨fun c hc => hIs c hc, ?_⟩
  intro c Width Height src skipAlpha hc hsig hblk
  obtain ⟨p, hp, hcp⟩ := (contextOf_some _ hWnd c).mp hc
  have hini := capture_init_counter c Width Height k hk (hIs c hc)
  have hpic := (NodeInv_init c Width Height false
    (reachable_NodeInv _ hrs c (List.getElem?_mem hcp))).2
  refine ⟨_, (captureCycle_self _ hWnd p c Width Height (.ok src) skipAlpha hp hcp).2 src rfl, ?_⟩
  exact storeContext_counter_faulty _ src skipAlpha k hpic hini hsig hblk

theorem fault_counter_bounded_witness :
    (∃ c, contextOf (List.foldl applyOp (CaptureNew [] (fun _ => true) 7 CAPTURE_WINDOW 0 2).1
        [Op.snap 7 2 1 (.ok [0, 0, 0, 0, 0, 0]) false, Op.clear 7]) 7 = some c ∧
      c.forceBlack = 2 ∧ 0 ≤ c.successiveBlacks ∧ c.successiveBlacks < 2) ∧
    (∃ c', contextOf (captureCycle (List.foldl applyOp
        (CaptureNew [] (fun _ => true) 7 CAPTURE_WINDOW 0 2).1 []) 7 2 1
        (.ok [0, 0, 0, 0, 0, 0]) false).1 7 = some c' ∧ c'.successiveBlacks = 1) := by
  have hops : ∀ op, op ∈ [Op.snap 7 2 1 (.ok [0, 0, 0, 0, 0, 0]) false, Op.clear 7] →
      ¬ op.registers 7 := by
    intro op hop
    simp only [List.mem_cons, List.mem_singleton, List.not_mem_nil, or_false] at hop
    rcases hop with rfl | rfl
    · exact fun h => h
    · exact fun h => h
  have hnew : (CaptureNew [] (fun _ => true) 7 CAPTURE_WINDOW 0 2).1
      = [newContext 7 CAPTURE_WINDOW 0 2] := by
    rw [CaptureNew_create [] _ 7 CAPTURE_WINDOW 0 2 rfl rfl]
    norm_num
  constructor
  · have hex : CaptureExists (List.foldl applyOp
        (CaptureNew [] (fun _ => true) 7 CAPTURE_WINDOW 0 2).1
        [Op.snap 7 2 1 (.ok [0, 0, 0, 0, 0, 0]) false, Op.clear 7]) 7 = true := by
      have hw : wins (List.foldl applyOp (CaptureNew [] (fun _ => true) 7 CAPTURE_WINDOW 0 2).1
          [Op.snap 7 2 1 (.ok [0, 0, 0, 0, 0, 0]) false, Op.clear 7])
          = wins [newContext 7 CAPTURE_WINDOW 0 2] := by
        simp only [List.foldl_cons, List.foldl_nil]
        rw [wins_applyOp_clear, wins_applyOp_snap, hnew]
      unfold CaptureExists
      rw [find_eq_of_wins _ _ hw]
      rfl
    obtain ⟨p, c, -, -, -, hctx⟩ := contextOf_of_exists _ 7 hex
    exact ⟨c, hctx, (fault_counter_bounded [] (fun _ => true) 7 CAPTURE_WINDOW 0 2
      [Op.snap 7 2 1 (.ok [0, 0, 0, 0, 0, 0]) false, Op.clear 7] ⟨[], rfl⟩ (by decide) rfl rfl
      hops).1 c hctx⟩
  · have hc : contextOf (List.foldl applyOp
        (CaptureNew [] (fun _ => true) 7 CAPTURE_WINDOW 0 2).1 []) 7
        = some (newContext 7 CAPTURE_WINDOW 0 2) := by
      rw [List.foldl_nil, hnew]
      rfl
    have he : (__capture_init (newContext 7 CAPTURE_WINDOW 0 2) 2 1 false).1 =
        { newContext 7 CAPTURE_WINDOW 0 2 with
          height := 1, width := 2, pic := some (List.replicate 6 0), successiveBlacks := 0 } :=
      capture_init_fresh (newContext 7 CAPTURE_WINDOW 0 2) 2 1 rfl (by decide)
    have hcnt : (__capture_count_black [0, 0, 0, 0, 0, 0]
        (2 * 1 * ((bytesPerPixel false : Nat) : Int)) (bytesPerPixel false) (some 0)).1 = 2 := by
      decide
    obtain ⟨c', h1, h2⟩ := (fault_counter_bounded [] (fun _ => true) 7 CAPTURE_WINDOW 0 2 []
      ⟨[], rfl⟩ (by decide) rfl rfl (fun _ h => absurd h (List.not_mem_nil _))).2
      (newContext 7 CAPTURE_WINDOW 0 2) 2 1 [0, 0, 0, 0, 0, 0] false hc
      (by rw [he]; decide)
      (by
        rw [he]
        simp only
        rw [hcnt]
        exact (withinFault_exact 2 0 2 1 0 0 (by decide) (by decide) (by decide)
          (by norm_num) (by norm_num) (by decide) (by decide)).trans (by decide))
    refine ⟨c', h1, ?_⟩
    rw [h2, he]
    decide

theorem blackCount_le (src : List Nat) (bpp n : Nat) : blackCount src bpp n ≤ n := by
  unfold blackCount
  exact (List.length_filter_le _ _).trans (le_of_eq (List.length_range n))

theorem blackCount_replicate_zero (m n : Nat) :
    blackCount (List.replicate m 0) (bytesPerPixel false) n = n := by
  unfold blackCount
  rw [List.filter_eq_self.mpr, List.length_range]
  intro k _
  exact decide_eq_true (pixel_replicate_zero m k)

theorem frameSignature_replicate_zero (W H m : Nat) :
    frameSignature (W : Int) (H : Int) (List.replicate m 0) false = 0 := by
  unfold frameSignature
  have hsz : (W : Int) * (H : Int) * ((bytesPerPixel false : Nat) : Int)
      = ((W * H * bytesPerPixel false : Nat) : Int) := by push_cast; rfl
  rw [hsz, capture_count_black_snd]
  have hs : signatureSum (List.replicate m 0) (bytesPerPixel false)
      (if false = true then 5 else 20) (W * H) = 0 := by
    unfold signatureSum
    apply List.sum_eq_zero
    intro x hx
    rw [List.mem_map] at hx
    obtain ⟨k, -, rfl⟩ := hx
    have h0 : ∀ i, (List.replicate m 0).getD i 0 = 0 := by
      intro i
      rw [List.getD_eq_getElem?_getD, List.getElem?_replicate]
      split <;> rfl
    rw [h0, h0, h0]
    rfl
  rw [hs]
  rfl

/-- With the ratio 1, a width of `2^24 + 1` and a height of 3 the float
product is `3 * 2^24`, and the count `3 * 2^24 + 3` of an all black frame is
`3 * 2^24 + 4` as a float. -/
theorem withinFault_wide :
    withinFault 50331651 1 16777217 3 = false := by
  have hw : toFloat (((16777217 : Int) : ℚ)) = 16777216 := by
    have := toFloat_of_tie_even (16777217 : ℚ) 24 8388608 (by norm_num) (by norm_num)
      (by norm_num) (by decide)
    norm_num at this ⊢
    exact this
  have h3 : toFloat (((3 : Int) : ℚ)) = 3 := by
    simpa using toFloat_int 3 (by decide)
  have ha : toFloat ((1 : ℚ) * 16777216) = 16777216 := by
    have := toFloat_exact 1 24 (by decide)
    norm_num at this ⊢
    exact this
  have hb : toFloat ((16777216 : ℚ) * 3) = 50331648 := by
    have := toFloat_exact 3 24 (by decide)
    norm_num at this ⊢
    exact this
  have hc : toFloat (((50331651 : Int) : ℚ)) = 50331652 := by
    have := toFloat_of_near (50331651 : ℚ) 25 12582913 (by norm_num) (by norm_num)
      (by norm_num [abs_lt])
    norm_num at this ⊢
    exact this
  unfold withinFault
  rw [hw, h3, ha, hb, hc]
  rw [decide_eq_false_iff_not]
  norm_num

/-- C23 as stated fails where the width is not a float.  A context of
`16777217 x 3` pixels holds the ratio 1; the frame is all black, so its count
is the number of pixels, and its signature 0 differs from the stored one.  The
conversion of the width to `float` gives `16777216`, the product is `50331648`,
the count `50331651` converts to `50331652`: the store takes the faulty branch
and `successiveBlacks` is 1. -/
theorem ratio_one_faulty_at_wide_frame :
    (thresholdContext 1 16777217 3).blackFault = 1 ∧
    frameSignature 16777217 3 (List.replicate (16777217 * 3 * 3) 0) false
      ≠ (thresholdContext 1 16777217 3).signature ∧
    ∃ c', (__capture_store [thresholdContext 1 16777217 3] 0
        (List.replicate (16777217 * 3 * 3) 0) false).1[0]? = some c' ∧
      c'.successiveBlacks = 1 := by
  have hsig : frameSignature (thresholdContext 1 16777217 3).width
      (thresholdContext 1 16777217 3).height (List.replicate (16777217 * 3 * 3) 0) false
      ≠ (thresholdContext 1 16777217 3).signature := by
    have h := frameSignature_replicate_zero 16777217 3 (16777217 * 3 * 3)
    show frameSignature ((16777217 : Nat) : Int) ((3 : Nat) : Int) _ false ≠ -1
    rw [h]
    decide
  refine ⟨rfl, hsig, ?_⟩
  obtain ⟨d', b', h1, -, -, -, -, -, -, -, -, -, -, h3, -⟩ :=
    faulty_step [thresholdContext 1 16777217 3] 0 (thresholdContext 1 16777217 3)
      (List.replicate (16777217 * 3 * 3) 9) (List.replicate (16777217 * 3 * 3) 0) false
      16777217 3 5 0 rfl (find_head _ []) rfl rfl rfl (List.length_replicate _ _) rfl rfl
      (by decide) hsig
      (by rw [blackCount_replicate_zero]; exact withinFault_wide)
  exact ⟨d', h1, (h3 (by decide)).1⟩

/-- C23 (a ratio of 1 never classifies a frame as faulty), amended.  For a
raw buffer of `W * H` pixels the count `__capture_count_black` returns is
between 0 and `W * H`.  So on a context with `blackFault = 1` whose width and
height are exact as floats (every one up to `2^24` is), the store of a frame
whose signature differs from the one of the context is a full replace: the
buffer holds the frame, every pixel in the order of the cache, and
`successiveBlacks` is 0; and a context whose `successiveBlacks` is 0 has it 0
after any store. -/
theorem ratio_one_never_faulty (reg : List LiveCapture) (p : Nat) (c : LiveCapture)
    (buf src : List Nat) (skipAlpha : Bool) (W H : Nat)
    (hc : reg[p]? = some c) (hW : c.width = W) (hH : c.height = H)
    (hpic : c.pic = some buf) (hbuf : buf.length = W * H * 3) (hbf : c.blackFault = 1)
    (hWf : toFloat (W : ℚ) = (W : ℚ)) (hHf : toFloat (H : ℚ) = (H : ℚ)) :
    0 ≤ (__capture_count_black src ((W : Int) * (H : Int) * ((bytesPerPixel skipAlpha : Nat) : Int))
      (bytesPerPixel skipAlpha) (some 0)).1 ∧
    (__capture_count_black src ((W : Int) * (H : Int) * ((bytesPerPixel skipAlpha : Nat) : Int))
      (bytesPerPixel skipAlpha) (some 0)).1 ≤ (W : Int) * (H : Int) ∧
    (frameSignature c.width c.height src skipAlpha ≠ c.signature →
      ∃ c' buf', (__capture_store reg p src skipAlpha).1[p]? = some c' ∧
        c'.pic = some buf' ∧ buf'.length = W * H * 3 ∧
        (∀ k, k < W * H →
          pixel buf' 3 k = permute (hasFlag c.getStyle CAPTURE_REVERSE)
            (pixel src (bytesPerPixel skipAlpha) k)) ∧
        c'.successiveBlacks = 0) ∧
    (c.successiveBlacks = 0 →
      ∃ c', (__capture_store reg p src skipAlpha).1[p]? = some c' ∧
        c'.successiveBlacks = 0) := by
  have hle := blackCount_le src (bytesPerPixel skipAlpha) (W * H)
  have hfull : frameSignature c.width c.height src skipAlpha ≠ c.signature →
      ∃ c' buf', (__capture_store reg p src skipAlpha).1[p]? = some c' ∧
        c'.pic = some buf' ∧ buf'.length = W * H * 3 ∧
        (∀ k, k < W * H →
          pixel buf' 3 k = permute (hasFlag c.getStyle CAPTURE_REVERSE)
            (pixel src (bytesPerPixel skipAlpha) k)) ∧
        c'.successiveBlacks = 0 := by
    intro hsig
    have hblack : withinFault ((blackCount src (bytesPerPixel skipAlpha) (W * H) : Nat) : Int)
        c.blackFault (W : Int) (H : Int) = true := by
      unfold withinFault
      rw [decide_eq_true_iff]
      simp only [Int.cast_natCast]
      rw [hbf, hWf, one_mul, hWf, hHf]
      apply toFloat_mono _ _ (Nat.cast_nonneg _)
      exact_mod_cast hle
    obtain ⟨c', buf', h1, h2, h3, h4, h5, -, -⟩ :=
      full_step reg p c buf src skipAlpha W H hc hW hH hpic hbuf hsig hblack
    exact ⟨c', buf', h1, h2, h3, h4, h5⟩
  rw [capture_count_black_fst]
  refine ⟨Int.ofNat_nonneg _, by exact_mod_cast hle, hfull, ?_⟩
  intro hsb
  by_cases hsig : frameSignature c.width c.height src skipAlpha = c.signature
  · rw [capture_store_same reg p c src skipAlpha hc hsig]
    exact ⟨c, hc, hsb⟩
  · obtain ⟨c', -, h1, -, -, -, h5⟩ := hfull hsig
    exact ⟨c', h1, h5⟩

theorem ratio_one_never_faulty_witness :
    0 ≤ (__capture_count_black [0, 0, 0, 0, 0, 0]
      (((2 : Nat) : Int) * ((1 : Nat) : Int) * ((bytesPerPixel false : Nat) : Int))
      (bytesPerPixel false) (some 0)).1 ∧
    (__capture_count_black [0, 0, 0, 0, 0, 0]
      (((2 : Nat) : Int) * ((1 : Nat) : Int) * ((bytesPerPixel false : Nat) : Int))
      (bytesPerPixel false) (some 0)).1 ≤ ((2 : Nat) : Int) * ((1 : Nat) : Int) ∧
    (frameSignature (sampleContext 1 2).width (sampleContext 1 2).height [0, 0, 0, 0, 0, 0] false
        ≠ (sampleContext 1 2).signature →
      ∃ c' buf', (__capture_store [sampleContext 1 2] 0 [0, 0, 0, 0, 0, 0] false).1[0]?
          = some c' ∧
        c'.pic = some buf' ∧ buf'.length = 2 * 1 * 3 ∧
        (∀ k, k < 2 * 1 →
          pixel buf' 3 k = permute (hasFlag (sampleContext 1 2).getStyle CAPTURE_REVERSE)
            (pixel [0, 0, 0, 0, 0, 0] (bytesPerPixel false) k)) ∧
        c'.successiveBlacks = 0) ∧
    ((sampleContext 1 2).successiveBlacks = 0 →
      ∃ c', (__capture_store [sampleContext 1 2] 0 [0, 0, 0, 0, 0, 0] false).1[0]? = some c' ∧
        c'.successiveBlacks = 0) ∧
    frameSignature (sampleContext 1 2).width (sampleContext 1 2).height [0, 0, 0, 0, 0, 0] false
      ≠ (sampleContext 1 2).signature ∧
    blackCount [0, 0, 0, 0, 0, 0] (bytesPerPixel false) 2 = 2 :=
  ⟨(ratio_one_never_faulty [sampleContext 1 2] 0 (sampleContext 1 2) [9, 9, 9, 9, 9, 9]
      [0, 0, 0, 0, 0, 0] false 2 1 rfl rfl rfl rfl rfl rfl
      (by simpa using toFloat_int 2 (by decide)) (by simpa using toFloat_int 1 (by decide))).1,
    (ratio_one_never_faulty [sampleContext 1 2] 0 (sampleContext 1 2) [9, 9, 9, 9, 9, 9]
      [0, 0, 0, 0, 0, 0] false 2 1 rfl rfl rfl rfl rfl rfl
      (by simpa using toFloat_int 2 (by decide)) (by simpa using toFloat_int 1 (by decide))).2.1,
    (ratio_one_never_faulty [sampleContext 1 2] 0 (sampleContext 1 2) [9, 9, 9, 9, 9, 9]
      [0, 0, 0, 0, 0, 0] false 2 1 rfl rfl rfl rfl rfl rfl
      (by simpa using toFloat_int 2 (by decide)) (by simpa using toFloat_int 1 (by decide))).2.2.1,
    (ratio_one_never_faulty [sampleContext 1 2] 0 (sampleContext 1 2) [9, 9, 9, 9, 9, 9]
      [0, 0, 0, 0, 0, 0] false 2 1 rfl rfl rfl rfl rfl rfl
      (by simpa using toFloat_int 2 (by decide)) (by simpa using toFloat_int 1 (by decide))).2.2.2,
    by decide, by decide⟩

theorem signatureSum_congr (src1 src2 : List Nat) (bpp stride n : Nat)
    (h : ∀ k, k < n → k % stride = 0 → pixel src1 bpp k = pixel src2 bpp k) :
    signatureSum src2 bpp stride n = signatureSum src1 bpp stride n := by
  unfold signatureSum
  congr 1
  apply List.map_congr_left
  intro k hk
  rw [List.mem_filter, List.mem_range] at hk
  have hp := h k hk.1 (of_decide_eq_true hk.2)
  unfold pixel at hp
  simp only [Prod.mk.injEq] at hp
  rw [hp.1, hp.2.1, hp.2.2]

theorem frameSignature_blind (width height : Int) (src1 src2 : List Nat) (skipAlpha : Bool)
    (h : ∀ k, k < (width * height).toNat →
      (k * bytesPerPixel skipAlpha) % SIGNATURE_SKIP = 0 →
      pixel src1 (bytesPerPixel skipAlpha) k = pixel src2 (bytesPerPixel skipAlpha) k) :
    frameSignature width height src2 skipAlpha = frameSignature width height src1 skipAlpha := by
  unfold frameSignature
  by_cases hn : 0 ≤ width * height
  · have hsz : width * height * ((bytesPerPixel skipAlpha : Nat) : Int)
        = (((width * height).toNat * bytesPerPixel skipAlpha : Nat) : Int) := by
      rw [Nat.cast_mul, Int.toNat_of_nonneg hn]
    rw [hsz, capture_count_black_snd, capture_count_black_snd]
    congr 3
    apply signatureSum_congr
    intro k hk hmod
    apply h k hk
    unfold bytesPerPixel SIGNATURE_SKIP
    cases skipAlpha with
    | true =>
      simp only [if_true] at hmod ⊢
      omega
    | false =>
      simp only [Bool.false_eq_true, if_false] at hmod ⊢
      omega
  · have hb : (0 : Int) ≤ ((bytesPerPixel skipAlpha : Nat) : Int) := Int.ofNat_nonneg _
    have hneg : width * height * ((bytesPerPixel skipAlpha : Nat) : Int) ≤ 0 := by
      nlinarith
    have h0 : (width * height * ((bytesPerPixel skipAlpha : Nat) : Int)).toNat = 0 :=
      Int.toNat_eq_zero.mpr hneg
    unfold __capture_count_black
    simp only [h0]
    rfl

/-- C24 (signature blindness).  Two raw buffers that agree on the three
bytes of every pixel the signature samples (the pixels whose byte offset is a
multiple of `SIGNATURE_SKIP`) have the same signature, whatever their other
bytes.  So for a context whose signature is that of the first buffer, storing
the second one leaves the whole list of captures as it was, the buffer of the
context included. -/
theorem signature_blindness (reg : List LiveCapture) (p : Nat) (c : LiveCapture)
    (src1 src2 : List Nat) (skipAlpha : Bool) (hc : reg[p]? = some c)
    (hagree : ∀ k, k < (c.width * c.height).toNat →
      (k * bytesPerPixel skipAlpha) % SIGNATURE_SKIP = 0 →
      pixel src1 (bytesPerPixel skipAlpha) k = pixel src2 (bytesPerPixel skipAlpha) k)
    (hsig : c.signature = frameSignature c.width c.height src1 skipAlpha) :
    frameSignature c.width c.height src2 skipAlpha
      = frameSignature c.width c.height src1 skipAlpha ∧
    (__capture_store reg p src2 skipAlpha).1 = reg ∧
    cacheAt (__capture_store reg p src2 skipAlpha).1 p = c.pic.getD [] := by
  have hs := frameSignature_blind c.width c.height src1 src2 skipAlpha hagree
  have hst := capture_store_same reg p c src2 skipAlpha hc (by rw [hs, hsig])
  refine ⟨hs, hst, ?_⟩
  rw [hst]
  unfold cacheAt
  rw [hc]

theorem signature_blindness_witness :
    [1, 2, 3, 0, 0, 0] ≠ [1, 2, 3, 9, 8, 7] ∧
    frameSignature 2 1 [1, 2, 3, 9, 8, 7] false = frameSignature 2 1 [1, 2, 3, 0, 0, 0] false ∧
    (__capture_store [{ sampleContext 0 2 with signature := 6 }] 0
      [1, 2, 3, 9, 8, 7] false).1 = [{ sampleContext 0 2 with signature := 6 }] ∧
    cacheAt (__capture_store [{ sampleContext 0 2 with signature := 6 }] 0
      [1, 2, 3, 9, 8, 7] false).1 0 = [9, 9, 9, 9, 9, 9] :=
  ⟨by decide,
    signature_blindness [{ sampleContext 0 2 with signature := 6 }] 0
      { sampleContext 0 2 with signature := 6 } [1, 2, 3, 0, 0, 0] [1, 2, 3, 9, 8, 7] false
      rfl (by decide) (by decide)⟩

theorem capture_init_dims (c : LiveCapture) (Width Height : Int) (force : Bool) :
    (__capture_init c Width Height force).1.width = Width ∧
      (__capture_init c Width Height force).1.height = Height := by
  unfold __capture_init
  split
  · exact ⟨rfl, rfl⟩
  · rename_i h
    simp only [not_or, not_not] at h
    exact ⟨h.2.1, h.1⟩

/-- C25 at a failing input.  A window of 100 x 80 pixels is registered with
`CAPTURE_RECT` and `CaptureSetRect` sets the left offset to 120.  In
`CaptureSnap` the store width is `100 - 120 = -20`, which no test raises, and
the rounding makes it `-16`: `__capture_init` is called with the width `-16`
and the height `80`, a buffer size of `-3840`, and the context has that width
after the call. -/
theorem snap_passes_negative_width :
    ∃ c, contextOf (run [Op.new true 7 CAPTURE_RECT 0 0, Op.setRect 7 120 0 0 0]) 7 = some c ∧
      c.leftOffset = 120 ∧
      (snapGeometry c sampleWindowInfo 20 6).storeWidth = -16 ∧
      (snapGeometry c sampleWindowInfo 20 6).storeHeight = 80 ∧
      (snapGeometry c sampleWindowInfo 20 6).storeWidth
        * (snapGeometry c sampleWindowInfo 20 6).storeHeight * 3 = -3840 ∧
      CaptureSnap (run [Op.new true 7 CAPTURE_RECT 0 0, Op.setRect 7 120 0 0 0]) 7
          (sampleSnapInputs [])
        = captureCycle (run [Op.new true 7 CAPTURE_RECT 0 0, Op.setRect 7 120 0 0 0]) 7
            (-16) 80 (.ok []) false ∧
      ∃ c', contextOf (CaptureSnap (run [Op.new true 7 CAPTURE_RECT 0 0,
          Op.setRect 7 120 0 0 0]) 7 (sampleSnapInputs [])).1 7 = some c' ∧
        c'.width = -16 ∧ c'.height = 80 := by
  have hsnap : CaptureSnap (run [Op.new true 7 CAPTURE_RECT 0 0, Op.setRect 7 120 0 0 0]) 7
      (sampleSnapInputs [])
      = captureCycle (run [Op.new true 7 CAPTURE_RECT 0 0, Op.setRect 7 120 0 0 0]) 7
          (-16) 80 (.ok []) false := rfl
  refine ⟨_, rfl, rfl, by decide, by decide, by decide, hsnap, ?_⟩
  rw [hsnap]
  have hf : __capture_find (run [Op.new true 7 CAPTURE_RECT 0 0, Op.setRect 7 120 0 0 0]) 7
      = some 0 := rfl
  obtain ⟨d, hd, -, -⟩ := find_some _ 7 0 hf
  refine ⟨_, (captureCycle_self _ 7 0 d (-16) 80 (.ok []) false hf hd).2 [] rfl, ?_, ?_⟩
  · rw [(storeContext_keeps clearContext (Or.inl rfl) _ [] false).2.1]
    exact (capture_init_dims d (-16) 80 false).1
  · rw [(storeContext_keeps clearContext (Or.inl rfl) _ [] false).2.2.1]
    exact (capture_init_dims d (-16) 80 false).2

theorem set_zero_of_getD (dst : List Nat) :
    ∀ m, dst.getD m 0 = 0 → dst.set m 0 = dst := by
  induction dst with
  | nil => intro m _; rfl
  | cons a rest ih =>
    intro m hm
    cases m with
    | zero =>
      simp only [List.getD_cons_zero] at hm
      rw [List.set_cons_zero, hm]
    | succ m =>
      simp only [List.getD_cons_succ] at hm
      rw [List.set_cons_succ, ih m hm]

theorem copyPixel_zero (src : List Nat) (reverse : Bool) (i j : Nat) (dst : List Nat)
    (hz : ∀ m, j ≤ m → dst.getD m 0 = 0) :
    copyPixel src reverse true i j dst = copyPixel src reverse false i j dst := by
  by_cases hb : blackAt src i = true
  · have h3 := hb
    unfold blackAt at h3
    simp only [Bool.and_eq_true, beq_iff_eq] at h3
    obtain ⟨⟨h2, h1⟩, h0⟩ := h3
    have e2 : dst.set (j + 2) 0 = dst := set_zero_of_getD dst _ (hz _ (by omega))
    have e1 : dst.set (j + 1) 0 = dst := set_zero_of_getD dst _ (hz _ (by omega))
    have e0 : dst.set (j + 0) 0 = dst := set_zero_of_getD dst _ (hz _ (by omega))
    unfold copyPixel
    simp only [hb, Bool.and_self, Bool.not_true, Bool.false_and, Bool.not_false, if_true,
      h0, h1, h2, e0, e1, e2]
    cases reverse <;> simp
  · unfold copyPixel
    simp only [hb, Bool.and_false, Bool.false_and, Bool.not_false, if_true]

theorem copyPixel_getD_above (src : List Nat) (reverse skipBlack : Bool) (i j : Nat)
    (dst : List Nat) (m : Nat) (hm : j + 3 ≤ m) :
    (copyPixel src reverse skipBlack i j dst).getD m 0 = dst.getD m 0 := by
  unfold copyPixel
  split
  · split
    · rw [getD_set, getD_set, getD_set, if_neg (by omega), if_neg (by omega), if_neg (by omega)]
    · rw [getD_set, getD_set, getD_set, if_neg (by omega), if_neg (by omega), if_neg (by omega)]
  · rfl

theorem copyLoop_zero (src : List Nat) (size : Int) (bpp : Nat) (reverse : Bool) :
    ∀ (fuel i j : Nat) (dst : List Nat), (∀ m, j ≤ m → dst.getD m 0 = 0) →
      copyLoop src size bpp reverse true fuel i j dst
        = copyLoop src size bpp reverse false fuel i j dst := by
  intro fuel
  induction fuel with
  | zero => intro i j dst _; rfl
  | succ fuel ih =>
    intro i j dst hz
    unfold copyLoop
    by_cases hi : (i : Int) < size
    · rw [if_pos hi, if_pos hi, copyPixel_zero src reverse i j dst hz]
      apply ih
      intro m hm
      rw [copyPixel_getD_above src reverse false i j dst m hm]
      exact hz m (by omega)
    · rw [if_neg hi, if_neg hi]

theorem getD_replicate_zero (n m : Nat) : (List.replicate n 0).getD m 0 = 0 := by
  rw [List.getD_eq_getElem?_getD, List.getElem?_replicate]
  split <;> rfl

/-- C26 (merging onto an empty cache equals copying).  For any raw frame,
width, height, alpha setting and channel order, `__capture_copy` with
`skipBlack` set and `__capture_copy` with `skipBlack` clear give the same
buffer when the destination is all zero, whatever its length; so they do on the
buffer `__capture_init` allocates when it reinitialises and on the buffer
`CaptureClear` has zeroed over its whole length. -/
theorem merge_on_empty_is_copy (src : List Nat) (width height : Int)
    (skipAlpha reverse : Bool) (n : Nat) (c : LiveCapture) (Width Height : Int)
    (force : Bool) (buf : List Nat) :
    __capture_copy (List.replicate n 0) src width height skipAlpha reverse true
      = __capture_copy (List.replicate n 0) src width height skipAlpha reverse false ∧
    (∀ b, (__capture_init c Width Height force).2 = true →
      (__capture_init c Width Height force).1.pic = some b →
      __capture_copy b src width height skipAlpha reverse true
        = __capture_copy b src width height skipAlpha reverse false) ∧
    (∀ b, (clearContext { c with pic := some buf }).pic = some b →
      (buf.length : Int) ≤ c.width * c.height * 3 →
      __capture_copy b src width height skipAlpha reverse true
        = __capture_copy b src width height skipAlpha reverse false) := by
  have key : ∀ k, __capture_copy (List.replicate k 0) src width height skipAlpha reverse true
      = __capture_copy (List.replicate k 0) src width height skipAlpha reverse false := by
    intro k
    unfold __capture_copy
    simp only
    cases reverse with
    | true =>
      simp only [if_true]
      exact copyLoop_zero src _ _ true _ 0 0 _ (fun m _ => getD_replicate_zero k m)
    | false =>
      simp only [Bool.false_eq_true, if_false]
      exact copyLoop_zero src _ _ false _ 0 0 _ (fun m _ => getD_replicate_zero k m)
  refine ⟨key n, ?_, ?_⟩
  · intro b hre hb
    unfold __capture_init at hre hb
    split at hre
    · rename_i hcond
      rw [if_pos hcond] at hb
      simp only [Option.some.injEq] at hb
      rw [← hb]
      exact key _
    · exact absurd hre (by simp)
  · intro b hb hlen
    unfold clearContext at hb
    simp only [Option.some.injEq] at hb
    rw [← hb, ZeroMemory_eq_replicate buf _ (by omega)]
    exact key _

end Capture
